import Mathlib

/-!
# Emagic EMI 2|6 / 6|2m firmware loader (`emi.c`)

A shallow embedding of the firmware loader and a verification of its upload
sequence.  Every definition below is named after the C function, macro or
loop of `emi.c` that it embeds.

Modelling conventions

* Everything the driver does to the outside world (device writes, sleeps,
  allocations, firmware requests and releases) is appended to a trace of
  `Event`s, in program order.
* Everything the outside world answers (results of control transfers,
  allocation results, the blobs handed to the callbacks) is read from an
  `Env`, indexed by call number, so that quantifying over `Env` covers every
  behaviour of the device and of the kernel services.
* The do/while loop of the bitstream stage need not terminate; it is run with
  a fuel counting its outer iterations, and a run that exhausts the fuel ends
  with status `spinning`.
-/

namespace Emi

/-! ## Constants of `emi.c` -/

def EMI26_PRODUCT_ID : Nat := 0x0100
def EMI26B_PRODUCT_ID : Nat := 0x0102
def EMI62_PRODUCT_ID : Nat := 0x0110

/-- Vendor request: Anchor upload to internal RAM (implemented in the core). -/
def ANCHOR_LOAD_INTERNAL : Nat := 0xA0
/-- Vendor request: upload to external RAM (needs the loader firmware). -/
def ANCHOR_LOAD_EXTERNAL : Nat := 0xA3
/-- Vendor request: upload to the FPGA (Emagic extension). -/
def ANCHOR_LOAD_FPGA : Nat := 0xA5
/-- Highest internal RAM address of the AN2131Q. -/
def MAX_INTERNAL_ADDRESS : Nat := 0x1B3F
/-- EZ-USB control and status register; bit 0 controls the 8051 reset. -/
def CPUCS_REG : Nat := 0x7F92
/-- Size of the transfer buffer: 1023 bytes, not 1024. -/
def FW_LOAD_SIZE : Nat := 1023

/-- The macro `INTERNAL_RAM(address)`: `address <= MAX_INTERNAL_ADDRESS`. -/
def INTERNAL_RAM (address : Nat) : Bool := decide (address ≤ MAX_INTERNAL_ADDRESS)

def EINVAL : Int := 22
def ENOMEM : Int := 12

/-! ## Firmware images (`linux/ihex.h`) -/

/-- One binary ihex record: `addr` is `be32_to_cpu(rec->addr)`, `data` the
payload bytes `rec->data[0 .. len)`. -/
structure ihex_binrec where
  addr : Nat
  data : List Nat
deriving DecidableEq, Repr

/-- The length field `be16_to_cpu(rec->len)`: the number of payload bytes. -/
def ihex_binrec.len (r : ihex_binrec) : Nat := r.data.length

/-- A blob handed over by the firmware loader (`struct firmware`).  `first` is
the record `fw->data` points at; `rest` are the records that
`ihex_next_binrec` yields after it, up to the one where it returns `NULL`.
`valid` tells whether `ihex_validate_fw` accepts the blob. -/
structure firmware where
  valid : Bool
  first : ihex_binrec
  rest : List ihex_binrec
deriving DecidableEq, Repr

/-- The kernel helper `ihex_validate_fw`: `0` for a well-formed blob,
`-EINVAL` otherwise. -/
def ihex_validate_fw (fw : firmware) : Int := if fw.valid then 0 else -EINVAL

/-- The record pointer `(const struct ihex_binrec *)fw->data`.  A record
pointer is the list of records from the one pointed at onwards; `[]` is
`NULL`. -/
def firmware.data (fw : firmware) : List ihex_binrec := fw.first :: fw.rest

/-- The kernel helper `ihex_next_binrec`: the following record, or `NULL`. -/
def ihex_next_binrec : List ihex_binrec → List ihex_binrec
  | [] => []
  | _ :: rest => rest

/-! ## Events and environment -/

/-- What the driver does, as seen from outside. -/
inductive Event where
  | usb_get_dev
  | kzalloc
  | request_firmware_nowait (name : String)
  | kmalloc (size : Nat)
  | emi_set_reset (reset_bit : Nat)
  | emi_writememory (address : Nat) (data : List Nat) (request : Nat)
  | memcpy (offset : Nat) (n : Nat)
  | msleep (msecs : Nat)
  | kfree_buf
  | emi_detach
  | release_firmware (fw : firmware)
  | usb_driver_release_interface
  | usb_put_dev
  | kfree_context
deriving DecidableEq, Repr

abbrev Trace := List Event

/-- A device operation: a call of `emi_writememory`. -/
def Event.is_write : Event → Bool
  | .emi_writememory _ _ _ => true
  | _ => false

/-- The device operations of a trace, in order. -/
def device_ops (tr : Trace) : List Event := tr.filter Event.is_write

/-- Number of device operations issued so far. -/
def nwrites (tr : Trace) : Nat := (device_ops tr).length

/-- What the outside world answers.  `kmemdup n` and `usb_control_msg n`
answer the `n`-th call of `emi_writememory` (counting from 0);
`request_firmware_nowait n` is the return value of the `n`-th firmware request
of the session and `fw_delivered n` the blob later passed to its callback
(`none` is `NULL`). -/
structure Env where
  kzalloc : Bool
  request_firmware_nowait : Nat → Int
  fw_delivered : Nat → Option firmware
  kmalloc : Bool
  kmemdup : Nat → Bool
  usb_control_msg : Nat → Int

/-- The value the `n`-th call of `emi_writememory` returns. -/
def Env.result (env : Env) (n : Nat) : Int :=
  if env.kmemdup n then env.usb_control_msg n else -ENOMEM

/-! ## `emi_writememory`, `emi_set_reset` -/

/-- `emi_writememory(dev, address, data, length, request)`: duplicates
`length` bytes of `data`, sends them in one control transfer and returns its
result, or `-ENOMEM` when the duplicate cannot be allocated. -/
def emi_writememory (env : Env) (tr : Trace) (address : Nat) (data : List Nat)
    (length : Nat) (request : Nat) : Int × Trace :=
  (if env.kmemdup (nwrites tr) then env.usb_control_msg (nwrites tr) else -ENOMEM,
   tr ++ [Event.emi_writememory address (data.take length) request])

/-- `emi_set_reset(dev, reset_bit)`: one byte written to `CPUCS_REG` with
request `0xa0`. -/
def emi_set_reset (env : Env) (tr : Trace) (reset_bit : Nat) : Int × Trace :=
  emi_writememory env (tr ++ [Event.emi_set_reset reset_bit]) CPUCS_REG [reset_bit] 1 0xa0

/-! ## Control flow inside `emi_firmware_handler` -/

/-- Where control is after a piece of the handler body. -/
inductive Flow where
  /-- fell through to the next statement -/
  | next (tr : Trace)
  /-- jumped to the label `err` -/
  | goto_err (tr : Trace)
  /-- still inside the do/while loop when the fuel ran out -/
  | spin (tr : Trace)
  /-- dereferenced a `NULL` image pointer -/
  | oops (tr : Trace)
deriving DecidableEq, Repr

def Flow.trace : Flow → Trace
  | .next tr => tr
  | .goto_err tr => tr
  | .spin tr => tr
  | .oops tr => tr

/-- Sequencing: the continuation runs only when control fell through. -/
def Flow.andThen : Flow → (Trace → Flow) → Flow
  | .next tr, k => k tr
  | .goto_err tr, _ => .goto_err tr
  | .spin tr, _ => .spin tr
  | .oops tr, _ => .oops tr

/-- The test `if (err < 0) goto err;` after a device operation. -/
def check (r : Int × Trace) : Flow :=
  if r.1 < 0 then .goto_err r.2 else .next r.2

/-- The record loops of stages 1, 3, 4 and 5: for each record that satisfies
`cond`, one `emi_writememory` of the whole record with `request`; the first
negative result jumps to `err`. -/
def write_records (env : Env) (cond : ihex_binrec → Bool) (request : Nat) :
    List ihex_binrec → Trace → Flow
  | [], tr => .next tr
  | r :: rest, tr =>
    if cond r then
      (check (emi_writememory env tr r.addr r.data r.len request)).andThen
        (write_records env cond request (ihex_next_binrec (r :: rest)))
    else write_records env cond request (ihex_next_binrec (r :: rest)) tr

/-- Stages 1 and 3: every record of the loader, with `ANCHOR_LOAD_INTERNAL`. -/
def stage_loader (env : Env) (rec_ : List ihex_binrec) (tr : Trace) : Flow :=
  write_records env (fun _ => true) ANCHOR_LOAD_INTERNAL rec_ tr

/-- Stage 4: the firmware records for which `!INTERNAL_RAM(addr)`, with
`ANCHOR_LOAD_EXTERNAL`. -/
def stage_external (env : Env) (rec_ : List ihex_binrec) (tr : Trace) : Flow :=
  write_records env (fun r => !INTERNAL_RAM r.addr) ANCHOR_LOAD_EXTERNAL rec_ tr

/-- Stage 5: the firmware records for which `INTERNAL_RAM(addr)`, with
`ANCHOR_LOAD_INTERNAL`. -/
def stage_internal (env : Env) (rec_ : List ihex_binrec) (tr : Trace) : Flow :=
  write_records env (fun r => INTERNAL_RAM r.addr) ANCHOR_LOAD_INTERNAL rec_ tr

/-- `memcpy(buf + off, src, n)` on a buffer held as a list of bytes. -/
def memcpy (buf : List Nat) (off : Nat) (src : List Nat) (n : Nat) : List Nat :=
  buf.take off ++ src.take n ++ buf.drop (off + n)

/-- State of the inner `while` of the bitstream stage (`rec_` is the C
variable `rec`). -/
structure Fill where
  i : Nat
  buf : List Nat
  rec_ : List ihex_binrec
  events : List Event
deriving DecidableEq, Repr

/-- The inner loop
`while (rec && (i + len(rec) < FW_LOAD_SIZE)) { memcpy(buf + i, ...); i += len; rec = next; }`.
It talks to nobody; the copies it makes are returned as events. -/
def bitstream_fill : Nat → List Nat → List ihex_binrec → Fill
  | i, buf, [] => ⟨i, buf, [], []⟩
  | i, buf, r :: rest =>
    if i + r.len < FW_LOAD_SIZE then
      let f := bitstream_fill (i + r.len) (memcpy buf i r.data r.len) (ihex_next_binrec (r :: rest))
      ⟨f.i, f.buf, f.rec_, Event.memcpy i r.len :: f.events⟩
    else ⟨i, buf, r :: rest, []⟩

/-- The outer `do { ... } while (rec);` of the bitstream stage, entered with
`rec` pointing at record `r`.  One unit of fuel per iteration. -/
def bitstream_loop (env : Env) : Nat → List Nat → ihex_binrec → List ihex_binrec → Trace → Flow
  | 0, _, _, _, tr => .spin tr
  | fuel + 1, buf, r, rest, tr =>
    let addr := r.addr
    let f := bitstream_fill 0 buf (r :: rest)
    (check (emi_writememory env (tr ++ f.events) addr f.buf f.i ANCHOR_LOAD_FPGA)).andThen
      fun tr1 =>
        match f.rec_ with
        | [] => .next tr1
        | r2 :: rest2 => bitstream_loop env fuel f.buf r2 rest2 tr1

/-! ## The session context and `emi_detach` -/

/-- The fields of `emi_context` that the driver reads back (the device and
interface handles are left out). -/
structure emi_context where
  product_id : Int
  loader_fw : Option firmware
  bitstream_fw : Option firmware
  firmware_fw : Option firmware
deriving DecidableEq, Repr

/-- The guarded release `if (fw) release_firmware(fw);`. -/
def release (fw : Option firmware) (tr : Trace) : Trace :=
  match fw with
  | some f => tr ++ [Event.release_firmware f]
  | none => tr

/-- `emi_detach(context)`: releases the images stored in the context, the
interface, the device reference and the context itself. -/
def emi_detach (context : Option emi_context) (tr : Trace) : Trace :=
  match context with
  | none => tr ++ [Event.emi_detach]
  | some c =>
    release c.firmware_fw (release c.bitstream_fw (release c.loader_fw (tr ++ [Event.emi_detach])))
      ++ [Event.usb_driver_release_interface, Event.usb_put_dev, Event.kfree_context]

/-- How a handler ended. -/
inductive Status where
  /-- the function returned -/
  | returned
  /-- the fuel ran out inside the bitstream do/while loop -/
  | spinning
  /-- a `NULL` pointer was dereferenced -/
  | oops
deriving DecidableEq, Repr

/-- Result of running a handler: the trace, the context fields as last
written, and how it ended. -/
structure Outcome where
  trace : Trace
  context : emi_context
  status : Status
deriving DecidableEq, Repr

/-! ## `emi_firmware_handler` -/

/-- The body of `emi_firmware_handler` from the first assert of reset to the
last settle delay (the statements between the buffer allocation and the label
`err`). -/
def upload (env : Env) (fuel : Nat) (context : emi_context) (buf : List Nat) (tr : Trace) : Flow :=
  -- Assert reset (stop the CPU in the EMI)
  (check (emi_set_reset env tr 1)).andThen fun tr =>
  match context.loader_fw with
  | none => .oops tr
  | some loader =>
  -- 1. Put the loader for the FPGA into the EZ-USB
  (stage_loader env loader.data tr).andThen fun tr =>
  -- De-assert reset (let the CPU run)
  (check (emi_set_reset env tr 0)).andThen fun tr =>
  match context.bitstream_fw with
  | none => .oops (tr ++ [Event.msleep 250])
  | some bitstream =>
  -- 2. Upload the FPGA firmware into the EMI
  (bitstream_loop env fuel buf bitstream.first bitstream.rest (tr ++ [Event.msleep 250])).andThen fun tr =>
  -- Assert reset (stop the CPU in the EMI)
  (check (emi_set_reset env tr 1)).andThen fun tr =>
  -- 3. Put the loader back into the EZ-USB
  (stage_loader env loader.data tr).andThen fun tr =>
  -- De-assert reset (let the CPU run)
  (check (emi_set_reset env (tr ++ [Event.msleep 250]) 0)).andThen fun tr =>
  match context.firmware_fw with
  | none => .oops (tr ++ [Event.msleep 250])
  | some firmware =>
  -- 4. Put the part of the firmware that lies in the external RAM into the EZ-USB
  (stage_external env firmware.data (tr ++ [Event.msleep 250])).andThen fun tr =>
  -- Assert reset (stop the CPU in the EMI)
  (check (emi_set_reset env tr 1)).andThen fun tr =>
  -- 5. Put the part of the firmware that lies in the internal RAM into the EZ-USB
  (stage_internal env firmware.data tr).andThen fun tr =>
  -- De-assert reset (let the CPU run)
  (check (emi_set_reset env tr 0)).andThen fun tr =>
  .next (tr ++ [Event.msleep 250])

/-- The label `err`: `if (buf) kfree(buf); emi_detach(context); return;`,
reached with the transfer buffer allocated. -/
def err_label (context : emi_context) : Flow → Outcome
  | .next tr => ⟨emi_detach (some context) (tr ++ [Event.kfree_buf]), context, .returned⟩
  | .goto_err tr => ⟨emi_detach (some context) (tr ++ [Event.kfree_buf]), context, .returned⟩
  | .spin tr => ⟨tr, context, .spinning⟩
  | .oops tr => ⟨tr, context, .oops⟩

/-- `emi_firmware_handler(fw, context)`.  The transfer buffer is a list of
`FW_LOAD_SIZE` bytes; only bytes copied into it are ever sent, so its initial
content is taken to be zero. -/
def emi_firmware_handler (env : Env) (fuel : Nat) (fw : Option firmware)
    (context : emi_context) (tr : Trace) : Outcome :=
  match fw with
  | none => ⟨emi_detach (some context) tr, context, .returned⟩
  | some f =>
    if ihex_validate_fw f ≠ 0 then ⟨emi_detach (some context) tr, context, .returned⟩
    else
      let context1 := { context with firmware_fw := some f }
      if env.kmalloc then
        err_label context1
          (upload env fuel context1 (List.replicate FW_LOAD_SIZE 0) (tr ++ [Event.kmalloc FW_LOAD_SIZE]))
      else
        ⟨emi_detach (some context1) (tr ++ [Event.kmalloc FW_LOAD_SIZE]), context1, .returned⟩

/-! ## `emi_bitstream_handler`, `emi_loader_handler`, `emi_probe`

`request_firmware_nowait` registers the next handler as callback.  When the
request is accepted the caller returns at once and the callback runs later
with the delivered blob, so the callback is run in place of the accepted
request; a refused request never calls back. -/

/-- `emi_bitstream_handler(fw, context)`; `midi` is the module parameter
`emi62_midi_mode`. -/
def emi_bitstream_handler (env : Env) (midi : Int) (fuel : Nat) (fw : Option firmware)
    (context : emi_context) (tr : Trace) : Outcome :=
  let fw_file : String :=
    if context.product_id = EMI62_PRODUCT_ID then
      (if midi ≠ 0 then "emi/emi62_firmware_midi.fw" else "emi/emi62_firmware_spdif.fw")
    else "emi/emi26_firmware.fw"
  match fw with
  | none => ⟨emi_detach (some context) tr, context, .returned⟩
  | some f =>
    if ihex_validate_fw f ≠ 0 then ⟨emi_detach (some context) tr, context, .returned⟩
    else
      let context1 := { context with bitstream_fw := some f }
      if env.request_firmware_nowait 2 ≠ 0 then
        ⟨emi_detach (some context1) (tr ++ [Event.request_firmware_nowait fw_file]), context1, .returned⟩
      else
        emi_firmware_handler env fuel (env.fw_delivered 2) context1
          (tr ++ [Event.request_firmware_nowait fw_file])

/-- `emi_loader_handler(fw, context)`. -/
def emi_loader_handler (env : Env) (midi : Int) (fuel : Nat) (fw : Option firmware)
    (context : emi_context) (tr : Trace) : Outcome :=
  let fw_file : String :=
    if context.product_id = EMI62_PRODUCT_ID then "emi/emi62_bitstream.fw"
    else "emi/emi26_bitstream.fw"
  match fw with
  | none => ⟨emi_detach (some context) tr, context, .returned⟩
  | some f =>
    if ihex_validate_fw f ≠ 0 then ⟨emi_detach (some context) tr, context, .returned⟩
    else
      let context1 := { context with loader_fw := some f }
      if env.request_firmware_nowait 1 ≠ 0 then
        ⟨emi_detach (some context1) (tr ++ [Event.request_firmware_nowait fw_file]), context1, .returned⟩
      else
        emi_bitstream_handler env midi fuel (env.fw_delivered 1) context1
          (tr ++ [Event.request_firmware_nowait fw_file])

/-- Conversion of `int product` to the `short product_id` field. -/
def to_short (x : Nat) : Int :=
  if x % 65536 < 32768 then ((x % 65536 : Nat) : Int) else ((x % 65536 : Nat) : Int) - 65536

/-- Result of `emi_probe` alone: its return value (`none` when it
dereferenced `NULL`), its trace, and the context it handed to an accepted
loader request. -/
structure Probe where
  ret : Option Int
  trace : Trace
  context : Option emi_context
deriving DecidableEq, Repr

/-- `emi_probe(intf, id)` for a device whose `idProduct` is `product`.  The
module parameter only selects the product name that is logged. -/
def emi_probe (env : Env) (product : Nat) : Probe :=
  let tr : Trace := [Event.usb_get_dev]
  if product = EMI26_PRODUCT_ID ∨ product = EMI26B_PRODUCT_ID ∨ product = EMI62_PRODUCT_ID then
    if env.kzalloc then
      let context : emi_context :=
        { product_id := to_short product, loader_fw := none, bitstream_fw := none, firmware_fw := none }
      let tr1 := tr ++ [Event.kzalloc, Event.request_firmware_nowait "emi/loader.fw"]
      let ret := env.request_firmware_nowait 0
      if ret ≠ 0 then ⟨some ret, tr1 ++ [Event.kfree_context], none⟩
      else ⟨some ret, tr1, some context⟩
    else
      -- `dev_err(&context->usbdev->dev, ...)` with `context == NULL`
      ⟨none, tr ++ [Event.kzalloc], none⟩
  else ⟨some (-EINVAL), tr, none⟩

/-- A whole session: `emi_probe`, then the chain of callbacks. -/
structure Session where
  ret : Option Int
  trace : Trace
  context : Option emi_context
  status : Status
deriving DecidableEq, Repr

/-- The session that the attach of a device with product id `product`
starts. -/
def session (env : Env) (midi : Int) (fuel : Nat) (product : Nat) : Session :=
  let p := emi_probe env product
  match p.ret, p.context with
  | some r, some c =>
    let o := emi_loader_handler env midi fuel (env.fw_delivered 0) c p.trace
    ⟨some r, o.trace, some o.context, o.status⟩
  | some r, none => ⟨some r, p.trace, none, .returned⟩
  | none, _ => ⟨none, p.trace, none, .oops⟩

/-! ## Scripts

The handler body never looks at the value of a result, only at its sign, so
what it does is to walk through a fixed list of events (a script) computed
from the images alone, stopping at the first device operation that fails. -/

/-- Walks through a script: each event is appended to the trace; a device
operation whose result is negative ends the walk with a jump to `err`. -/
def exec (env : Env) : List Event → Trace → Flow
  | [], tr => .next tr
  | e :: es, tr =>
    if e.is_write then
      if env.result (nwrites tr) < 0 then .goto_err (tr ++ [e]) else exec env es (tr ++ [e])
    else exec env es (tr ++ [e])

/-- Falling through at the end of a complete script; spinning at the end of
one that was cut off by the fuel. -/
def finish_if (complete : Bool) (tr : Trace) : Flow :=
  if complete then .next tr else .spin tr

/-- The write of one whole record. -/
def write_of (request : Nat) (r : ihex_binrec) : Event :=
  Event.emi_writememory r.addr r.data request

/-- Script of a record loop. -/
def records_script (cond : ihex_binrec → Bool) (request : Nat) (recs : List ihex_binrec) :
    List Event :=
  (recs.filter cond).map (write_of request)

/-- Script of `emi_set_reset`. -/
def reset_script (reset_bit : Nat) : List Event :=
  [Event.emi_set_reset reset_bit, Event.emi_writememory CPUCS_REG [reset_bit] 0xa0]

/-- Script of the bitstream do/while loop, and whether the loop has ended
within the fuel. -/
def bitstream_script : Nat → List Nat → ihex_binrec → List ihex_binrec → List Event × Bool
  | 0, _, _, _ => ([], false)
  | fuel + 1, buf, r, rest =>
    let f := bitstream_fill 0 buf (r :: rest)
    let w := Event.emi_writememory r.addr (f.buf.take f.i) ANCHOR_LOAD_FPGA
    match f.rec_ with
    | [] => (f.events ++ [w], true)
    | r2 :: rest2 =>
      (f.events ++ w :: (bitstream_script fuel f.buf r2 rest2).1,
       (bitstream_script fuel f.buf r2 rest2).2)

/-- Script of the handler body up to the bitstream stage. -/
def script_before (loader : firmware) : List Event :=
  reset_script 1 ++ records_script (fun _ => true) ANCHOR_LOAD_INTERNAL loader.data
    ++ reset_script 0 ++ [Event.msleep 250]

/-- Script of the handler body after the bitstream stage. -/
def script_after (loader fw : firmware) : List Event :=
  reset_script 1 ++ records_script (fun _ => true) ANCHOR_LOAD_INTERNAL loader.data
    ++ [Event.msleep 250] ++ reset_script 0 ++ [Event.msleep 250]
    ++ records_script (fun r => !INTERNAL_RAM r.addr) ANCHOR_LOAD_EXTERNAL fw.data
    ++ reset_script 1
    ++ records_script (fun r => INTERNAL_RAM r.addr) ANCHOR_LOAD_INTERNAL fw.data
    ++ reset_script 0 ++ [Event.msleep 250]

/-- Script of the whole handler body, and whether it is complete. -/
def upload_script (fuel : Nat) (loader bitstream fw : firmware) (buf : List Nat) :
    List Event × Bool :=
  let b := bitstream_script fuel buf bitstream.first bitstream.rest
  if b.2 then (script_before loader ++ b.1 ++ script_after loader fw, true)
  else (script_before loader ++ b.1, false)

/-- The part of a script up to and including its `k`-th device operation
(counting from 0). -/
def upto_write : Nat → List Event → List Event
  | _, [] => []
  | k, e :: es =>
    if e.is_write then
      match k with
      | 0 => [e]
      | k + 1 => e :: upto_write k es
    else e :: upto_write k es

/-- The device writes of a trace that carry request `request`. -/
def writes_with (request : Nat) (tr : Trace) : List Event :=
  tr.filter fun e =>
    match e with
    | .emi_writememory _ _ rq => decide (rq = request)
    | _ => false

/-- Payload of a device write (empty for the other events). -/
def Event.payload : Event → List Nat
  | .emi_writememory _ d _ => d
  | _ => []

/-- The images released, in order. -/
def releases (tr : Trace) : List firmware :=
  tr.filterMap fun e =>
    match e with
    | .release_firmware f => some f
    | _ => none

/-- The names of the blobs requested, in order. -/
def requests (tr : Trace) : List String :=
  tr.filterMap fun e =>
    match e with
    | .request_firmware_nowait n => some n
    | _ => none

/-- The write that `emi_set_reset(reset_bit)` issues. -/
def set_reset (reset_bit : Nat) : Event :=
  Event.emi_writememory CPUCS_REG [reset_bit] 0xA0

/-- The payloads of a list of records, one after the other. -/
def payloads : List ihex_binrec → List Nat
  | [] => []
  | r :: rest => r.data ++ payloads rest

/-- The single write that carries a group of records: at the address of the
group's first record, the payloads of the group one after the other. -/
def chunk_write (g : List ihex_binrec) : Event :=
  match g with
  | [] => Event.emi_writememory 0 [] ANCHOR_LOAD_FPGA
  | r :: _ => Event.emi_writememory r.addr (payloads g) ANCHOR_LOAD_FPGA

/-- What the transfer buffer allows: a write with request `ANCHOR_LOAD_FPGA`
carries fewer than `FW_LOAD_SIZE` bytes, and a copy into the buffer ends
before its end. -/
def within_buffer : Event → Prop
  | .emi_writememory _ d rq => rq = ANCHOR_LOAD_FPGA → d.length < FW_LOAD_SIZE
  | .memcpy off n => off + n < FW_LOAD_SIZE
  | _ => True

/-- A device write with its address blanked; other events unchanged. -/
def Event.no_address : Event → Event
  | .emi_writememory _ d rq => .emi_writememory 0 d rq
  | e => e

/-- The events that the handler body (reset, the five stages, the settle
delays) can append. -/
def Event.is_upload : Event → Bool
  | .emi_set_reset _ => true
  | .emi_writememory _ _ _ => true
  | .memcpy _ _ => true
  | .msleep _ => true
  | _ => false

/-- The images stored in a context. -/
def stored (c : emi_context) : List firmware :=
  c.loader_fw.toList ++ c.bitstream_fw.toList ++ c.firmware_fw.toList

/-- Number of calls of `emi_detach`. -/
def detach_calls (tr : Trace) : Nat := tr.count Event.emi_detach

/-- The context that `emi_probe` allocates for product id `product`. -/
def fresh_context (product : Nat) : emi_context :=
  { product_id := to_short product, loader_fw := none, bitstream_fw := none, firmware_fw := none }

/-- The trace of an `emi_probe` whose loader request was accepted. -/
def probe_trace : Trace :=
  [Event.usb_get_dev, Event.kzalloc, Event.request_firmware_nowait "emi/loader.fw"]

/-! ## Sample inputs -/

def sample_loader : firmware := ⟨true, ⟨0x0000, [0xAA]⟩, [⟨0x0002, [0xBB]⟩]⟩

def sample_bitstream : firmware := ⟨true, ⟨0x0000, [1, 2]⟩, [⟨0x0010, [3]⟩]⟩

def sample_firmware : firmware := ⟨true, ⟨0x0100, [7]⟩, [⟨0x2000, [8, 9]⟩]⟩

/-- A well-formed bitstream whose only record carries `FW_LOAD_SIZE` bytes. -/
def wide_bitstream : firmware := ⟨true, ⟨0x0000, List.replicate 1023 0⟩, []⟩

/-- The context as `emi_bitstream_handler` leaves it. -/
def sample_context : emi_context := ⟨0x0100, some sample_loader, some sample_bitstream, none⟩

def wide_context : emi_context := ⟨0x0100, some sample_loader, some wide_bitstream, none⟩

/-- An environment in which every call succeeds and the three sample blobs
are delivered. -/
def env_ok : Env :=
  { kzalloc := true
    request_firmware_nowait := fun _ => 0
    fw_delivered := fun n =>
      match n with
      | 0 => some sample_loader
      | 1 => some sample_bitstream
      | _ => some sample_firmware
    kmalloc := true
    kmemdup := fun _ => true
    usb_control_msg := fun _ => 0 }

/-- The bitstream records `[(0x0000, "AA"), (0x0010, "BB")]`: two records
with a gap between their addresses. -/
def gap_bitstream : firmware := ⟨true, ⟨0x0000, [0x41, 0x41]⟩, [⟨0x0010, [0x42, 0x42]⟩]⟩

def gap_context : emi_context := ⟨0x0100, some sample_loader, some gap_bitstream, none⟩

/-- A well-formed loader whose only record carries `FW_LOAD_SIZE + 1` bytes. -/
def long_loader : firmware := ⟨true, ⟨0x0000, List.replicate 1024 0⟩, []⟩

def long_context : emi_context := ⟨0x0100, some long_loader, some sample_bitstream, none⟩

/-- A device on which the operations 0, 1 and 2 succeed and operation 3 (the
set_reset(0) after the sample loader) fails. -/
def env_fail3 : Env :=
  { env_ok with usb_control_msg := fun n => if n = 3 then -71 else 0 }

/-- A firmware whose only record lies at `MAX_INTERNAL_ADDRESS` itself. -/
def ceiling_firmware : firmware := ⟨true, ⟨0x1B3F, [5]⟩, []⟩

/-- The three blobs of a session were delivered non-null and each passes
`ihex_validate_fw`. -/
def blobs_ready (env : Env) (l b f : firmware) : Prop :=
  env.fw_delivered 0 = some l ∧ ihex_validate_fw l = 0 ∧
  env.fw_delivered 1 = some b ∧ ihex_validate_fw b = 0 ∧
  env.fw_delivered 2 = some f ∧ ihex_validate_fw f = 0

/-- The boundary between two consecutive chunks is forced by the size test:
the payload of the first record of the second chunk, appended to the first
chunk, would bring it to `FW_LOAD_SIZE` bytes or more. -/
def forced_boundary (g1 g2 : List ihex_binrec) : Prop :=
  ∀ r2 ∈ g2.head?, FW_LOAD_SIZE ≤ (payloads g1).length + r2.len

/-- A loader made of the records `[(0x0000, "AA"), (0x0002, "BB")]`, which
are contiguous. -/
def aabb_loader : firmware := ⟨true, ⟨0x0000, [0x41, 0x41]⟩, [⟨0x0002, [0x42, 0x42]⟩]⟩

def aabb_context : emi_context := ⟨0x0100, some aabb_loader, some sample_bitstream, none⟩

/-- A bitstream of two contiguous records of 1000 and 23 bytes: together
exactly `FW_LOAD_SIZE` bytes. -/
def exact_bitstream : firmware :=
  ⟨true, ⟨0x0000, List.replicate 1000 0⟩, [⟨1000, List.replicate 23 0⟩]⟩

def exact_context : emi_context := ⟨0x0100, some sample_loader, some exact_bitstream, none⟩

/-- A blob that `ihex_validate_fw` rejects. -/
def invalid_blob : firmware := ⟨false, ⟨0x0000, [0xDE, 0xAD]⟩, []⟩

/-- Every call succeeds, but the blob delivered for request `k` is
`invalid_blob`. -/
def env_invalid (k : Nat) : Env :=
  { env_ok with
    fw_delivered := fun n => if n = k then some invalid_blob else env_ok.fw_delivered n }

/-- A settle delay: a call of `msleep`. -/
def Event.is_msleep : Event → Bool
  | .msleep _ => true
  | _ => false

/-- The device operations and the settle delays of a trace, in order. -/
def timeline (tr : Trace) : List Event := tr.filter fun e => e.is_write || e.is_msleep

/-- The settle delays of a trace, in order. -/
def settle_delays (tr : Trace) : List Event := tr.filter Event.is_msleep

/-- Number of references taken on the device. -/
def get_calls (tr : Trace) : Nat := tr.count Event.usb_get_dev

/-- Number of references dropped. -/
def put_calls (tr : Trace) : Nat := tr.count Event.usb_put_dev

/-- The events a handler can append before it calls `emi_detach`. -/
def Event.is_inner : Event → Bool
  | .kmalloc _ => true
  | .kfree_buf => true
  | .request_firmware_nowait _ => true
  | e => e.is_upload

/-- Every call succeeds, except that the request for the loader blob is
refused with `-ENOENT`. -/
def env_refuse_loader : Env :=
  { env_ok with request_firmware_nowait := fun n => if n = 0 then -2 else 0 }

/-- Every call succeeds, except that the context cannot be allocated. -/
def env_no_context : Env := { env_ok with kzalloc := false }

/-! ## Helper lemmas -/

theorem nwrites_append (a b : Trace) : nwrites (a ++ b) = nwrites a + nwrites b := by
  simp [nwrites, device_ops]

theorem device_ops_append (a b : Trace) : device_ops (a ++ b) = device_ops a ++ device_ops b := by
  simp [device_ops]

theorem finish_if_true : finish_if true = Flow.next := by
  funext t; simp [finish_if]

theorem finish_if_false : finish_if false = Flow.spin := by
  funext t; simp [finish_if]

theorem next_andThen (t : Trace) (k : Trace → Flow) : (Flow.next t).andThen k = k t := rfl

theorem andThen_next (f : Flow) : f.andThen Flow.next = f := by
  cases f <;> rfl

theorem andThen_assoc (f : Flow) (g h : Trace → Flow) :
    (f.andThen g).andThen h = f.andThen (fun t => (g t).andThen h) := by
  cases f <;> rfl

theorem andThen_spin_absorb (f : Flow) (h : Trace → Flow) :
    (f.andThen Flow.spin).andThen h = f.andThen Flow.spin := by
  cases f <;> rfl

theorem exec_append (env : Env) (a b : List Event) (tr : Trace) :
    exec env (a ++ b) tr = (exec env a tr).andThen (exec env b) := by
  induction a generalizing tr with
  | nil => rfl
  | cons e es ih =>
    simp only [List.cons_append, exec]
    split
    · split
      · rfl
      · exact ih _
    · exact ih _

theorem check_writememory (env : Env) (tr : Trace) (a : Nat) (d : List Nat) (l rq : Nat) :
    check (emi_writememory env tr a d l rq) = exec env [Event.emi_writememory a (d.take l) rq] tr := by
  simp only [check, emi_writememory, exec, Event.is_write, Env.result, if_true]

theorem check_set_reset (env : Env) (tr : Trace) (b : Nat) :
    check (emi_set_reset env tr b) = exec env (reset_script b) tr := by
  simp only [emi_set_reset, check_writememory, reset_script, exec, Event.is_write]
  simp

theorem write_records_eq (env : Env) (cond : ihex_binrec → Bool) (rq : Nat)
    (recs : List ihex_binrec) (tr : Trace) :
    write_records env cond rq recs tr = exec env (records_script cond rq recs) tr := by
  induction recs generalizing tr with
  | nil => rfl
  | cons r rest ih =>
    simp only [write_records, ihex_next_binrec, records_script, List.filter_cons]
    split
    · rw [check_writememory]
      simp only [List.map_cons, ihex_binrec.len, List.take_length]
      have := exec_append env [write_of rq r] ((rest.filter cond).map (write_of rq)) tr
      simp only [List.singleton_append] at this
      rw [this]
      congr 1
      funext t
      exact ih t
    · exact ih tr

theorem exec_events (env : Env) (es : List Event) (tr : Trace)
    (h : ∀ e ∈ es, e.is_write = false) : exec env es tr = Flow.next (tr ++ es) := by
  induction es generalizing tr with
  | nil => simp [exec]
  | cons e es ih =>
    have he : e.is_write = false := h e (List.mem_cons_self _ _)
    simp only [exec, he]
    rw [ih _ (fun x hx => h x (List.mem_cons_of_mem _ hx))]
    simp

theorem bitstream_fill_events (i : Nat) (buf : List Nat) (recs : List ihex_binrec) :
    ∀ e ∈ (bitstream_fill i buf recs).events, e.is_write = false := by
  induction recs generalizing i buf with
  | nil => simp [bitstream_fill]
  | cons r rest ih =>
    simp only [bitstream_fill, ihex_next_binrec]
    split
    · intro e he
      simp only [List.mem_cons] at he
      rcases he with rfl | he
      · rfl
      · exact ih _ _ e he
    · simp

theorem bitstream_loop_eq (env : Env) (fuel : Nat) (buf : List Nat) (r : ihex_binrec)
    (rest : List ihex_binrec) (tr : Trace) :
    bitstream_loop env fuel buf r rest tr =
      (exec env (bitstream_script fuel buf r rest).1 tr).andThen
        (finish_if (bitstream_script fuel buf r rest).2) := by
  induction fuel generalizing buf r rest tr with
  | zero => simp [bitstream_loop, bitstream_script, exec, Flow.andThen, finish_if]
  | succ fuel ih =>
    simp only [bitstream_loop, bitstream_script, check_writememory]
    cases hrec : (bitstream_fill 0 buf (r :: rest)).rec_ with
    | nil =>
      simp only [finish_if_true, andThen_next]
      rw [exec_append, exec_events env _ tr (bitstream_fill_events _ _ _), next_andThen]
    | cons r2 rest2 =>
      simp only
      rw [exec_append, exec_events env _ tr (bitstream_fill_events _ _ _), next_andThen]
      have := exec_append env
        [Event.emi_writememory r.addr
          (List.take (bitstream_fill 0 buf (r :: rest)).i (bitstream_fill 0 buf (r :: rest)).buf)
          ANCHOR_LOAD_FPGA]
        (bitstream_script fuel (bitstream_fill 0 buf (r :: rest)).buf r2 rest2).1
        (tr ++ (bitstream_fill 0 buf (r :: rest)).events)
      simp only [List.singleton_append] at this
      rw [this, andThen_assoc]
      congr 1
      funext t
      exact ih _ _ _ _

theorem andThen_finish_true (f : Flow) (k : Trace → Flow) :
    (f.andThen (finish_if true)).andThen k = f.andThen k := by
  cases f <;> rfl

theorem exec_msleep_append (env : Env) (s : List Event) (t : Trace) (n : Nat) :
    exec env ([Event.msleep n] ++ s) t = exec env s (t ++ [Event.msleep n]) := by
  simp [exec, Event.is_write]

theorem andThen_step (env : Env) (a s : List Event) (c : Bool) (k : Trace → Flow) (tr : Trace)
    (h : ∀ t, k t = (exec env s t).andThen (finish_if c)) :
    (exec env a tr).andThen k = (exec env (a ++ s) tr).andThen (finish_if c) := by
  rw [exec_append, andThen_assoc]
  congr 1
  funext t
  exact h t

theorem upload_eq (env : Env) (fuel : Nat) (ctx : emi_context) (l b f : firmware)
    (buf : List Nat) (tr : Trace) (hl : ctx.loader_fw = some l)
    (hb : ctx.bitstream_fw = some b) (hf : ctx.firmware_fw = some f) :
    upload env fuel ctx buf tr =
      (exec env (upload_script fuel l b f buf).1 tr).andThen
        (finish_if (upload_script fuel l b f buf).2) := by
  unfold upload upload_script
  simp only [hl, hb, hf, stage_loader, stage_external, stage_internal, check_set_reset,
    write_records_eq, bitstream_loop_eq]
  cases hc : (bitstream_script fuel buf b.first b.rest).2 with
  | true =>
    simp only [↓reduceIte, andThen_finish_true, script_before, script_after,
      List.append_assoc]
    refine andThen_step env _ _ true _ tr (fun t => ?_)
    refine andThen_step env _ _ true _ t (fun t => ?_)
    refine andThen_step env _ _ true _ t (fun t => ?_)
    rw [exec_msleep_append]
    refine andThen_step env _ _ true _ _ (fun t => ?_)
    refine andThen_step env _ _ true _ t (fun t => ?_)
    refine andThen_step env _ _ true _ t (fun t => ?_)
    rw [exec_msleep_append]
    refine andThen_step env _ _ true _ _ (fun t => ?_)
    rw [exec_msleep_append]
    refine andThen_step env _ _ true _ _ (fun t => ?_)
    refine andThen_step env _ _ true _ t (fun t => ?_)
    refine andThen_step env _ _ true _ t (fun t => ?_)
    refine andThen_step env _ [Event.msleep 250] true _ t (fun t => ?_)
    simp [exec, Event.is_write, finish_if, Flow.andThen]
  | false =>
    simp only [Bool.false_eq_true, ↓reduceIte, script_before, List.append_assoc]
    rw [finish_if_false]
    simp only [andThen_spin_absorb]
    refine andThen_step env _ _ false _ tr (fun t => ?_)
    refine andThen_step env _ _ false _ t (fun t => ?_)
    refine andThen_step env _ _ false _ t (fun t => ?_)
    rw [exec_msleep_append, finish_if_false]

theorem exec_ok (env : Env) (s : List Event) (tr : Trace)
    (h : ∀ j, j < nwrites s → 0 ≤ env.result (nwrites tr + j)) :
    exec env s tr = Flow.next (tr ++ s) := by
  induction s generalizing tr with
  | nil => simp [exec]
  | cons e es ih =>
    cases he : e.is_write with
    | true =>
      have h0 : 0 ≤ env.result (nwrites tr) := by
        have := h 0 (by simp [nwrites, device_ops, he])
        simpa using this
      have hlt : ¬ env.result (nwrites tr) < 0 := by omega
      simp only [exec, he, hlt, if_true, if_false]
      rw [ih]
      · simp
      · intro j hj
        have := h (j + 1) (by simp [nwrites, device_ops, he] at hj ⊢; omega)
        have e1 : nwrites (tr ++ [e]) = nwrites tr + 1 := by
          simp [nwrites, device_ops, he]
        rw [e1]
        have e2 : nwrites tr + 1 + j = nwrites tr + (j + 1) := by omega
        rw [e2]
        exact this
    | false =>
      simp only [exec, he, Bool.false_eq_true, if_false]
      rw [ih]
      · simp
      · intro j hj
        have := h j (by simp [nwrites, device_ops, he] at hj ⊢; omega)
        have e1 : nwrites (tr ++ [e]) = nwrites tr := by
          simp [nwrites, device_ops, he]
        rw [e1]
        exact this

theorem exec_fail (env : Env) (s : List Event) (tr : Trace) (k : Nat)
    (hk : k < nwrites s)
    (hok : ∀ j, j < k → 0 ≤ env.result (nwrites tr + j))
    (hbad : env.result (nwrites tr + k) < 0) :
    exec env s tr = Flow.goto_err (tr ++ upto_write k s) := by
  induction s generalizing tr k with
  | nil => simp [nwrites, device_ops] at hk
  | cons e es ih =>
    cases he : e.is_write with
    | true =>
      have e1 : nwrites (tr ++ [e]) = nwrites tr + 1 := by
        simp [nwrites, device_ops, he]
      cases k with
      | zero =>
        simp only [Nat.add_zero] at hbad
        simp [exec, he, hbad, upto_write]
      | succ k =>
        have h0 : 0 ≤ env.result (nwrites tr) := by
          have := hok 0 (by omega)
          simpa using this
        have hlt : ¬ env.result (nwrites tr) < 0 := by omega
        simp only [exec, he, hlt, if_true, if_false, upto_write]
        rw [ih (tr ++ [e]) k]
        · simp
        · simp [nwrites, device_ops, he] at hk ⊢; omega
        · intro j hj
          rw [e1]
          have := hok (j + 1) (by omega)
          have e2 : nwrites tr + 1 + j = nwrites tr + (j + 1) := by omega
          rw [e2]; exact this
        · rw [e1]
          have e2 : nwrites tr + 1 + k = nwrites tr + (k + 1) := by omega
          rw [e2]; exact hbad
    | false =>
      have e1 : nwrites (tr ++ [e]) = nwrites tr := by
        simp [nwrites, device_ops, he]
      simp only [exec, he, Bool.false_eq_true, if_false, upto_write]
      rw [ih (tr ++ [e]) k]
      · simp
      · simp [nwrites, device_ops, he] at hk ⊢; omega
      · intro j hj; rw [e1]; exact hok j hj
      · rw [e1]; exact hbad

theorem device_ops_upto_write (k : Nat) (s : List Event) :
    device_ops (upto_write k s) = (device_ops s).take (k + 1) := by
  induction s generalizing k with
  | nil => simp [upto_write, device_ops]
  | cons e es ih =>
    cases he : e.is_write with
    | true =>
      cases k with
      | zero => simp [upto_write, device_ops, he]
      | succ k =>
        have := ih k
        simp only [device_ops] at this
        simp [upto_write, device_ops, he, this]
    | false =>
      have := ih k
      simp only [device_ops] at this
      simp [upto_write, device_ops, he, this]

theorem exec_trace_mem (env : Env) (s : List Event) (tr : Trace) :
    ∀ e ∈ (exec env s tr).trace, e ∈ tr ∨ e ∈ s := by
  induction s generalizing tr with
  | nil => intro e he; left; simpa [exec, Flow.trace] using he
  | cons x xs ih =>
    intro e he
    simp only [exec] at he
    split at he
    · split at he
      · simp only [Flow.trace, List.mem_append, List.mem_singleton] at he
        rcases he with h | h
        · exact Or.inl h
        · right; simp [h]
      · rcases ih _ e he with h | h
        · simp only [List.mem_append, List.mem_singleton] at h
          rcases h with h | h
          · exact Or.inl h
          · right; simp [h]
        · right; simp [h]
    · rcases ih _ e he with h | h
      · simp only [List.mem_append, List.mem_singleton] at h
        rcases h with h | h
        · exact Or.inl h
        · right; simp [h]
      · right; simp [h]

theorem memcpy_spec (buf : List Nat) (i : Nat) (d : List Nat) (h : i + d.length ≤ buf.length) :
    (memcpy buf i d d.length).take (i + d.length) = buf.take i ++ d ∧
      (memcpy buf i d d.length).length = buf.length := by
  unfold memcpy
  constructor
  · rw [List.take_length]
    apply List.take_left'
    simp only [List.length_append, List.length_take]
    omega
  · simp only [List.length_append, List.length_take, List.length_drop]
    omega

theorem payloads_append (a b : List ihex_binrec) : payloads (a ++ b) = payloads a ++ payloads b := by
  induction a with
  | nil => rfl
  | cons r rest ih => simp [payloads, ih]

theorem fill_spec (recs : List ihex_binrec) (i : Nat) (buf : List Nat)
    (hlen : buf.length = FW_LOAD_SIZE) (hi : i < FW_LOAD_SIZE) :
    ∃ g, recs = g ++ (bitstream_fill i buf recs).rec_ ∧
      (bitstream_fill i buf recs).buf.length = FW_LOAD_SIZE ∧
      (bitstream_fill i buf recs).i < FW_LOAD_SIZE ∧
      (bitstream_fill i buf recs).buf.take (bitstream_fill i buf recs).i = buf.take i ++ payloads g ∧
      (∀ r rest, recs = r :: rest → i + r.len < FW_LOAD_SIZE → g ≠ []) ∧
      (∀ r2 rest2, (bitstream_fill i buf recs).rec_ = r2 :: rest2 →
        FW_LOAD_SIZE ≤ (bitstream_fill i buf recs).i + r2.len) := by
  induction recs generalizing i buf with
  | nil =>
    refine ⟨[], ?_⟩
    simp [bitstream_fill, payloads, hlen, hi]
  | cons r rest ih =>
    by_cases hfit : i + r.len < FW_LOAD_SIZE
    · have hm := memcpy_spec buf i r.data (by simp only [ihex_binrec.len] at hfit; omega)
      obtain ⟨g, hg1, hg2, hg3, hg4, _, hg6⟩ :=
        ih (i + r.len) (memcpy buf i r.data r.len) (by simpa [ihex_binrec.len] using hm.2.trans hlen) hfit
      refine ⟨r :: g, ?_⟩
      simp only [bitstream_fill, hfit, if_true, ihex_next_binrec]
      refine ⟨?_, hg2, hg3, ?_, ?_, hg6⟩
      · simp only [List.cons_append]
        rw [← hg1]
      · rw [hg4]
        simp only [ihex_binrec.len]
        rw [hm.1]
        simp [payloads]
      · intro _ _ _ _
        simp
    · refine ⟨[], ?_⟩
      simp only [bitstream_fill, hfit, if_false]
      refine ⟨by simp, hlen, hi, by simp [payloads], ?_, ?_⟩
      · intro r1 rest1 h1 h2
        simp only [List.cons.injEq] at h1
        rw [← h1.1] at h2
        exact absurd h2 hfit
      · intro r2 rest2 h
        simp only [List.cons.injEq] at h
        rw [← h.1]
        omega

theorem fill_events_bound (recs : List ihex_binrec) (i : Nat) (buf : List Nat) :
    ∀ e ∈ (bitstream_fill i buf recs).events,
      ∃ off n, e = Event.memcpy off n ∧ off + n < FW_LOAD_SIZE := by
  induction recs generalizing i buf with
  | nil => simp [bitstream_fill]
  | cons r rest ih =>
    by_cases hfit : i + r.len < FW_LOAD_SIZE
    · simp only [bitstream_fill, hfit, if_true, ihex_next_binrec]
      intro e he
      simp only [List.mem_cons] at he
      rcases he with rfl | he
      · exact ⟨i, r.len, rfl, hfit⟩
      · exact ih _ _ e he
    · simp [bitstream_fill, hfit]

theorem fill_stall (r : ihex_binrec) (rest : List ihex_binrec) (buf : List Nat)
    (h : FW_LOAD_SIZE ≤ r.len) :
    bitstream_fill 0 buf (r :: rest) = ⟨0, buf, r :: rest, []⟩ := by
  have : ¬ (0 + r.len < FW_LOAD_SIZE) := by omega
  simp only [bitstream_fill, this, if_false]

theorem bitstream_script_stall (fuel : Nat) (buf : List Nat) (r : ihex_binrec)
    (rest : List ihex_binrec) (h : FW_LOAD_SIZE ≤ r.len) :
    (bitstream_script fuel buf r rest).2 = false := by
  induction fuel with
  | zero => rfl
  | succ fuel ih =>
    simp only [bitstream_script, fill_stall r rest buf h]
    exact ih

theorem bitstream_script_complete (fuel : Nat) (buf : List Nat) (r : ihex_binrec)
    (rest : List ihex_binrec) (hbuf : buf.length = FW_LOAD_SIZE)
    (hsz : ∀ x ∈ r :: rest, x.len < FW_LOAD_SIZE) (hfuel : (r :: rest).length ≤ fuel) :
    (bitstream_script fuel buf r rest).2 = true := by
  induction fuel generalizing buf r rest with
  | zero => simp at hfuel
  | succ fuel ih =>
    obtain ⟨g, hg1, hg2, _, _, hg5, _⟩ :=
      fill_spec (r :: rest) 0 buf hbuf (by simp [FW_LOAD_SIZE])
    have hne : g ≠ [] := hg5 r rest rfl (by simpa using hsz r (List.mem_cons_self _ _))
    simp only [bitstream_script]
    cases hrec : (bitstream_fill 0 buf (r :: rest)).rec_ with
    | nil => rfl
    | cons r2 rest2 =>
      simp only
      rw [hrec] at hg1
      apply ih _ _ _ hg2
      · intro x hx
        apply hsz
        rw [hg1]
        exact List.mem_append_right _ hx
      · have hl := congrArg List.length hg1
        simp only [List.length_append, List.length_cons] at hl hfuel ⊢
        have : 0 < g.length := List.length_pos.mpr hne
        omega

theorem bitstream_script_stall_events (fuel : Nat) (buf : List Nat) (r : ihex_binrec)
    (rest : List ihex_binrec) (h : FW_LOAD_SIZE ≤ r.len) :
    (bitstream_script fuel buf r rest).1 =
      List.replicate fuel (Event.emi_writememory r.addr [] ANCHOR_LOAD_FPGA) := by
  induction fuel with
  | zero => rfl
  | succ fuel ih =>
    simp only [bitstream_script, fill_stall r rest buf h, List.nil_append, List.take_zero,
      List.replicate_succ]
    rw [ih]

theorem bitstream_script_events (fuel : Nat) (buf : List Nat) (r : ihex_binrec)
    (rest : List ihex_binrec) (hbuf : buf.length = FW_LOAD_SIZE) :
    ∀ e ∈ (bitstream_script fuel buf r rest).1,
      (∃ off n, e = Event.memcpy off n ∧ off + n < FW_LOAD_SIZE) ∨
      (∃ a d, e = Event.emi_writememory a d ANCHOR_LOAD_FPGA ∧ d.length < FW_LOAD_SIZE) := by
  induction fuel generalizing buf r rest with
  | zero => simp [bitstream_script]
  | succ fuel ih =>
    obtain ⟨g, _, hg2, hg3, _, _, _⟩ :=
      fill_spec (r :: rest) 0 buf hbuf (by simp [FW_LOAD_SIZE])
    have hw : (List.take (bitstream_fill 0 buf (r :: rest)).i
        (bitstream_fill 0 buf (r :: rest)).buf).length < FW_LOAD_SIZE := by
      simp only [List.length_take]
      omega
    simp only [bitstream_script]
    cases hrec : (bitstream_fill 0 buf (r :: rest)).rec_ with
    | nil =>
      intro e he
      simp only [List.mem_append, List.mem_singleton] at he
      rcases he with he | he
      · exact Or.inl (fill_events_bound _ _ _ e he)
      · exact Or.inr ⟨_, _, he, hw⟩
    | cons r2 rest2 =>
      intro e he
      simp only [List.mem_append, List.mem_cons] at he
      rcases he with he | he | he
      · exact Or.inl (fill_events_bound _ _ _ e he)
      · exact Or.inr ⟨_, _, he, hw⟩
      · exact ih _ _ _ hg2 e he

theorem device_ops_release (fw : Option firmware) (tr : Trace) :
    device_ops (release fw tr) = device_ops tr := by
  cases fw <;> simp [release, device_ops, Event.is_write]

theorem device_ops_detach (c : Option emi_context) (tr : Trace) :
    device_ops (emi_detach c tr) = device_ops tr := by
  cases c with
  | none => simp [emi_detach, device_ops, Event.is_write]
  | some c =>
    simp only [emi_detach, device_ops_append, device_ops_release]
    simp [device_ops, Event.is_write]

theorem device_ops_reset_script (b : Nat) : device_ops (reset_script b) = [set_reset b] := by
  simp [device_ops, reset_script, set_reset, Event.is_write]

theorem device_ops_records_script (cond : ihex_binrec → Bool) (rq : Nat) (recs : List ihex_binrec) :
    device_ops (records_script cond rq recs) = (recs.filter cond).map (write_of rq) := by
  simp only [device_ops, records_script]
  apply List.filter_eq_self.mpr
  intro e he
  simp only [List.mem_map] at he
  obtain ⟨r, _, rfl⟩ := he
  rfl

theorem device_ops_msleep (n : Nat) : device_ops [Event.msleep n] = [] := by
  simp [device_ops, Event.is_write]

theorem handler_run (env : Env) (fuel : Nat) (f l b : firmware) (ctx : emi_context) (tr : Trace)
    (hv : f.valid = true) (hk : env.kmalloc = true)
    (hl : ctx.loader_fw = some l) (hb : ctx.bitstream_fw = some b) :
    emi_firmware_handler env fuel (some f) ctx tr =
      err_label { ctx with firmware_fw := some f }
        ((exec env (upload_script fuel l b f (List.replicate FW_LOAD_SIZE 0)).1
            (tr ++ [Event.kmalloc FW_LOAD_SIZE])).andThen
          (finish_if (upload_script fuel l b f (List.replicate FW_LOAD_SIZE 0)).2)) := by
  simp only [emi_firmware_handler, ihex_validate_fw, hv, hk, if_true, ne_eq, not_true_eq_false,
    if_false]
  rw [upload_eq env fuel { ctx with firmware_fw := some f } l b f _ _ hl hb rfl]

theorem handler_success (env : Env) (fuel : Nat) (f l b : firmware) (ctx : emi_context)
    (tr : Trace) (hv : f.valid = true) (hk : env.kmalloc = true)
    (hl : ctx.loader_fw = some l) (hb : ctx.bitstream_fw = some b)
    (hok : ∀ n, 0 ≤ env.result n)
    (hsz : ∀ r ∈ b.data, r.len < FW_LOAD_SIZE) (hfuel : b.data.length ≤ fuel) :
    emi_firmware_handler env fuel (some f) ctx tr =
      ⟨emi_detach (some { ctx with firmware_fw := some f })
        (tr ++ [Event.kmalloc FW_LOAD_SIZE] ++
          (script_before l ++
            (bitstream_script fuel (List.replicate FW_LOAD_SIZE 0) b.first b.rest).1 ++
            script_after l f) ++ [Event.kfree_buf]),
       { ctx with firmware_fw := some f }, Status.returned⟩ := by
  rw [handler_run env fuel f l b ctx tr hv hk hl hb]
  have hc := bitstream_script_complete fuel (List.replicate FW_LOAD_SIZE 0) b.first b.rest
    (by simp) hsz hfuel
  simp only [upload_script, hc, if_true]
  rw [exec_ok env _ _ (fun j _ => hok _)]
  simp [finish_if, Flow.andThen, err_label]

theorem handler_stall (env : Env) (fuel : Nat) (f l b : firmware) (ctx : emi_context)
    (tr : Trace) (hv : f.valid = true) (hk : env.kmalloc = true)
    (hl : ctx.loader_fw = some l) (hb : ctx.bitstream_fw = some b)
    (hok : ∀ n, 0 ≤ env.result n) (hwide : FW_LOAD_SIZE ≤ b.first.len) :
    emi_firmware_handler env fuel (some f) ctx tr =
      ⟨tr ++ [Event.kmalloc FW_LOAD_SIZE] ++
          (script_before l ++
            List.replicate fuel (Event.emi_writememory b.first.addr [] ANCHOR_LOAD_FPGA)),
       { ctx with firmware_fw := some f }, Status.spinning⟩ := by
  rw [handler_run env fuel f l b ctx tr hv hk hl hb]
  have hc := bitstream_script_stall fuel (List.replicate FW_LOAD_SIZE 0) b.first b.rest hwide
  have he := bitstream_script_stall_events fuel (List.replicate FW_LOAD_SIZE 0) b.first b.rest hwide
  simp only [upload_script, hc, Bool.false_eq_true, if_false, he]
  rw [exec_ok env _ _ (fun j _ => hok _)]
  simp [finish_if, Flow.andThen, err_label]

theorem env_ok_result (n : Nat) : 0 ≤ env_ok.result n := by
  simp [Env.result, env_ok]

/-! ## The upload sequence (C1) -/

/-- C1 fails on the code: with a triple of valid images whose bitstream has one
record of `FW_LOAD_SIZE` bytes, and a device on which every operation
succeeds, the handler never returns; whatever the number `fuel` of iterations
of the bitstream loop it is given, its device operations are set_reset(1), the
two loader writes, set_reset(0) and then `fuel` empty writes with request
`0xA5`, so the second set_reset(1) and the stages after it are never reached. -/
theorem wide_bitstream_never_returns :
    (sample_loader.valid = true ∧ wide_bitstream.valid = true ∧ sample_firmware.valid = true) ∧
    (¬ ∃ fuel, (emi_firmware_handler env_ok fuel (some sample_firmware) wide_context []).status
        = Status.returned) ∧
    ∀ fuel : Nat,
      device_ops (emi_firmware_handler env_ok fuel (some sample_firmware) wide_context []).trace =
        [Event.emi_writememory CPUCS_REG [1] 0xA0,
         Event.emi_writememory 0x0000 [0xAA] 0xA0,
         Event.emi_writememory 0x0002 [0xBB] 0xA0,
         Event.emi_writememory CPUCS_REG [0] 0xA0]
          ++ List.replicate fuel (Event.emi_writememory 0x0000 [] 0xA5) := by
  have hw : FW_LOAD_SIZE ≤ wide_bitstream.first.len := by
    show FW_LOAD_SIZE ≤ (List.replicate 1023 0).length
    rw [List.length_replicate]
    exact Nat.le_refl 1023
  refine ⟨⟨rfl, rfl, rfl⟩, ?_, ?_⟩
  · rintro ⟨fuel, h⟩
    rw [handler_stall env_ok fuel sample_firmware sample_loader wide_bitstream wide_context []
      rfl rfl rfl rfl env_ok_result hw] at h
    cases h
  · intro fuel
    rw [handler_stall env_ok fuel sample_firmware sample_loader wide_bitstream wide_context []
      rfl rfl rfl rfl env_ok_result hw]
    dsimp only
    rw [device_ops_append, device_ops_append]
    have h1 : device_ops (([] : Trace) ++ [Event.kmalloc FW_LOAD_SIZE]) = [] := by decide
    rw [device_ops_append] at h1
    have h2 : device_ops (script_before sample_loader) =
        [Event.emi_writememory CPUCS_REG [1] 0xA0,
         Event.emi_writememory 0x0000 [0xAA] 0xA0,
         Event.emi_writememory 0x0002 [0xBB] 0xA0,
         Event.emi_writememory CPUCS_REG [0] 0xA0] := by decide
    have h3 : device_ops (List.replicate fuel
        (Event.emi_writememory wide_bitstream.first.addr [] ANCHOR_LOAD_FPGA)) =
        List.replicate fuel (Event.emi_writememory 0x0000 [] 0xA5) := by
      induction fuel with
      | zero => rfl
      | succ n ih =>
        rw [List.replicate_succ, List.replicate_succ]
        show _ :: device_ops _ = _
        rw [ih]
        rfl
    rw [h1, device_ops_append, h2, h3]
    rfl

/-! ## The firmware stages (C2) -/

/-- C2: on a device on which every operation succeeds, the external-write
stage writes, with request `0xA3`, exactly the firmware records for which
`INTERNAL_RAM(addr)` fails, and the internal-write stage writes, with request
`0xA0`, exactly those for which it holds; each in file order, each record in
one write with its own address and its whole payload; together the two stages
write every record of the image exactly once. -/
theorem firmware_partition (env : Env) (fw : firmware) (tr4 tr5 : Trace)
    (hok : ∀ n, 0 ≤ env.result n) :
    stage_external env fw.data tr4 =
      Flow.next (tr4 ++ (fw.data.filter fun r => !INTERNAL_RAM r.addr).map
        fun r => Event.emi_writememory r.addr r.data ANCHOR_LOAD_EXTERNAL) ∧
    stage_internal env fw.data tr5 =
      Flow.next (tr5 ++ (fw.data.filter fun r => INTERNAL_RAM r.addr).map
        fun r => Event.emi_writememory r.addr r.data ANCHOR_LOAD_INTERNAL) ∧
    ((fw.data.filter fun r => !INTERNAL_RAM r.addr) ++
      (fw.data.filter fun r => INTERNAL_RAM r.addr)).Perm fw.data := by
  refine ⟨?_, ?_, ?_⟩
  · simp only [stage_external, write_records_eq]
    rw [exec_ok env _ _ (fun j _ => hok _)]
    rfl
  · simp only [stage_internal, write_records_eq]
    rw [exec_ok env _ _ (fun j _ => hok _)]
    rfl
  · exact List.perm_append_comm.trans (List.filter_append_perm _ _)

theorem firmware_partition_witness :
    stage_external env_ok sample_firmware.data [] =
      Flow.next [Event.emi_writememory 0x2000 [8, 9] 0xA3] ∧
    stage_internal env_ok sample_firmware.data [] =
      Flow.next [Event.emi_writememory 0x0100 [7] 0xA0] :=
  ⟨(firmware_partition env_ok sample_firmware [] [] env_ok_result).1,
   (firmware_partition env_ok sample_firmware [] [] env_ok_result).2.1⟩

/-! ## The transfer buffer (C3) -/

theorem andThen_forall (P : Event → Prop) (f : Flow) (k : Trace → Flow)
    (hf : ∀ e ∈ f.trace, P e)
    (hk : ∀ t, (∀ e ∈ t, P e) → ∀ e ∈ (k t).trace, P e) :
    ∀ e ∈ (f.andThen k).trace, P e := by
  cases f with
  | next t => exact hk t hf
  | goto_err t => exact hf
  | spin t => exact hf
  | oops t => exact hf

theorem exec_forall (P : Event → Prop) (env : Env) (s : List Event) (t : Trace)
    (ht : ∀ e ∈ t, P e) (hs : ∀ e ∈ s, P e) : ∀ e ∈ (exec env s t).trace, P e := by
  intro e he
  rcases exec_trace_mem env s t e he with h | h
  · exact ht e h
  · exact hs e h

theorem reset_script_within (b : Nat) : ∀ e ∈ reset_script b, within_buffer e := by
  intro e he
  simp only [reset_script, List.mem_cons, List.mem_singleton, List.not_mem_nil, or_false] at he
  rcases he with rfl | rfl
  · trivial
  · simp [within_buffer, ANCHOR_LOAD_FPGA]

theorem records_script_within (cond : ihex_binrec → Bool) (rq : Nat) (recs : List ihex_binrec)
    (hrq : rq ≠ ANCHOR_LOAD_FPGA) : ∀ e ∈ records_script cond rq recs, within_buffer e := by
  intro e he
  simp only [records_script, List.mem_map] at he
  obtain ⟨r, _, rfl⟩ := he
  intro h
  exact absurd h hrq

theorem bitstream_script_within (fuel : Nat) (buf : List Nat) (r : ihex_binrec)
    (rest : List ihex_binrec) (hbuf : buf.length = FW_LOAD_SIZE) :
    ∀ e ∈ (bitstream_script fuel buf r rest).1, within_buffer e := by
  intro e he
  rcases bitstream_script_events fuel buf r rest hbuf e he with ⟨off, n, rfl, h⟩ | ⟨a, d, rfl, h⟩
  · exact h
  · intro _; exact h

theorem snoc_forall (P : Event → Prop) (t : Trace) (x : Event) (ht : ∀ e ∈ t, P e) (hx : P x) :
    ∀ e ∈ t ++ [x], P e := by
  intro e he
  simp only [List.mem_append, List.mem_singleton] at he
  rcases he with h | rfl
  · exact ht e h
  · exact hx

theorem upload_within (env : Env) (fuel : Nat) (ctx : emi_context) (buf : List Nat) (tr : Trace)
    (hbuf : buf.length = FW_LOAD_SIZE) (htr : ∀ e ∈ tr, within_buffer e) :
    ∀ e ∈ (upload env fuel ctx buf tr).trace, within_buffer e := by
  have hI : ANCHOR_LOAD_INTERNAL ≠ ANCHOR_LOAD_FPGA := by decide
  have hE : ANCHOR_LOAD_EXTERNAL ≠ ANCHOR_LOAD_FPGA := by decide
  have hs : ∀ t : Trace, (∀ e ∈ t, within_buffer e) →
      ∀ e ∈ t ++ [Event.msleep 250], within_buffer e :=
    fun t ht => snoc_forall _ t (Event.msleep 250) ht trivial
  unfold upload
  simp only [stage_loader, stage_external, stage_internal, check_set_reset, write_records_eq,
    bitstream_loop_eq]
  refine andThen_forall _ _ _ (exec_forall _ _ _ _ htr (reset_script_within 1)) (fun t ht => ?_)
  split
  · exact ht
  refine andThen_forall _ _ _ (exec_forall _ _ _ _ ht (records_script_within _ _ _ hI))
    (fun t ht => ?_)
  refine andThen_forall _ _ _ (exec_forall _ _ _ _ ht (reset_script_within 0)) (fun t ht => ?_)
  split
  · exact hs t ht
  refine andThen_forall _ _ _ ?_ (fun t ht => ?_)
  · refine andThen_forall _ _ _
      (exec_forall _ _ _ _ (hs t ht) (bitstream_script_within _ _ _ _ hbuf))
      (fun t ht => ?_)
    unfold finish_if
    split <;> exact ht
  refine andThen_forall _ _ _ (exec_forall _ _ _ _ ht (reset_script_within 1)) (fun t ht => ?_)
  refine andThen_forall _ _ _ (exec_forall _ _ _ _ ht (records_script_within _ _ _ hI))
    (fun t ht => ?_)
  refine andThen_forall _ _ _
    (exec_forall _ _ _ _ (hs t ht) (reset_script_within 0)) (fun t ht => ?_)
  split
  · exact hs t ht
  refine andThen_forall _ _ _
    (exec_forall _ _ _ _ (hs t ht) (records_script_within _ _ _ hE))
    (fun t ht => ?_)
  refine andThen_forall _ _ _ (exec_forall _ _ _ _ ht (reset_script_within 1)) (fun t ht => ?_)
  refine andThen_forall _ _ _ (exec_forall _ _ _ _ ht (records_script_within _ _ _ hI))
    (fun t ht => ?_)
  refine andThen_forall _ _ _ (exec_forall _ _ _ _ ht (reset_script_within 0)) (fun t ht => ?_)
  exact hs t ht

theorem release_forall (P : Event → Prop) (fw : Option firmware) (t : Trace)
    (ht : ∀ e ∈ t, P e) (hP : ∀ f, P (Event.release_firmware f)) :
    ∀ e ∈ release fw t, P e := by
  cases fw with
  | none => exact ht
  | some f => exact snoc_forall _ _ _ ht (hP f)

theorem detach_within (c : Option emi_context) (t : Trace)
    (ht : ∀ e ∈ t, within_buffer e) : ∀ e ∈ emi_detach c t, within_buffer e := by
  have hd : ∀ e ∈ t ++ [Event.emi_detach], within_buffer e :=
    snoc_forall _ t Event.emi_detach ht trivial
  cases c with
  | none => exact hd
  | some c =>
    simp only [emi_detach]
    intro e he
    simp only [List.mem_append, List.mem_cons, List.mem_singleton, List.not_mem_nil,
      or_false] at he
    rcases he with h | rfl | rfl | rfl
    · exact release_forall _ _ _ (release_forall _ _ _ (release_forall _ _ _
        hd (fun _ => trivial)) (fun _ => trivial)) (fun _ => trivial) e h
    · trivial
    · trivial
    · trivial

theorem err_label_within (c : emi_context) (f : Flow) (hf : ∀ e ∈ f.trace, within_buffer e) :
    ∀ e ∈ (err_label c f).trace, within_buffer e := by
  cases f with
  | next t =>
    exact detach_within (some c) (t ++ [Event.kfree_buf]) (snoc_forall _ t Event.kfree_buf hf trivial)
  | goto_err t =>
    exact detach_within (some c) (t ++ [Event.kfree_buf]) (snoc_forall _ t Event.kfree_buf hf trivial)
  | spin t => exact hf
  | oops t => exact hf

theorem handler_within (env : Env) (fuel : Nat) (fw : Option firmware) (ctx : emi_context)
    (tr : Trace) (htr : ∀ e ∈ tr, within_buffer e) :
    ∀ e ∈ (emi_firmware_handler env fuel fw ctx tr).trace, within_buffer e := by
  have hk : ∀ e ∈ tr ++ [Event.kmalloc FW_LOAD_SIZE], within_buffer e :=
    snoc_forall _ tr (Event.kmalloc FW_LOAD_SIZE) htr trivial
  cases fw with
  | none => exact detach_within (some ctx) tr htr
  | some f =>
    simp only [emi_firmware_handler]
    split
    · exact detach_within (some ctx) tr htr
    · split
      · exact err_label_within _ _ (upload_within env fuel _ _ _ (by simp) hk)
      · exact detach_within (some { ctx with firmware_fw := some f }) _ hk

/-- C3: every write that `emi_firmware_handler` issues with request
`ANCHOR_LOAD_FPGA` carries at most `FW_LOAD_SIZE` bytes, and every copy into
the transfer buffer ends within its `FW_LOAD_SIZE` bytes; this holds for every
bitstream image, every device behaviour and every length of run. -/
theorem bitstream_write_within_limit (env : Env) (fuel : Nat) (fw : Option firmware)
    (ctx : emi_context) (e : Event)
    (he : e ∈ (emi_firmware_handler env fuel fw ctx []).trace) :
    (∀ a d, e = Event.emi_writememory a d ANCHOR_LOAD_FPGA → d.length ≤ FW_LOAD_SIZE) ∧
    (∀ off n, e = Event.memcpy off n → off + n ≤ FW_LOAD_SIZE) := by
  have h := handler_within env fuel fw ctx [] (by simp) e he
  constructor
  · intro a d hd
    subst hd
    exact Nat.le_of_lt (h rfl)
  · intro off n hd
    subst hd
    exact Nat.le_of_lt h

theorem bitstream_write_within_limit_witness :
    ([1, 2, 3] : List Nat).length ≤ FW_LOAD_SIZE :=
  (bitstream_write_within_limit env_ok 2 (some sample_firmware) sample_context
    (Event.emi_writememory 0x0000 [1, 2, 3] ANCHOR_LOAD_FPGA) (by decide)).1 0x0000 [1, 2, 3] rfl

/-! ## Chunk boundaries and addresses (C4) -/

theorem writes_with_append (rq : Nat) (a b : Trace) :
    writes_with rq (a ++ b) = writes_with rq a ++ writes_with rq b := by
  simp [writes_with]

theorem writes_with_release (rq : Nat) (fw : Option firmware) (tr : Trace) :
    writes_with rq (release fw tr) = writes_with rq tr := by
  cases fw <;> simp [release, writes_with]

theorem writes_with_detach (rq : Nat) (c : Option emi_context) (tr : Trace) :
    writes_with rq (emi_detach c tr) = writes_with rq tr := by
  cases c with
  | none => simp [emi_detach, writes_with]
  | some c =>
    simp only [emi_detach, writes_with_append, writes_with_release]
    simp [writes_with]

theorem writes_with_reset_script (b : Nat) : writes_with ANCHOR_LOAD_FPGA (reset_script b) = [] := by
  simp [writes_with, reset_script, ANCHOR_LOAD_FPGA]

theorem writes_with_records_script (rq0 rq : Nat) (cond : ihex_binrec → Bool)
    (recs : List ihex_binrec) (h : rq ≠ rq0) :
    writes_with rq0 (records_script cond rq recs) = [] := by
  simp only [writes_with, records_script, List.filter_eq_nil_iff, List.mem_map]
  rintro e ⟨r, _, rfl⟩
  simp [write_of, h]

theorem writes_with_script_before (l : firmware) :
    writes_with ANCHOR_LOAD_FPGA (script_before l) = [] := by
  simp only [script_before, writes_with_append, writes_with_reset_script,
    writes_with_records_script ANCHOR_LOAD_FPGA ANCHOR_LOAD_INTERNAL _ _ (by decide)]
  simp [writes_with]

theorem writes_with_script_after (l f : firmware) :
    writes_with ANCHOR_LOAD_FPGA (script_after l f) = [] := by
  simp only [script_after, writes_with_append, writes_with_reset_script,
    writes_with_records_script ANCHOR_LOAD_FPGA ANCHOR_LOAD_INTERNAL _ _ (by decide),
    writes_with_records_script ANCHOR_LOAD_FPGA ANCHOR_LOAD_EXTERNAL _ _ (by decide)]
  simp [writes_with]

theorem handler_fpga_writes (env : Env) (fuel : Nat) (f l b : firmware) (ctx : emi_context)
    (hv : f.valid = true) (hk : env.kmalloc = true)
    (hl : ctx.loader_fw = some l) (hb : ctx.bitstream_fw = some b)
    (hok : ∀ n, 0 ≤ env.result n) :
    writes_with ANCHOR_LOAD_FPGA (emi_firmware_handler env fuel (some f) ctx []).trace =
      writes_with ANCHOR_LOAD_FPGA
        (bitstream_script fuel (List.replicate FW_LOAD_SIZE 0) b.first b.rest).1 := by
  rw [handler_run env fuel f l b ctx [] hv hk hl hb]
  rw [exec_ok env _ _ (fun j _ => hok _)]
  simp only [upload_script]
  cases hc : (bitstream_script fuel (List.replicate FW_LOAD_SIZE 0) b.first b.rest).2 with
  | true =>
    simp only [if_true, finish_if_true, next_andThen, err_label, writes_with_detach,
      writes_with_append, writes_with_script_before, writes_with_script_after]
    simp [writes_with]
  | false =>
    simp only [Bool.false_eq_true, if_false, finish_if_false, next_andThen, err_label,
      writes_with_append, writes_with_script_before]
    simp [writes_with]

theorem fill_payload_congr (recs recs2 : List ihex_binrec) (i : Nat) (buf : List Nat)
    (h : recs.map (fun r => r.data) = recs2.map (fun r => r.data)) :
    (bitstream_fill i buf recs).i = (bitstream_fill i buf recs2).i ∧
    (bitstream_fill i buf recs).buf = (bitstream_fill i buf recs2).buf ∧
    (bitstream_fill i buf recs).events = (bitstream_fill i buf recs2).events ∧
    (bitstream_fill i buf recs).rec_.map (fun r => r.data) =
      (bitstream_fill i buf recs2).rec_.map (fun r => r.data) := by
  induction recs generalizing recs2 i buf with
  | nil =>
    cases recs2 with
    | nil => simp
    | cons r2 rest2 => simp at h
  | cons r rest ih =>
    cases recs2 with
    | nil => simp at h
    | cons r2 rest2 =>
      simp only [List.map_cons, List.cons.injEq] at h
      have hlen : r.len = r2.len := by simp [ihex_binrec.len, h.1]
      by_cases hfit : i + r.len < FW_LOAD_SIZE
      · have hfit2 : i + r2.len < FW_LOAD_SIZE := by omega
        simp only [bitstream_fill, hfit, hfit2, if_true, ihex_next_binrec]
        rw [← hlen, ← h.1]
        have := ih rest2 (i + r.len) (memcpy buf i r.data r.len) h.2
        exact ⟨this.1, this.2.1, by rw [this.2.2.1], this.2.2.2⟩
      · have hfit2 : ¬ i + r2.len < FW_LOAD_SIZE := by omega
        simp only [bitstream_fill, hfit, hfit2, if_false, List.map_cons, h.1, h.2, and_self]

theorem script_payload_congr (fuel : Nat) (buf : List Nat) (r r2 : ihex_binrec)
    (rest rest2 : List ihex_binrec)
    (h : (r :: rest).map (fun r => r.data) = (r2 :: rest2).map (fun r => r.data)) :
    (bitstream_script fuel buf r rest).1.map Event.no_address =
      (bitstream_script fuel buf r2 rest2).1.map Event.no_address := by
  induction fuel generalizing buf r r2 rest rest2 with
  | zero => rfl
  | succ fuel ih =>
    obtain ⟨h1, h2, h3, h4⟩ := fill_payload_congr (r :: rest) (r2 :: rest2) 0 buf h
    simp only [bitstream_script]
    cases hrec : (bitstream_fill 0 buf (r :: rest)).rec_ with
    | nil =>
      cases hrec2 : (bitstream_fill 0 buf (r2 :: rest2)).rec_ with
      | nil =>
        simp only [List.map_append, List.map_cons, List.map_nil, Event.no_address, h1, h2, h3]
      | cons x xs => rw [hrec, hrec2] at h4; simp at h4
    | cons y ys =>
      cases hrec2 : (bitstream_fill 0 buf (r2 :: rest2)).rec_ with
      | nil => rw [hrec, hrec2] at h4; simp at h4
      | cons x xs =>
        rw [hrec, hrec2] at h4
        simp only [List.map_append, List.map_cons, Event.no_address, h1, h2, h3]
        rw [ih _ y x ys xs h4]

theorem writes_with_no_address (rq : Nat) (s : List Event) :
    (writes_with rq s).map Event.no_address = writes_with rq (s.map Event.no_address) := by
  induction s with
  | nil => rfl
  | cons e es ih =>
    cases e <;> simp only [writes_with, List.filter_cons, List.map_cons, Event.no_address] at ih ⊢
      <;> first
        | exact ih
        | (split <;> simp only [List.map_cons, Event.no_address, ih])

theorem bitstream_script_single (fuel : Nat) (buf : List Nat) (r : ihex_binrec)
    (rest : List ihex_binrec) (hbuf : buf.length = FW_LOAD_SIZE)
    (htot : (payloads (r :: rest)).length < FW_LOAD_SIZE) :
    writes_with ANCHOR_LOAD_FPGA (bitstream_script (fuel + 1) buf r rest).1 =
      [Event.emi_writememory r.addr (payloads (r :: rest)) ANCHOR_LOAD_FPGA] := by
  obtain ⟨g, hg1, hg2, hg3, hg4, _, hg6⟩ :=
    fill_spec (r :: rest) 0 buf hbuf (by simp [FW_LOAD_SIZE])
  have hi : (bitstream_fill 0 buf (r :: rest)).i = (payloads g).length := by
    have := congrArg List.length hg4
    simp only [List.length_take, List.take_zero, List.nil_append] at this
    omega
  have hnw : writes_with ANCHOR_LOAD_FPGA (bitstream_fill 0 buf (r :: rest)).events = [] := by
    simp only [writes_with, List.filter_eq_nil_iff]
    intro e he
    obtain ⟨off, n, rfl, _⟩ := fill_events_bound _ _ _ e he
    simp
  cases hrec : (bitstream_fill 0 buf (r :: rest)).rec_ with
  | nil =>
    rw [hrec, List.append_nil] at hg1
    simp only [bitstream_script, hrec, writes_with_append, hnw, List.nil_append]
    rw [hg4, ← hg1]
    simp [writes_with]
  | cons r2 rest2 =>
    exfalso
    have h6 := hg6 r2 rest2 hrec
    rw [hrec] at hg1
    rw [hg1, payloads_append] at htot
    simp only [payloads, List.length_append, ihex_binrec.len] at htot h6
    omega

/-- C4, as amended: the chunking loop of the bitstream stage never looks at
record addresses.  Two bitstreams whose records carry the same payloads in the
same order are sent in the same writes up to the addresses, whatever the
addresses of their records; and when the payloads of a bitstream total fewer
than `FW_LOAD_SIZE` bytes the whole bitstream goes out in one write at the
address of its first record, gaps between its records notwithstanding. -/
theorem chunking_ignores_addresses (env : Env) (fuel : Nat) (fw loader b b2 : firmware)
    (ctx ctx2 : emi_context) (hv : fw.valid = true) (hk : env.kmalloc = true)
    (hok : ∀ n, 0 ≤ env.result n)
    (hl : ctx.loader_fw = some loader) (hb : ctx.bitstream_fw = some b)
    (hl2 : ctx2.loader_fw = some loader) (hb2 : ctx2.bitstream_fw = some b2)
    (hsame : b.data.map (fun r => r.data) = b2.data.map (fun r => r.data)) :
    (writes_with ANCHOR_LOAD_FPGA (emi_firmware_handler env fuel (some fw) ctx []).trace).map
        Event.no_address =
      (writes_with ANCHOR_LOAD_FPGA (emi_firmware_handler env fuel (some fw) ctx2 []).trace).map
        Event.no_address ∧
    ((payloads b.data).length < FW_LOAD_SIZE → 0 < fuel →
      writes_with ANCHOR_LOAD_FPGA (emi_firmware_handler env fuel (some fw) ctx []).trace =
        [Event.emi_writememory b.first.addr (payloads b.data) ANCHOR_LOAD_FPGA]) := by
  rw [handler_fpga_writes env fuel fw loader b ctx hv hk hl hb hok,
    handler_fpga_writes env fuel fw loader b2 ctx2 hv hk hl2 hb2 hok]
  constructor
  · rw [writes_with_no_address, writes_with_no_address,
      script_payload_congr fuel _ b.first b2.first b.rest b2.rest hsame]
  · intro htot hfuel
    obtain ⟨n, rfl⟩ : ∃ n, fuel = n + 1 := ⟨fuel - 1, by omega⟩
    exact bitstream_script_single n _ b.first b.rest (by simp) htot

theorem chunking_ignores_addresses_witness :
    writes_with ANCHOR_LOAD_FPGA
        (emi_firmware_handler env_ok 2 (some sample_firmware) gap_context []).trace =
      [Event.emi_writememory 0x0000 [0x41, 0x41, 0x42, 0x42] ANCHOR_LOAD_FPGA] :=
  (chunking_ignores_addresses env_ok 2 sample_firmware sample_loader gap_bitstream gap_bitstream
    gap_context gap_context rfl rfl env_ok_result rfl rfl rfl rfl rfl).2
    (by decide) (by decide)

/-- C4, as stated, fails: the bitstream records `[(0x0000,"AA"),(0x0010,"BB")]`
are not contiguous, yet the bitstream stage sends both payloads in one single
device write. -/
theorem gap_records_share_one_write :
    device_ops (emi_firmware_handler env_ok 2 (some sample_firmware) gap_context []).trace =
      [Event.emi_writememory CPUCS_REG [1] 0xA0,
       Event.emi_writememory 0x0000 [0xAA] 0xA0,
       Event.emi_writememory 0x0002 [0xBB] 0xA0,
       Event.emi_writememory CPUCS_REG [0] 0xA0,
       Event.emi_writememory 0x0000 [0x41, 0x41, 0x42, 0x42] 0xA5,
       Event.emi_writememory CPUCS_REG [1] 0xA0,
       Event.emi_writememory 0x0000 [0xAA] 0xA0,
       Event.emi_writememory 0x0002 [0xBB] 0xA0,
       Event.emi_writememory CPUCS_REG [0] 0xA0,
       Event.emi_writememory 0x2000 [8, 9] 0xA3,
       Event.emi_writememory CPUCS_REG [1] 0xA0,
       Event.emi_writememory 0x0100 [7] 0xA0,
       Event.emi_writememory CPUCS_REG [0] 0xA0] := by
  decide

/-! ## Chunks of the bitstream stage (C5) -/

theorem chunk_write_payload (g : List ihex_binrec) : (chunk_write g).payload = payloads g := by
  cases g <;> rfl

theorem chunks_payload (groups : List (List ihex_binrec)) :
    (groups.map chunk_write).flatMap Event.payload = payloads groups.flatten := by
  induction groups with
  | nil => rfl
  | cons g gs ih =>
    simp only [List.map_cons, List.flatMap_cons, List.flatten_cons, payloads_append,
      chunk_write_payload, ih]

theorem bitstream_script_groups (fuel : Nat) (buf : List Nat) (r : ihex_binrec)
    (rest : List ihex_binrec) (hbuf : buf.length = FW_LOAD_SIZE)
    (hsz : ∀ x ∈ r :: rest, x.len < FW_LOAD_SIZE) (hfuel : (r :: rest).length ≤ fuel) :
    ∃ groups : List (List ihex_binrec),
      groups.flatten = r :: rest ∧ (∀ g ∈ groups, g ≠ []) ∧
      writes_with ANCHOR_LOAD_FPGA (bitstream_script fuel buf r rest).1 =
        groups.map chunk_write := by
  induction fuel generalizing buf r rest with
  | zero => simp at hfuel
  | succ fuel ih =>
    obtain ⟨g, hg1, hg2, hg3, hg4, hg5, _⟩ :=
      fill_spec (r :: rest) 0 buf hbuf (by simp [FW_LOAD_SIZE])
    have hne : g ≠ [] := hg5 r rest rfl (by simpa using hsz r (List.mem_cons_self _ _))
    have hnw : writes_with ANCHOR_LOAD_FPGA (bitstream_fill 0 buf (r :: rest)).events = [] := by
      simp only [writes_with, List.filter_eq_nil_iff]
      intro e he
      obtain ⟨off, n, rfl, _⟩ := fill_events_bound _ _ _ e he
      simp
    obtain ⟨r0, g0, rfl⟩ : ∃ r0 g0, g = r0 :: g0 := by
      cases g with
      | nil => exact absurd rfl hne
      | cons r0 g0 => exact ⟨r0, g0, rfl⟩
    have hr0 : r0 = r := by
      simp only [List.cons_append, List.cons.injEq] at hg1
      exact hg1.1.symm
    subst hr0
    have hw : Event.emi_writememory r0.addr
        (List.take (bitstream_fill 0 buf (r0 :: rest)).i (bitstream_fill 0 buf (r0 :: rest)).buf)
        ANCHOR_LOAD_FPGA = chunk_write (r0 :: g0) := by
      rw [hg4]; rfl
    simp only [bitstream_script]
    cases hrec : (bitstream_fill 0 buf (r0 :: rest)).rec_ with
    | nil =>
      refine ⟨[r0 :: g0], ?_, ?_, ?_⟩
      · rw [hrec] at hg1
        simp [hg1]
      · simp
      · simp only [writes_with_append, hnw, List.nil_append, hw]
        simp [writes_with, chunk_write]
    | cons r2 rest2 =>
      rw [hrec] at hg1
      obtain ⟨gs, hgs1, hgs2, hgs3⟩ := ih (bitstream_fill 0 buf (r0 :: rest)).buf r2 rest2 hg2
        (by
          intro x hx
          apply hsz
          rw [hg1]
          exact List.mem_append_right _ hx)
        (by
          have hl := congrArg List.length hg1
          simp only [List.length_append, List.length_cons] at hl hfuel ⊢
          omega)
      refine ⟨(r0 :: g0) :: gs, ?_, ?_, ?_⟩
      · simp only [List.flatten_cons, hgs1]
        exact hg1.symm
      · intro x hx
        simp only [List.mem_cons] at hx
        rcases hx with rfl | hx
        · simp
        · exact hgs2 x hx
      · have hsplit : ∀ (a : List Event) (w : Event) (c : List Event),
            a ++ w :: c = a ++ ([w] ++ c) := by intros; simp
        simp only
        rw [hsplit, writes_with_append, writes_with_append, hnw, hgs3, hw]
        simp [writes_with, chunk_write]

/-- C5: for every bitstream image whose records each carry at least 1 and
fewer than `FW_LOAD_SIZE` bytes, on a device on which every operation
succeeds, the writes of the bitstream stage split the record list into
consecutive non-empty groups in file order: each write carries the payloads of
its group one after the other at the address of the group's first record, and
all the writes together carry the payloads of all the records in order. -/
theorem bitstream_chunks (env : Env) (fuel : Nat) (fw loader b : firmware) (ctx : emi_context)
    (hv : fw.valid = true) (hk : env.kmalloc = true) (hok : ∀ n, 0 ≤ env.result n)
    (hl : ctx.loader_fw = some loader) (hb : ctx.bitstream_fw = some b)
    (hsz : ∀ r ∈ b.data, 1 ≤ r.len ∧ r.len < FW_LOAD_SIZE)
    (hfuel : b.data.length ≤ fuel) :
    (emi_firmware_handler env fuel (some fw) ctx []).status = Status.returned ∧
    ∃ groups : List (List ihex_binrec),
      groups.flatten = b.data ∧ (∀ g ∈ groups, g ≠ []) ∧
      writes_with ANCHOR_LOAD_FPGA (emi_firmware_handler env fuel (some fw) ctx []).trace =
        groups.map chunk_write ∧
      (writes_with ANCHOR_LOAD_FPGA
          (emi_firmware_handler env fuel (some fw) ctx []).trace).flatMap Event.payload =
        payloads b.data := by
  have hsz2 : ∀ r ∈ b.data, r.len < FW_LOAD_SIZE := fun r hr => (hsz r hr).2
  refine ⟨?_, ?_⟩
  · rw [handler_success env fuel fw loader b ctx [] hv hk hl hb hok hsz2 hfuel]
  · rw [handler_fpga_writes env fuel fw loader b ctx hv hk hl hb hok]
    obtain ⟨groups, h1, h2, h3⟩ :=
      bitstream_script_groups fuel (List.replicate FW_LOAD_SIZE 0) b.first b.rest (by simp)
        hsz2 hfuel
    refine ⟨groups, h1, h2, h3, ?_⟩
    rw [h3, chunks_payload, h1]
    rfl

theorem bitstream_chunks_witness :
    (emi_firmware_handler env_ok 2 (some sample_firmware) sample_context []).status
      = Status.returned ∧
    ∃ groups : List (List ihex_binrec),
      groups.flatten = sample_bitstream.data ∧ (∀ g ∈ groups, g ≠ []) ∧
      writes_with ANCHOR_LOAD_FPGA
          (emi_firmware_handler env_ok 2 (some sample_firmware) sample_context []).trace =
        groups.map chunk_write ∧
      (writes_with ANCHOR_LOAD_FPGA
          (emi_firmware_handler env_ok 2 (some sample_firmware) sample_context []).trace).flatMap
          Event.payload =
        payloads sample_bitstream.data :=
  bitstream_chunks env_ok 2 sample_firmware sample_loader sample_bitstream sample_context
    rfl rfl env_ok_result rfl rfl (by decide) (by decide)

theorem device_ops_bitstream_script (fuel : Nat) (buf : List Nat) (r : ihex_binrec)
    (rest : List ihex_binrec) (hbuf : buf.length = FW_LOAD_SIZE) :
    device_ops (bitstream_script fuel buf r rest).1 =
      writes_with ANCHOR_LOAD_FPGA (bitstream_script fuel buf r rest).1 := by
  simp only [device_ops, writes_with]
  apply List.filter_congr
  intro e he
  rcases bitstream_script_events fuel buf r rest hbuf e he with ⟨_, _, rfl, _⟩ | ⟨_, _, rfl, _⟩
  · rfl
  · simp [Event.is_write]

/-! ## Records longer than the transfer limit (C6) -/

theorem release_eq_append (fw : Option firmware) (t : Trace) :
    release fw t = t ++ release fw [] := by
  cases fw <;> simp [release]

theorem emi_detach_eq_append (c : Option emi_context) (t : Trace) :
    emi_detach c t = t ++ emi_detach c [] := by
  cases c with
  | none => simp [emi_detach]
  | some c =>
    simp only [emi_detach, List.nil_append]
    rw [release_eq_append c.firmware_fw, release_eq_append c.bitstream_fw,
      release_eq_append c.loader_fw,
      release_eq_append c.firmware_fw (release c.bitstream_fw (release c.loader_fw _)),
      release_eq_append c.bitstream_fw (release c.loader_fw _),
      release_eq_append c.loader_fw [Event.emi_detach]]
    simp

theorem mem_detach_of_mem (c : Option emi_context) (t : Trace) (e : Event) (h : e ∈ t) :
    e ∈ emi_detach c t := by
  rw [emi_detach_eq_append]
  exact List.mem_append_left _ h

/-- C6, as amended: on a run on which the transfer buffer is allocated, every
device operation succeeds and every record of the bitstream is shorter than
`FW_LOAD_SIZE`, a record of the loader or of the firmware whose payload is
longer than `FW_LOAD_SIZE` is not rejected.  It is sent like any other, whole,
in one device write that carries its full payload (request `0xA0` for a loader
record and for a firmware record in internal RAM, `0xA3` for a firmware record
above it); the handler returns, and the device operations of the run are the
complete upload sequence: set_reset(1), one write per loader record,
set_reset(0), the bitstream chunks, set_reset(1), one write per loader record,
set_reset(0), one write per external firmware record, set_reset(1), one write
per internal firmware record, set_reset(0). -/
theorem long_record_sent_whole (env : Env) (fuel : Nat) (fw loader b : firmware)
    (ctx : emi_context) (hv : fw.valid = true) (hk : env.kmalloc = true)
    (hok : ∀ n, 0 ≤ env.result n)
    (hl : ctx.loader_fw = some loader) (hb : ctx.bitstream_fw = some b)
    (hsz : ∀ r ∈ b.data, r.len < FW_LOAD_SIZE) (hfuel : b.data.length ≤ fuel) :
    (emi_firmware_handler env fuel (some fw) ctx []).status = Status.returned ∧
    (∀ r ∈ loader.data, FW_LOAD_SIZE < r.len →
      Event.emi_writememory r.addr r.data ANCHOR_LOAD_INTERNAL ∈
        (emi_firmware_handler env fuel (some fw) ctx []).trace) ∧
    (∀ r ∈ fw.data, FW_LOAD_SIZE < r.len →
      Event.emi_writememory r.addr r.data
          (if INTERNAL_RAM r.addr then ANCHOR_LOAD_INTERNAL else ANCHOR_LOAD_EXTERNAL) ∈
        (emi_firmware_handler env fuel (some fw) ctx []).trace) ∧
    ∃ groups : List (List ihex_binrec),
      groups.flatten = b.data ∧ (∀ g ∈ groups, g ≠ []) ∧
      device_ops (emi_firmware_handler env fuel (some fw) ctx []).trace =
        [Event.emi_writememory CPUCS_REG [1] 0xA0]
          ++ loader.data.map (fun r => Event.emi_writememory r.addr r.data ANCHOR_LOAD_INTERNAL)
          ++ [Event.emi_writememory CPUCS_REG [0] 0xA0]
          ++ groups.map chunk_write
          ++ [Event.emi_writememory CPUCS_REG [1] 0xA0]
          ++ loader.data.map (fun r => Event.emi_writememory r.addr r.data ANCHOR_LOAD_INTERNAL)
          ++ [Event.emi_writememory CPUCS_REG [0] 0xA0]
          ++ (fw.data.filter fun r => !INTERNAL_RAM r.addr).map
              (fun r => Event.emi_writememory r.addr r.data ANCHOR_LOAD_EXTERNAL)
          ++ [Event.emi_writememory CPUCS_REG [1] 0xA0]
          ++ (fw.data.filter fun r => INTERNAL_RAM r.addr).map
              (fun r => Event.emi_writememory r.addr r.data ANCHOR_LOAD_INTERNAL)
          ++ [Event.emi_writememory CPUCS_REG [0] 0xA0] := by
  obtain ⟨groups, hg1, hg2, hg3⟩ :=
    bitstream_script_groups fuel (List.replicate FW_LOAD_SIZE 0) b.first b.rest (by simp)
      hsz hfuel
  rw [handler_success env fuel fw loader b ctx [] hv hk hl hb hok hsz hfuel]
  refine ⟨rfl, ?_, ?_, groups, hg1, hg2, ?_⟩
  · intro r hr _
    dsimp only
    apply mem_detach_of_mem
    have h1 : Event.emi_writememory r.addr r.data ANCHOR_LOAD_INTERNAL ∈ script_before loader := by
      unfold script_before records_script
      simp only [List.mem_append, List.mem_map, List.mem_filter]
      exact Or.inl (Or.inl (Or.inr ⟨r, ⟨hr, trivial⟩, rfl⟩))
    simp only [List.mem_append]
    exact Or.inl (Or.inr (Or.inl (Or.inl h1)))
  · intro r hr _
    dsimp only
    apply mem_detach_of_mem
    have h2 : Event.emi_writememory r.addr r.data
        (if INTERNAL_RAM r.addr then ANCHOR_LOAD_INTERNAL else ANCHOR_LOAD_EXTERNAL) ∈
        script_after loader fw := by
      unfold script_after records_script
      simp only [List.mem_append, List.mem_map, List.mem_filter]
      cases hi : INTERNAL_RAM r.addr with
      | true => exact Or.inl (Or.inl (Or.inr ⟨r, ⟨hr, hi⟩, by simp [write_of]⟩))
      | false =>
        exact Or.inl (Or.inl (Or.inl (Or.inl (Or.inr ⟨r, ⟨hr, by simp [hi]⟩, by simp [write_of]⟩))))
    simp only [List.mem_append]
    exact Or.inl (Or.inr (Or.inr h2))
  · dsimp only
    simp only [device_ops_detach, device_ops_append, script_before, script_after,
      device_ops_reset_script, device_ops_records_script, device_ops_msleep, set_reset,
      device_ops_bitstream_script fuel _ _ _ (List.length_replicate _ _), hg3]
    simp [device_ops, Event.is_write]
    rfl

theorem long_record_sent_whole_witness :
    Event.emi_writememory 0x0000 (List.replicate 1024 0) ANCHOR_LOAD_INTERNAL ∈
      (emi_firmware_handler env_ok 2 (some sample_firmware) long_context []).trace :=
  (long_record_sent_whole env_ok 2 sample_firmware long_loader sample_bitstream long_context
    rfl rfl env_ok_result rfl rfl (by decide) (by decide)).2.1
    ⟨0x0000, List.replicate 1024 0⟩ (List.mem_cons_self _ _)
    (by
      show FW_LOAD_SIZE < (List.replicate 1024 0).length
      rw [List.length_replicate]
      exact Nat.lt_succ_self 1023)

set_option maxRecDepth 100000 in
/-- C6, as stated, fails: a loader whose single record carries 1024 bytes,
more than `FW_LOAD_SIZE`, is not rejected; its record goes out in one device
write of 1024 bytes and the handler returns after the complete sequence. -/
theorem long_record_not_rejected :
    (emi_firmware_handler env_ok 2 (some sample_firmware) long_context []).status
      = Status.returned ∧
    device_ops (emi_firmware_handler env_ok 2 (some sample_firmware) long_context []).trace =
      [Event.emi_writememory CPUCS_REG [1] 0xA0,
       Event.emi_writememory 0x0000 (List.replicate 1024 0) 0xA0,
       Event.emi_writememory CPUCS_REG [0] 0xA0,
       Event.emi_writememory 0x0000 [1, 2, 3] 0xA5,
       Event.emi_writememory CPUCS_REG [1] 0xA0,
       Event.emi_writememory 0x0000 (List.replicate 1024 0) 0xA0,
       Event.emi_writememory CPUCS_REG [0] 0xA0,
       Event.emi_writememory 0x2000 [8, 9] 0xA3,
       Event.emi_writememory CPUCS_REG [1] 0xA0,
       Event.emi_writememory 0x0100 [7] 0xA0,
       Event.emi_writememory CPUCS_REG [0] 0xA0] ∧
    FW_LOAD_SIZE < (List.replicate 1024 0).length := by
  rw [handler_success env_ok 2 sample_firmware long_loader sample_bitstream long_context []
    rfl rfl rfl rfl env_ok_result (by decide) (by decide)]
  refine ⟨rfl, ?_, ?_⟩
  · dsimp only
    rw [device_ops_detach]
    decide
  · rw [List.length_replicate]
    exact Nat.lt_succ_self 1023

/-! ## Teardown (C7) -/

theorem exec_trace_take (env : Env) (s : List Event) (tr : Trace) :
    ∃ n, exec env s tr = Flow.next (tr ++ s.take n) ∨
      exec env s tr = Flow.goto_err (tr ++ s.take n) := by
  induction s generalizing tr with
  | nil => exact ⟨0, Or.inl (by simp [exec])⟩
  | cons e es ih =>
    obtain ⟨n, hn⟩ := ih (tr ++ [e])
    simp only [exec]
    split
    · split
      · exact ⟨1, Or.inr (by simp)⟩
      · refine ⟨n + 1, ?_⟩
        simpa using hn
    · refine ⟨n + 1, ?_⟩
      simpa using hn

theorem bitstream_script_is_upload (fuel : Nat) (buf : List Nat) (r : ihex_binrec)
    (rest : List ihex_binrec) :
    ∀ e ∈ (bitstream_script fuel buf r rest).1, e.is_upload = true := by
  induction fuel generalizing buf r rest with
  | zero => simp [bitstream_script]
  | succ fuel ih =>
    have hf : ∀ e ∈ (bitstream_fill 0 buf (r :: rest)).events, e.is_upload = true := by
      intro e he
      obtain ⟨off, n, rfl, _⟩ := fill_events_bound _ _ _ e he
      rfl
    simp only [bitstream_script]
    cases hrec : (bitstream_fill 0 buf (r :: rest)).rec_ with
    | nil =>
      intro e he
      simp only [List.mem_append, List.mem_singleton] at he
      rcases he with he | rfl
      · exact hf e he
      · rfl
    | cons r2 rest2 =>
      intro e he
      simp only [List.mem_append, List.mem_cons] at he
      rcases he with he | rfl | he
      · exact hf e he
      · rfl
      · exact ih _ _ _ e he

theorem reset_script_is_upload (b : Nat) : ∀ e ∈ reset_script b, e.is_upload = true := by
  intro e he
  simp only [reset_script, List.mem_cons, List.mem_singleton, List.not_mem_nil, or_false] at he
  rcases he with rfl | rfl <;> rfl

theorem records_script_is_upload (cond : ihex_binrec → Bool) (rq : Nat) (recs : List ihex_binrec) :
    ∀ e ∈ records_script cond rq recs, e.is_upload = true := by
  intro e he
  simp only [records_script, List.mem_map] at he
  obtain ⟨r, _, rfl⟩ := he
  rfl

theorem upload_script_is_upload (fuel : Nat) (l b f : firmware) (buf : List Nat) :
    ∀ e ∈ (upload_script fuel l b f buf).1, e.is_upload = true := by
  have hb : ∀ e ∈ script_before l, e.is_upload = true := by
    intro e he
    simp only [script_before, List.mem_append, List.mem_singleton] at he
    rcases he with ((he | he) | he) | rfl
    · exact reset_script_is_upload _ e he
    · exact records_script_is_upload _ _ _ e he
    · exact reset_script_is_upload _ e he
    · rfl
  have ha : ∀ e ∈ script_after l f, e.is_upload = true := by
    intro e he
    simp only [script_after, List.mem_append, List.mem_singleton] at he
    rcases he with ((((((((he | he) | rfl) | he) | rfl) | he) | he) | he) | he) | rfl
    · exact reset_script_is_upload _ e he
    · exact records_script_is_upload _ _ _ e he
    · rfl
    · exact reset_script_is_upload _ e he
    · rfl
    · exact records_script_is_upload _ _ _ e he
    · exact reset_script_is_upload _ e he
    · exact records_script_is_upload _ _ _ e he
    · exact reset_script_is_upload _ e he
    · rfl
  intro e he
  simp only [upload_script] at he
  split at he
  · simp only [List.mem_append] at he
    rcases he with (he | he) | he
    · exact hb e he
    · exact bitstream_script_is_upload _ _ _ _ e he
    · exact ha e he
  · simp only [List.mem_append] at he
    rcases he with he | he
    · exact hb e he
    · exact bitstream_script_is_upload _ _ _ _ e he

/-- With a valid blob and the buffer allocated, the handler either returns
after a part of the script, the release of the buffer and `emi_detach`, or is
still in the bitstream loop after a part of the script. -/
theorem handler_cases (env : Env) (fuel : Nat) (f l b : firmware) (ctx : emi_context) (tr : Trace)
    (hv : f.valid = true) (hk : env.kmalloc = true)
    (hl : ctx.loader_fw = some l) (hb : ctx.bitstream_fw = some b) :
    ∃ ups : List Event, (∀ e ∈ ups, e.is_upload = true) ∧
      (emi_firmware_handler env fuel (some f) ctx tr =
          ⟨emi_detach (some { ctx with firmware_fw := some f })
            (tr ++ [Event.kmalloc FW_LOAD_SIZE] ++ ups ++ [Event.kfree_buf]),
           { ctx with firmware_fw := some f }, Status.returned⟩ ∨
       emi_firmware_handler env fuel (some f) ctx tr =
          ⟨tr ++ [Event.kmalloc FW_LOAD_SIZE] ++ ups,
           { ctx with firmware_fw := some f }, Status.spinning⟩) := by
  rw [handler_run env fuel f l b ctx tr hv hk hl hb]
  obtain ⟨n, hn⟩ := exec_trace_take env
    (upload_script fuel l b f (List.replicate FW_LOAD_SIZE 0)).1 (tr ++ [Event.kmalloc FW_LOAD_SIZE])
  refine ⟨(upload_script fuel l b f (List.replicate FW_LOAD_SIZE 0)).1.take n, ?_, ?_⟩
  · intro e he
    exact upload_script_is_upload _ _ _ _ _ e (List.mem_of_mem_take he)
  · rcases hn with hn | hn
    · rw [hn]
      cases (upload_script fuel l b f (List.replicate FW_LOAD_SIZE 0)).2 with
      | true => left; simp [finish_if, Flow.andThen, err_label]
      | false => right; simp [finish_if, Flow.andThen, err_label]
    · rw [hn]
      left; simp [Flow.andThen, err_label]

theorem detach_calls_append (a b : Trace) :
    detach_calls (a ++ b) = detach_calls a + detach_calls b := by
  simp [detach_calls]

theorem releases_append (a b : Trace) : releases (a ++ b) = releases a ++ releases b := by
  simp [releases]

theorem requests_append (a b : Trace) : requests (a ++ b) = requests a ++ requests b := by
  simp [requests]

theorem upload_events_silent (ups : List Event) (h : ∀ e ∈ ups, e.is_upload = true) :
    detach_calls ups = 0 ∧ releases ups = [] ∧ requests ups = [] := by
  induction ups with
  | nil => exact ⟨rfl, rfl, rfl⟩
  | cons e es ih =>
    obtain ⟨h1, h2, h3⟩ := ih (fun x hx => h x (List.mem_cons_of_mem _ hx))
    have he := h e (List.mem_cons_self _ _)
    have hsplit : e :: es = [e] ++ es := rfl
    rw [hsplit, detach_calls_append, releases_append, requests_append, h1, h2, h3]
    cases e <;> simp [Event.is_upload] at he <;> simp [detach_calls, releases, requests]

theorem detach_summary (c : emi_context) (t : Trace) :
    detach_calls (emi_detach (some c) t) = detach_calls t + 1 ∧
    releases (emi_detach (some c) t) = releases t ++ stored c ∧
    requests (emi_detach (some c) t) = requests t := by
  rw [emi_detach_eq_append, detach_calls_append, releases_append, requests_append]
  obtain ⟨p, l, b, f⟩ := c
  cases l <;> cases b <;> cases f <;>
    simp [emi_detach, release, stored, detach_calls, releases, requests]

theorem kmalloc_quiet (n : Nat) :
    detach_calls [Event.kmalloc n] = 0 ∧ releases [Event.kmalloc n] = [] ∧
      requests [Event.kmalloc n] = [] := by
  simp [detach_calls, releases, requests]

theorem kfree_buf_quiet :
    detach_calls [Event.kfree_buf] = 0 ∧ releases [Event.kfree_buf] = [] ∧
      requests [Event.kfree_buf] = [] := by
  simp [detach_calls, releases, requests]

theorem request_quiet (name : String) :
    detach_calls [Event.request_firmware_nowait name] = 0 ∧
      releases [Event.request_firmware_nowait name] = [] := by
  simp [detach_calls, releases]

theorem firmware_handler_teardown (env : Env) (fuel : Nat) (fw : Option firmware)
    (ctx : emi_context) (tr : Trace) (l b : firmware)
    (hl : ctx.loader_fw = some l) (hb : ctx.bitstream_fw = some b)
    (hret : (emi_firmware_handler env fuel fw ctx tr).status = Status.returned) :
    detach_calls (emi_firmware_handler env fuel fw ctx tr).trace = detach_calls tr + 1 ∧
    releases (emi_firmware_handler env fuel fw ctx tr).trace =
      releases tr ++ stored (emi_firmware_handler env fuel fw ctx tr).context := by
  cases fw with
  | none =>
    simp only [emi_firmware_handler]
    exact ⟨(detach_summary ctx tr).1, (detach_summary ctx tr).2.1⟩
  | some f =>
    cases hv : f.valid with
    | false =>
      simp only [emi_firmware_handler, ihex_validate_fw, hv, Bool.false_eq_true, if_false, EINVAL]
      simp only [ne_eq, neg_eq_zero, OfNat.ofNat_ne_zero, not_false_eq_true, if_true]
      exact ⟨(detach_summary ctx tr).1, (detach_summary ctx tr).2.1⟩
    | true =>
      cases hk : env.kmalloc with
      | false =>
        simp only [emi_firmware_handler, ihex_validate_fw, hv, hk, if_true, ne_eq,
          not_true_eq_false, if_false, Bool.false_eq_true]
        have h := detach_summary { ctx with firmware_fw := some f }
          (tr ++ [Event.kmalloc FW_LOAD_SIZE])
        rw [detach_calls_append, releases_append, (kmalloc_quiet _).1, (kmalloc_quiet _).2.1,
          Nat.add_zero, List.append_nil] at h
        exact ⟨h.1, h.2.1⟩
      | true =>
        obtain ⟨ups, hups, h | h⟩ := handler_cases env fuel f l b ctx tr hv hk hl hb
        · rw [h]
          have hs := upload_events_silent ups hups
          have h := detach_summary { ctx with firmware_fw := some f }
            (tr ++ [Event.kmalloc FW_LOAD_SIZE] ++ ups ++ [Event.kfree_buf])
          simp only [detach_calls_append, releases_append, hs.1, hs.2.1, (kmalloc_quiet _).1,
            (kmalloc_quiet _).2.1, kfree_buf_quiet.1, kfree_buf_quiet.2.1, Nat.add_zero,
            List.append_nil] at h
          exact ⟨h.1, h.2.1⟩
        · rw [h] at hret
          cases hret

theorem bitstream_handler_teardown (env : Env) (midi : Int) (fuel : Nat) (fw : Option firmware)
    (ctx : emi_context) (tr : Trace) (l : firmware) (hl : ctx.loader_fw = some l)
    (hret : (emi_bitstream_handler env midi fuel fw ctx tr).status = Status.returned) :
    detach_calls (emi_bitstream_handler env midi fuel fw ctx tr).trace = detach_calls tr + 1 ∧
    releases (emi_bitstream_handler env midi fuel fw ctx tr).trace =
      releases tr ++ stored (emi_bitstream_handler env midi fuel fw ctx tr).context := by
  cases fw with
  | none =>
    simp only [emi_bitstream_handler]
    exact ⟨(detach_summary ctx tr).1, (detach_summary ctx tr).2.1⟩
  | some f =>
    cases hv : f.valid with
    | false =>
      simp only [emi_bitstream_handler, ihex_validate_fw, hv, Bool.false_eq_true, if_false, EINVAL]
      simp only [ne_eq, neg_eq_zero, OfNat.ofNat_ne_zero, not_false_eq_true, if_true]
      exact ⟨(detach_summary ctx tr).1, (detach_summary ctx tr).2.1⟩
    | true =>
      by_cases hr : env.request_firmware_nowait 2 ≠ 0
      · simp only [emi_bitstream_handler, ihex_validate_fw, hv, hr, if_true, ne_eq,
          not_true_eq_false, if_false, not_false_eq_true]
        have h := detach_summary { ctx with bitstream_fw := some f }
          (tr ++ [Event.request_firmware_nowait
            (if ctx.product_id = EMI62_PRODUCT_ID then
              (if midi ≠ 0 then "emi/emi62_firmware_midi.fw" else "emi/emi62_firmware_spdif.fw")
             else "emi/emi26_firmware.fw")])
        rw [detach_calls_append, releases_append, (request_quiet _).1, (request_quiet _).2,
          Nat.add_zero, List.append_nil] at h
        exact ⟨h.1, h.2.1⟩
      · simp only [emi_bitstream_handler, ihex_validate_fw, hv, hr, if_true, ne_eq,
          not_true_eq_false, if_false] at hret ⊢
        have h := firmware_handler_teardown env fuel (env.fw_delivered 2)
          { ctx with bitstream_fw := some f } _ l f hl rfl hret
        rw [detach_calls_append, releases_append, (request_quiet _).1, (request_quiet _).2,
          Nat.add_zero, List.append_nil] at h
        exact h

theorem loader_handler_teardown (env : Env) (midi : Int) (fuel : Nat) (fw : Option firmware)
    (ctx : emi_context) (tr : Trace)
    (hret : (emi_loader_handler env midi fuel fw ctx tr).status = Status.returned) :
    detach_calls (emi_loader_handler env midi fuel fw ctx tr).trace = detach_calls tr + 1 ∧
    releases (emi_loader_handler env midi fuel fw ctx tr).trace =
      releases tr ++ stored (emi_loader_handler env midi fuel fw ctx tr).context := by
  cases fw with
  | none =>
    simp only [emi_loader_handler]
    exact ⟨(detach_summary ctx tr).1, (detach_summary ctx tr).2.1⟩
  | some f =>
    cases hv : f.valid with
    | false =>
      simp only [emi_loader_handler, ihex_validate_fw, hv, Bool.false_eq_true, if_false, EINVAL]
      simp only [ne_eq, neg_eq_zero, OfNat.ofNat_ne_zero, not_false_eq_true, if_true]
      exact ⟨(detach_summary ctx tr).1, (detach_summary ctx tr).2.1⟩
    | true =>
      by_cases hr : env.request_firmware_nowait 1 ≠ 0
      · simp only [emi_loader_handler, ihex_validate_fw, hv, hr, if_true, ne_eq,
          not_true_eq_false, if_false, not_false_eq_true]
        have h := detach_summary { ctx with loader_fw := some f }
          (tr ++ [Event.request_firmware_nowait
            (if ctx.product_id = EMI62_PRODUCT_ID then "emi/emi62_bitstream.fw"
             else "emi/emi26_bitstream.fw")])
        rw [detach_calls_append, releases_append, (request_quiet _).1, (request_quiet _).2,
          Nat.add_zero, List.append_nil] at h
        exact ⟨h.1, h.2.1⟩
      · simp only [emi_loader_handler, ihex_validate_fw, hv, hr, if_true, ne_eq,
          not_true_eq_false, if_false] at hret ⊢
        have h := bitstream_handler_teardown env midi fuel (env.fw_delivered 1)
          { ctx with loader_fw := some f } _ f rfl hret
        rw [detach_calls_append, releases_append, (request_quiet _).1, (request_quiet _).2,
          Nat.add_zero, List.append_nil] at h
        exact h

theorem probe_accepted (env : Env) (product : Nat)
    (h : (emi_probe env product).ret = some 0) :
    emi_probe env product = ⟨some 0, probe_trace, some (fresh_context product)⟩ ∧
    (product = EMI26_PRODUCT_ID ∨ product = EMI26B_PRODUCT_ID ∨ product = EMI62_PRODUCT_ID) ∧
    env.kzalloc = true ∧ env.request_firmware_nowait 0 = 0 := by
  unfold emi_probe at h ⊢
  by_cases hp : product = EMI26_PRODUCT_ID ∨ product = EMI26B_PRODUCT_ID ∨ product = EMI62_PRODUCT_ID
  · cases hk : env.kzalloc with
    | false => simp [hp, hk] at h
    | true =>
      by_cases hr : env.request_firmware_nowait 0 = 0
      · simp [hp, hk, hr, probe_trace, fresh_context]
      · simp [hp, hk, hr] at h
  · simp [hp, EINVAL] at h

theorem session_ret (env : Env) (midi : Int) (fuel : Nat) (product : Nat) :
    (session env midi fuel product).ret = (emi_probe env product).ret := by
  simp only [session]
  cases h1 : (emi_probe env product).ret with
  | none => rfl
  | some r =>
    cases h2 : (emi_probe env product).context <;> rfl

theorem session_accepted (env : Env) (midi : Int) (fuel : Nat) (product : Nat)
    (h : (session env midi fuel product).ret = some 0) :
    session env midi fuel product =
      ⟨some 0,
       (emi_loader_handler env midi fuel (env.fw_delivered 0) (fresh_context product)
          probe_trace).trace,
       some (emi_loader_handler env midi fuel (env.fw_delivered 0) (fresh_context product)
          probe_trace).context,
       (emi_loader_handler env midi fuel (env.fw_delivered 0) (fresh_context product)
          probe_trace).status⟩ ∧
    (product = EMI26_PRODUCT_ID ∨ product = EMI26B_PRODUCT_ID ∨ product = EMI62_PRODUCT_ID) ∧
    env.kzalloc = true ∧ env.request_firmware_nowait 0 = 0 := by
  have hp : (emi_probe env product).ret = some 0 := by
    rw [← session_ret env midi fuel product]
    exact h
  obtain ⟨h1, h2⟩ := probe_accepted env product hp
  refine ⟨?_, h2⟩
  simp only [session, h1]

/-- C7: on every terminal path of a session started by a successful
`emi_probe` (every way the three handlers can return: success, a blob not
delivered or not valid, a refused request, a failed buffer allocation, a
failed device write or reset), `emi_detach` is called exactly once and the
images released are exactly the images stored in the context, each once. -/
theorem teardown_once (env : Env) (midi : Int) (fuel : Nat) (product : Nat)
    (hprobe : (session env midi fuel product).ret = some 0)
    (hterminal : (session env midi fuel product).status = Status.returned) :
    detach_calls (session env midi fuel product).trace = 1 ∧
    ∃ c, (session env midi fuel product).context = some c ∧
      releases (session env midi fuel product).trace =
        c.loader_fw.toList ++ c.bitstream_fw.toList ++ c.firmware_fw.toList := by
  obtain ⟨hs, _⟩ := session_accepted env midi fuel product hprobe
  rw [hs] at hterminal ⊢
  have h := loader_handler_teardown env midi fuel (env.fw_delivered 0) (fresh_context product)
    probe_trace hterminal
  refine ⟨?_, _, rfl, ?_⟩
  · rw [h.1]; rfl
  · rw [h.2]; rfl

theorem teardown_once_witness :
    detach_calls (session env_ok 0 2 0x0100).trace = 1 ∧
    ∃ c, (session env_ok 0 2 0x0100).context = some c ∧
      releases (session env_ok 0 2 0x0100).trace =
        c.loader_fw.toList ++ c.bitstream_fw.toList ++ c.firmware_fw.toList :=
  teardown_once env_ok 0 2 0x0100 (by decide) (by decide)

/-! ## Abort at the first failed operation (C8) -/

theorem handler_ok_ops (env : Env) (fuel : Nat) (f l b : firmware) (ctx : emi_context)
    (hv : f.valid = true) (hk : env.kmalloc = true)
    (hl : ctx.loader_fw = some l) (hb : ctx.bitstream_fw = some b)
    (hok : ∀ n, 0 ≤ env.result n) :
    device_ops (emi_firmware_handler env fuel (some f) ctx []).trace =
      device_ops (upload_script fuel l b f (List.replicate FW_LOAD_SIZE 0)).1 := by
  rw [handler_run env fuel f l b ctx [] hv hk hl hb]
  rw [exec_ok env _ _ (fun j _ => hok _)]
  cases (upload_script fuel l b f (List.replicate FW_LOAD_SIZE 0)).2 with
  | true =>
    simp only [finish_if_true, next_andThen, err_label, device_ops_detach, device_ops_append]
    simp [device_ops, Event.is_write]
  | false =>
    simp only [finish_if_false, next_andThen, err_label, device_ops_append]
    simp [device_ops, Event.is_write]

theorem err_label_goto_err (c : emi_context) (t : Trace) (k : Trace → Flow) :
    err_label c ((Flow.goto_err t).andThen k) =
      ⟨emi_detach (some c) (t ++ [Event.kfree_buf]), c, Status.returned⟩ := rfl

/-- C8: let `k` (counted from 0) be a position in the sequence of device
operations that the handler issues when every operation succeeds.  If the
operations before position `k` succeed and the one at position `k` returns a
negative result, the handler issues exactly the operations up to and including
position `k` of that sequence, nothing after, then frees the buffer, runs
`emi_detach` once and returns. -/
theorem abort_at_first_failure (env env0 : Env) (fuel : Nat) (fw loader b : firmware)
    (ctx : emi_context) (k : Nat) (hv : fw.valid = true)
    (hk : env.kmalloc = true) (hk0 : env0.kmalloc = true)
    (hl : ctx.loader_fw = some loader) (hb : ctx.bitstream_fw = some b)
    (h0 : ∀ n, 0 ≤ env0.result n)
    (hpos : k < (device_ops (emi_firmware_handler env0 fuel (some fw) ctx []).trace).length)
    (hpre : ∀ j, j < k → 0 ≤ env.result j) (hbad : env.result k < 0) :
    (emi_firmware_handler env fuel (some fw) ctx []).status = Status.returned ∧
    device_ops (emi_firmware_handler env fuel (some fw) ctx []).trace =
      (device_ops (emi_firmware_handler env0 fuel (some fw) ctx []).trace).take (k + 1) ∧
    detach_calls (emi_firmware_handler env fuel (some fw) ctx []).trace = 1 ∧
    ∃ t, (emi_firmware_handler env fuel (some fw) ctx []).trace =
        emi_detach (some (emi_firmware_handler env fuel (some fw) ctx []).context)
          (t ++ [Event.kfree_buf]) ∧
      detach_calls t = 0 := by
  rw [handler_ok_ops env0 fuel fw loader b ctx hv hk0 hl hb h0] at hpos ⊢
  rw [handler_run env fuel fw loader b ctx [] hv hk hl hb]
  have hn : nwrites ([] ++ [Event.kmalloc FW_LOAD_SIZE]) = 0 := by
    simp [nwrites, device_ops, Event.is_write]
  rw [exec_fail env _ ([] ++ [Event.kmalloc FW_LOAD_SIZE]) k hpos
    (by intro j hj; rw [hn, Nat.zero_add]; exact hpre j hj)
    (by rw [hn, Nat.zero_add]; exact hbad)]
  have hsil := upload_events_silent
    (upto_write k (upload_script fuel loader b fw (List.replicate FW_LOAD_SIZE 0)).1)
    (by
      intro e he
      have hsub : ∀ (n : Nat) (s : List Event), ∀ x ∈ upto_write n s, x ∈ s := by
        intro n s
        induction s generalizing n with
        | nil => simp [upto_write]
        | cons y ys ih =>
          intro x hx
          simp only [upto_write] at hx
          split at hx
          · cases n with
            | zero =>
              simp only [List.mem_singleton] at hx
              simp [hx]
            | succ n =>
              simp only [List.mem_cons] at hx
              rcases hx with rfl | hx
              · simp
              · exact List.mem_cons_of_mem _ (ih n x hx)
          · simp only [List.mem_cons] at hx
            rcases hx with rfl | hx
            · simp
            · exact List.mem_cons_of_mem _ (ih n x hx)
      exact upload_script_is_upload _ _ _ _ _ e (hsub _ _ e he))
  rw [err_label_goto_err]
  dsimp only
  refine ⟨rfl, ?_, ?_, _, rfl, ?_⟩
  · rw [device_ops_detach, device_ops_append, device_ops_append, device_ops_append,
      device_ops_upto_write]
    simp [device_ops, Event.is_write]
  · rw [(detach_summary _ _).1]
    simp only [detach_calls_append, hsil.1, (kmalloc_quiet _).1, kfree_buf_quiet.1]
    rfl
  · simp only [detach_calls_append, hsil.1, (kmalloc_quiet _).1]
    rfl

theorem env_fail3_kmalloc : env_fail3.kmalloc = true := rfl

theorem abort_at_first_failure_witness :
    (emi_firmware_handler env_fail3 2 (some sample_firmware) sample_context []).status
      = Status.returned ∧
    device_ops (emi_firmware_handler env_fail3 2 (some sample_firmware) sample_context []).trace =
      (device_ops (emi_firmware_handler env_ok 2 (some sample_firmware) sample_context []).trace).take
        (3 + 1) :=
  ⟨(abort_at_first_failure env_fail3 env_ok 2 sample_firmware sample_loader sample_bitstream
      sample_context 3 rfl rfl rfl rfl rfl env_ok_result (by decide) (by decide) (by decide)).1,
   (abort_at_first_failure env_fail3 env_ok 2 sample_firmware sample_loader sample_bitstream
      sample_context 3 rfl rfl rfl rfl rfl env_ok_result (by decide) (by decide) (by decide)).2.1⟩

/-! ## The internal RAM ceiling (C9) -/

theorem handler_returned_ok (env : Env) (fuel : Nat) (f l b : firmware) (ctx : emi_context)
    (tr : Trace) (hv : f.valid = true) (hk : env.kmalloc = true)
    (hl : ctx.loader_fw = some l) (hb : ctx.bitstream_fw = some b)
    (hok : ∀ n, 0 ≤ env.result n)
    (hret : (emi_firmware_handler env fuel (some f) ctx tr).status = Status.returned) :
    emi_firmware_handler env fuel (some f) ctx tr =
      ⟨emi_detach (some { ctx with firmware_fw := some f })
        (tr ++ [Event.kmalloc FW_LOAD_SIZE] ++
          (script_before l ++
            (bitstream_script fuel (List.replicate FW_LOAD_SIZE 0) b.first b.rest).1 ++
            script_after l f) ++ [Event.kfree_buf]),
       { ctx with firmware_fw := some f }, Status.returned⟩ := by
  rw [handler_run env fuel f l b ctx tr hv hk hl hb] at hret ⊢
  rw [exec_ok env _ _ (fun j _ => hok _)] at hret ⊢
  simp only [upload_script] at hret ⊢
  cases hc : (bitstream_script fuel (List.replicate FW_LOAD_SIZE 0) b.first b.rest).2 with
  | true => simp [finish_if, Flow.andThen, err_label]
  | false =>
    rw [hc] at hret
    simp [finish_if, Flow.andThen, err_label] at hret

theorem count_set_reset_records (bit : Nat) (cond : ihex_binrec → Bool) (rq : Nat)
    (recs : List ihex_binrec) :
    (records_script cond rq recs).count (Event.emi_set_reset bit) = 0 := by
  rw [List.count_eq_zero]
  intro h
  simp only [records_script, List.mem_map] at h
  obtain ⟨r, _, hr⟩ := h
  simp [write_of] at hr

theorem count_set_reset_bitstream (bit : Nat) (fuel : Nat) (buf : List Nat) (r : ihex_binrec)
    (rest : List ihex_binrec) (hbuf : buf.length = FW_LOAD_SIZE) :
    (bitstream_script fuel buf r rest).1.count (Event.emi_set_reset bit) = 0 := by
  rw [List.count_eq_zero]
  intro h
  rcases bitstream_script_events fuel buf r rest hbuf _ h with ⟨_, _, h1, _⟩ | ⟨_, _, h1, _⟩ <;>
    cases h1

theorem writes_with_bitstream_other (rq : Nat) (hrq : rq ≠ ANCHOR_LOAD_FPGA) (fuel : Nat)
    (buf : List Nat) (r : ihex_binrec) (rest : List ihex_binrec)
    (hbuf : buf.length = FW_LOAD_SIZE) :
    writes_with rq (bitstream_script fuel buf r rest).1 = [] := by
  simp only [writes_with, List.filter_eq_nil_iff]
  intro e he
  rcases bitstream_script_events fuel buf r rest hbuf e he with ⟨_, _, rfl, _⟩ | ⟨_, _, rfl, _⟩
  · simp
  · simp only [decide_eq_true_eq]
    exact fun h => hrq h.symm

theorem writes_with_records_same (rq : Nat) (cond : ihex_binrec → Bool)
    (recs : List ihex_binrec) :
    writes_with rq (records_script cond rq recs) = records_script cond rq recs := by
  simp only [writes_with]
  apply List.filter_eq_self.mpr
  intro e he
  simp only [records_script, List.mem_map] at he
  obtain ⟨r, _, rfl⟩ := he
  simp [write_of]

theorem writes_with_external_reset (bit : Nat) :
    writes_with ANCHOR_LOAD_EXTERNAL (reset_script bit) = [] := by
  simp [writes_with, reset_script, ANCHOR_LOAD_EXTERNAL]

theorem filter_external (recs : List ihex_binrec) :
    recs.filter (fun r => !INTERNAL_RAM r.addr) =
      recs.filter (fun r => decide (MAX_INTERNAL_ADDRESS < r.addr)) := by
  apply List.filter_congr
  intro r _
  by_cases h : r.addr ≤ MAX_INTERNAL_ADDRESS
  · have h2 : ¬ MAX_INTERNAL_ADDRESS < r.addr := by omega
    simp only [INTERNAL_RAM, h, h2, decide_True, decide_False, Bool.not_true]
  · have h2 : MAX_INTERNAL_ADDRESS < r.addr := by omega
    simp only [INTERNAL_RAM, h, h2, decide_True, decide_False, Bool.not_false]

theorem filter_internal (recs : List ihex_binrec) :
    recs.filter (fun r => INTERNAL_RAM r.addr) =
      recs.filter (fun r => decide (r.addr ≤ MAX_INTERNAL_ADDRESS)) := rfl

/-- C9, as amended: on a run of `emi_firmware_handler` in which every device
operation succeeds and which returns, every firmware record whose address is
above `MAX_INTERNAL_ADDRESS` is sent with request `ANCHOR_LOAD_EXTERNAL`
before the third assert of reset and none after it, and the device operations
after that assert are: its own write, every firmware record whose address is
at or below `MAX_INTERNAL_ADDRESS` with request `ANCHOR_LOAD_INTERNAL`, and
the final release of reset. -/
theorem firmware_split_at_ceiling (env : Env) (fuel : Nat) (fw loader b : firmware)
    (ctx : emi_context) (hv : fw.valid = true) (hk : env.kmalloc = true)
    (hl : ctx.loader_fw = some loader) (hb : ctx.bitstream_fw = some b)
    (hok : ∀ n, 0 ≤ env.result n)
    (hret : (emi_firmware_handler env fuel (some fw) ctx []).status = Status.returned) :
    ∃ pre post : Trace,
      (emi_firmware_handler env fuel (some fw) ctx []).trace =
        pre ++ Event.emi_set_reset 1 :: post ∧
      pre.count (Event.emi_set_reset 1) = 2 ∧
      writes_with ANCHOR_LOAD_EXTERNAL pre =
        (fw.data.filter fun r => decide (MAX_INTERNAL_ADDRESS < r.addr)).map
          (fun r => Event.emi_writememory r.addr r.data ANCHOR_LOAD_EXTERNAL) ∧
      writes_with ANCHOR_LOAD_EXTERNAL post = [] ∧
      device_ops post =
        Event.emi_writememory CPUCS_REG [1] 0xA0 ::
          (fw.data.filter fun r => decide (r.addr ≤ MAX_INTERNAL_ADDRESS)).map
            (fun r => Event.emi_writememory r.addr r.data ANCHOR_LOAD_INTERNAL)
          ++ [Event.emi_writememory CPUCS_REG [0] 0xA0] := by
  rw [handler_returned_ok env fuel fw loader b ctx [] hv hk hl hb hok hret]
  dsimp only
  rw [emi_detach_eq_append]
  have hIE : ANCHOR_LOAD_INTERNAL ≠ ANCHOR_LOAD_EXTERNAL := by decide
  have hEF : ANCHOR_LOAD_EXTERNAL ≠ ANCHOR_LOAD_FPGA := by decide
  refine ⟨[Event.kmalloc FW_LOAD_SIZE] ++ script_before loader ++
      (bitstream_script fuel (List.replicate FW_LOAD_SIZE 0) b.first b.rest).1 ++
      (reset_script 1 ++ records_script (fun _ => true) ANCHOR_LOAD_INTERNAL loader.data ++
        [Event.msleep 250] ++ reset_script 0 ++ [Event.msleep 250] ++
        records_script (fun r => !INTERNAL_RAM r.addr) ANCHOR_LOAD_EXTERNAL fw.data),
    Event.emi_writememory CPUCS_REG [1] 0xa0 ::
      (records_script (fun r => INTERNAL_RAM r.addr) ANCHOR_LOAD_INTERNAL fw.data ++
        reset_script 0 ++ [Event.msleep 250] ++ [Event.kfree_buf] ++
        emi_detach (some { ctx with firmware_fw := some fw }) []), ?_, ?_, ?_, ?_, ?_⟩
  · simp only [script_after, reset_script, List.append_assoc, List.nil_append, List.cons_append,
      List.singleton_append]
  · have c1 : (reset_script 1).count (Event.emi_set_reset 1) = 1 := by decide
    have c0 : (reset_script 0).count (Event.emi_set_reset 1) = 0 := by decide
    have cm : [Event.msleep 250].count (Event.emi_set_reset 1) = 0 := by decide
    have ck : [Event.kmalloc FW_LOAD_SIZE].count (Event.emi_set_reset 1) = 0 := by decide
    simp only [List.count_append, script_before, count_set_reset_records,
      count_set_reset_bitstream 1 fuel _ _ _ (List.length_replicate _ _), c1, c0, cm, ck]
  · simp only [writes_with_append, script_before, writes_with_external_reset,
      writes_with_records_script ANCHOR_LOAD_EXTERNAL ANCHOR_LOAD_INTERNAL _ _ hIE,
      writes_with_bitstream_other ANCHOR_LOAD_EXTERNAL hEF fuel _ _ _ (List.length_replicate _ _),
      writes_with_records_same]
    rw [records_script, filter_external]
    simp [writes_with, write_of]
  · have hsplit : ∀ (w : Event) (c : List Event), w :: c = [w] ++ c := fun _ _ => rfl
    rw [hsplit, ← emi_detach_eq_append]
    simp only [writes_with_append, writes_with_detach, writes_with_external_reset,
      writes_with_records_script ANCHOR_LOAD_EXTERNAL ANCHOR_LOAD_INTERNAL _ _ hIE]
    simp [writes_with, ANCHOR_LOAD_EXTERNAL]
  · have hsplit : ∀ (w : Event) (c : List Event), w :: c = [w] ++ c := fun _ _ => rfl
    rw [hsplit, ← emi_detach_eq_append]
    simp only [device_ops_append, device_ops_detach, device_ops_records_script,
      device_ops_reset_script, device_ops_msleep, set_reset]
    simp [device_ops, Event.is_write, filter_internal, write_of]

theorem firmware_split_at_ceiling_witness :
    ∃ pre post : Trace,
      (emi_firmware_handler env_ok 2 (some sample_firmware) sample_context []).trace =
        pre ++ Event.emi_set_reset 1 :: post ∧
      pre.count (Event.emi_set_reset 1) = 2 ∧
      writes_with ANCHOR_LOAD_EXTERNAL pre =
        (sample_firmware.data.filter fun r => decide (MAX_INTERNAL_ADDRESS < r.addr)).map
          (fun r => Event.emi_writememory r.addr r.data ANCHOR_LOAD_EXTERNAL) ∧
      writes_with ANCHOR_LOAD_EXTERNAL post = [] ∧
      device_ops post =
        Event.emi_writememory CPUCS_REG [1] 0xA0 ::
          (sample_firmware.data.filter fun r => decide (r.addr ≤ MAX_INTERNAL_ADDRESS)).map
            (fun r => Event.emi_writememory r.addr r.data ANCHOR_LOAD_INTERNAL)
          ++ [Event.emi_writememory CPUCS_REG [0] 0xA0] :=
  firmware_split_at_ceiling env_ok 2 sample_firmware sample_loader sample_bitstream
    sample_context rfl rfl rfl rfl env_ok_result (by decide)

/-- C9, as stated, fails: a firmware record whose address is exactly
`MAX_INTERNAL_ADDRESS` (0x1B3F) is not sent with the external-write request;
it is sent with `0xA0` after the third assert of reset, and no write with
`0xA3` is issued at all. -/
theorem record_at_ceiling_is_internal :
    device_ops (emi_firmware_handler env_ok 2 (some ceiling_firmware) sample_context []).trace =
      [Event.emi_writememory CPUCS_REG [1] 0xA0,
       Event.emi_writememory 0x0000 [0xAA] 0xA0,
       Event.emi_writememory 0x0002 [0xBB] 0xA0,
       Event.emi_writememory CPUCS_REG [0] 0xA0,
       Event.emi_writememory 0x0000 [1, 2, 3] 0xA5,
       Event.emi_writememory CPUCS_REG [1] 0xA0,
       Event.emi_writememory 0x0000 [0xAA] 0xA0,
       Event.emi_writememory 0x0002 [0xBB] 0xA0,
       Event.emi_writememory CPUCS_REG [0] 0xA0,
       Event.emi_writememory CPUCS_REG [1] 0xA0,
       Event.emi_writememory 0x1B3F [5] 0xA0,
       Event.emi_writememory CPUCS_REG [0] 0xA0] ∧
    writes_with ANCHOR_LOAD_EXTERNAL
      (emi_firmware_handler env_ok 2 (some ceiling_firmware) sample_context []).trace = [] := by
  decide

/-! ## Names of the requested blobs (C10) -/

theorem firmware_handler_requests (env : Env) (fuel : Nat) (fw : Option firmware)
    (ctx : emi_context) (tr : Trace) (l b : firmware)
    (hl : ctx.loader_fw = some l) (hb : ctx.bitstream_fw = some b) :
    requests (emi_firmware_handler env fuel fw ctx tr).trace = requests tr := by
  cases fw with
  | none =>
    simp only [emi_firmware_handler]
    exact (detach_summary ctx tr).2.2
  | some f =>
    cases hv : f.valid with
    | false =>
      simp only [emi_firmware_handler, ihex_validate_fw, hv, Bool.false_eq_true, if_false, EINVAL]
      simp only [ne_eq, neg_eq_zero, OfNat.ofNat_ne_zero, not_false_eq_true, if_true]
      exact (detach_summary ctx tr).2.2
    | true =>
      cases hk : env.kmalloc with
      | false =>
        simp only [emi_firmware_handler, ihex_validate_fw, hv, hk, if_true, ne_eq,
          not_true_eq_false, if_false, Bool.false_eq_true]
        rw [(detach_summary _ _).2.2, requests_append, (kmalloc_quiet _).2.2, List.append_nil]
      | true =>
        obtain ⟨ups, hups, h | h⟩ := handler_cases env fuel f l b ctx tr hv hk hl hb
        · rw [h]
          dsimp only
          rw [(detach_summary _ _).2.2]
          simp only [requests_append, (upload_events_silent ups hups).2.2, (kmalloc_quiet _).2.2,
            kfree_buf_quiet.2.2, List.append_nil]
        · rw [h]
          dsimp only
          simp only [requests_append, (upload_events_silent ups hups).2.2, (kmalloc_quiet _).2.2,
            List.append_nil]

theorem requests_snoc (tr : Trace) (name : String) :
    requests (tr ++ [Event.request_firmware_nowait name]) = requests tr ++ [name] := by
  simp [requests]

theorem bitstream_handler_requests (env : Env) (midi : Int) (fuel : Nat) (f l : firmware)
    (ctx : emi_context) (tr : Trace) (hl : ctx.loader_fw = some l) (hv : f.valid = true) :
    requests (emi_bitstream_handler env midi fuel (some f) ctx tr).trace =
      requests tr ++
        [if ctx.product_id = EMI62_PRODUCT_ID then
          (if midi ≠ 0 then "emi/emi62_firmware_midi.fw" else "emi/emi62_firmware_spdif.fw")
         else "emi/emi26_firmware.fw"] := by
  by_cases hr : env.request_firmware_nowait 2 ≠ 0
  · simp only [emi_bitstream_handler, ihex_validate_fw, hv, hr, if_true, ne_eq,
      not_true_eq_false, if_false, not_false_eq_true]
    rw [(detach_summary _ _).2.2, requests_snoc]
  · simp only [emi_bitstream_handler, ihex_validate_fw, hv, hr, if_true, ne_eq,
      not_true_eq_false, if_false]
    rw [firmware_handler_requests env fuel _ { ctx with bitstream_fw := some f } _ l f hl rfl,
      requests_snoc]

theorem loader_handler_requests (env : Env) (midi : Int) (fuel : Nat) (l b : firmware)
    (ctx : emi_context) (tr : Trace) (hv : l.valid = true)
    (hr1 : env.request_firmware_nowait 1 = 0) (hd1 : env.fw_delivered 1 = some b)
    (hbv : b.valid = true) :
    requests (emi_loader_handler env midi fuel (some l) ctx tr).trace =
      requests tr ++
        [if ctx.product_id = EMI62_PRODUCT_ID then "emi/emi62_bitstream.fw"
          else "emi/emi26_bitstream.fw",
         if ctx.product_id = EMI62_PRODUCT_ID then
          (if midi ≠ 0 then "emi/emi62_firmware_midi.fw" else "emi/emi62_firmware_spdif.fw")
         else "emi/emi26_firmware.fw"] := by
  simp only [emi_loader_handler, ihex_validate_fw, hv, hr1, hd1, if_true, ne_eq,
    not_true_eq_false, if_false]
  rw [bitstream_handler_requests env midi fuel b l { ctx with loader_fw := some l } _ rfl hbv,
    requests_snoc]
  simp

theorem supported_product_id (product : Nat)
    (h : product = EMI26_PRODUCT_ID ∨ product = EMI26B_PRODUCT_ID ∨ product = EMI62_PRODUCT_ID) :
    ((fresh_context product).product_id = (EMI62_PRODUCT_ID : Int)) ↔
      product = EMI62_PRODUCT_ID := by
  rcases h with rfl | rfl | rfl <;> decide

/-- C10: for every supported product id and every value of `emi62_midi_mode`,
when the loader and the bitstream are fetched successfully, the blobs
requested in the session are, in this order, "emi/loader.fw"; then
"emi/emi62_bitstream.fw" for product `0x0110` and "emi/emi26_bitstream.fw"
otherwise; then "emi/emi62_firmware_midi.fw" for product `0x0110` with a
non-zero flag, "emi/emi62_firmware_spdif.fw" for product `0x0110` with a zero
flag and "emi/emi26_firmware.fw" otherwise.  For the other two products the
names do not depend on the flag. -/
theorem blob_request_order (env : Env) (midi : Int) (fuel : Nat) (product : Nat)
    (l b : firmware)
    (hsup : product = EMI26_PRODUCT_ID ∨ product = EMI26B_PRODUCT_ID ∨ product = EMI62_PRODUCT_ID)
    (hkz : env.kzalloc = true)
    (hr0 : env.request_firmware_nowait 0 = 0) (hd0 : env.fw_delivered 0 = some l)
    (hlv : l.valid = true)
    (hr1 : env.request_firmware_nowait 1 = 0) (hd1 : env.fw_delivered 1 = some b)
    (hbv : b.valid = true) :
    requests (session env midi fuel product).trace =
      ["emi/loader.fw",
       if product = EMI62_PRODUCT_ID then "emi/emi62_bitstream.fw" else "emi/emi26_bitstream.fw",
       if product = EMI62_PRODUCT_ID then
         (if midi ≠ 0 then "emi/emi62_firmware_midi.fw" else "emi/emi62_firmware_spdif.fw")
       else "emi/emi26_firmware.fw"] ∧
    (product ≠ EMI62_PRODUCT_ID → ∀ midi2 : Int,
      requests (session env midi2 fuel product).trace =
        requests (session env midi fuel product).trace) := by
  have hp : emi_probe env product = ⟨some 0, probe_trace, some (fresh_context product)⟩ := by
    simp [emi_probe, hsup, hkz, hr0, probe_trace, fresh_context]
  have hs : ∀ m : Int, requests (session env m fuel product).trace =
      ["emi/loader.fw",
       if product = EMI62_PRODUCT_ID then "emi/emi62_bitstream.fw" else "emi/emi26_bitstream.fw",
       if product = EMI62_PRODUCT_ID then
         (if m ≠ 0 then "emi/emi62_firmware_midi.fw" else "emi/emi62_firmware_spdif.fw")
       else "emi/emi26_firmware.fw"] := by
    intro m
    simp only [session, hp, hd0]
    rw [loader_handler_requests env m fuel l b _ _ hlv hr1 hd1 hbv]
    simp only [supported_product_id product hsup]
    rfl
  refine ⟨hs midi, ?_⟩
  intro hne midi2
  rw [hs midi2, hs midi]
  simp [hne]

theorem blob_request_order_witness :
    requests (session env_ok 1 2 0x0110).trace =
      ["emi/loader.fw", "emi/emi62_bitstream.fw", "emi/emi62_firmware_midi.fw"] :=
  (blob_request_order env_ok 1 2 0x0110 sample_loader sample_bitstream
    (by decide) rfl rfl rfl rfl rfl rfl rfl).1

/-! ## No device operation before the three images are in place (C11) -/

theorem validate_eq_zero (f : firmware) : ihex_validate_fw f = 0 ↔ f.valid = true := by
  cases hv : f.valid <;> simp [ihex_validate_fw, hv, EINVAL]

theorem trace_andThen_finish (env : Env) (s : List Event) (tr : Trace) (c : Bool) :
    ((exec env s tr).andThen (finish_if c)).trace = (exec env s tr).trace := by
  obtain ⟨n, h | h⟩ := exec_trace_take env s tr
  · rw [h]; cases c <;> rfl
  · rw [h]; rfl

theorem device_ops_err_label (c : emi_context) (f : Flow) :
    device_ops (err_label c f).trace = device_ops f.trace := by
  cases f with
  | next t =>
    show device_ops (emi_detach (some c) (t ++ [Event.kfree_buf])) = device_ops t
    rw [device_ops_detach, device_ops_append]
    simp [device_ops, Event.is_write]
  | goto_err t =>
    show device_ops (emi_detach (some c) (t ++ [Event.kfree_buf])) = device_ops t
    rw [device_ops_detach, device_ops_append]
    simp [device_ops, Event.is_write]
  | spin t => rfl
  | oops t => rfl

theorem exec_reset_first (env : Env) (s : List Event) (tr : Trace) :
    ∃ rest, (exec env (reset_script 1 ++ s) tr).trace = tr ++ reset_script 1 ++ rest := by
  have hs : reset_script 1 ++ s =
      Event.emi_set_reset 1 :: Event.emi_writememory CPUCS_REG [1] 0xa0 :: s := rfl
  rw [hs]
  simp only [exec, Event.is_write, Bool.false_eq_true, if_false, if_true]
  split
  · exact ⟨[], by simp [Flow.trace, reset_script]⟩
  · obtain ⟨n, h | h⟩ := exec_trace_take env s
      (tr ++ [Event.emi_set_reset 1] ++ [Event.emi_writememory CPUCS_REG [1] 0xa0])
    · exact ⟨s.take n, by rw [h]; simp [Flow.trace, reset_script]⟩
    · exact ⟨s.take n, by rw [h]; simp [Flow.trace, reset_script]⟩

theorem upload_script_starts (fuel : Nat) (l b f : firmware) (buf : List Nat) :
    ∃ s, (upload_script fuel l b f buf).1 = reset_script 1 ++ s := by
  simp only [upload_script, script_before]
  split
  · exact ⟨records_script (fun _ => true) ANCHOR_LOAD_INTERNAL l.data ++ reset_script 0 ++
      [Event.msleep 250] ++ (bitstream_script fuel buf b.first b.rest).1 ++ script_after l f,
      by simp only [List.append_assoc]⟩
  · exact ⟨records_script (fun _ => true) ANCHOR_LOAD_INTERNAL l.data ++ reset_script 0 ++
      [Event.msleep 250] ++ (bitstream_script fuel buf b.first b.rest).1,
      by simp only [List.append_assoc]⟩

theorem handler_first_op (env : Env) (fuel : Nat) (f l b : firmware) (ctx : emi_context)
    (tr : Trace) (hv : f.valid = true) (hk : env.kmalloc = true)
    (hl : ctx.loader_fw = some l) (hb : ctx.bitstream_fw = some b) :
    ∃ rest, device_ops (emi_firmware_handler env fuel (some f) ctx tr).trace =
      device_ops tr ++ Event.emi_writememory CPUCS_REG [1] 0xA0 :: rest := by
  rw [handler_run env fuel f l b ctx tr hv hk hl hb, device_ops_err_label, trace_andThen_finish]
  obtain ⟨s, hs⟩ := upload_script_starts fuel l b f (List.replicate FW_LOAD_SIZE 0)
  rw [hs]
  obtain ⟨rest, hr⟩ := exec_reset_first env s (tr ++ [Event.kmalloc FW_LOAD_SIZE])
  rw [hr]
  refine ⟨device_ops rest, ?_⟩
  simp only [device_ops_append, device_ops_reset_script, set_reset]
  simp [device_ops, Event.is_write]

theorem firmware_handler_gate (env : Env) (fuel : Nat) (fw : Option firmware)
    (ctx : emi_context) (tr : Trace) (l b : firmware)
    (hl : ctx.loader_fw = some l) (hb : ctx.bitstream_fw = some b)
    (hops : device_ops (emi_firmware_handler env fuel fw ctx tr).trace ≠ device_ops tr) :
    ∃ f rest, fw = some f ∧ f.valid = true ∧ env.kmalloc = true ∧
      (emi_firmware_handler env fuel fw ctx tr).context = { ctx with firmware_fw := some f } ∧
      device_ops (emi_firmware_handler env fuel fw ctx tr).trace =
        device_ops tr ++ Event.emi_writememory CPUCS_REG [1] 0xA0 :: rest := by
  cases fw with
  | none =>
    exfalso; apply hops
    simp only [emi_firmware_handler]
    exact device_ops_detach _ _
  | some f =>
    cases hv : f.valid with
    | false =>
      exfalso; apply hops
      simp only [emi_firmware_handler, ihex_validate_fw, hv, Bool.false_eq_true, if_false, EINVAL]
      simp only [ne_eq, neg_eq_zero, OfNat.ofNat_ne_zero, not_false_eq_true, if_true]
      exact device_ops_detach _ _
    | true =>
      cases hk : env.kmalloc with
      | false =>
        exfalso; apply hops
        simp only [emi_firmware_handler, ihex_validate_fw, hv, hk, if_true, ne_eq,
          not_true_eq_false, if_false, Bool.false_eq_true]
        rw [device_ops_detach, device_ops_append]
        simp [device_ops, Event.is_write]
      | true =>
        obtain ⟨rest, hr⟩ := handler_first_op env fuel f l b ctx tr hv hk hl hb
        refine ⟨f, rest, rfl, hv, rfl, ?_, hr⟩
        obtain ⟨ups, _, h | h⟩ := handler_cases env fuel f l b ctx tr hv hk hl hb
        · rw [h]
        · rw [h]

theorem device_ops_request (tr : Trace) (name : String) :
    device_ops (tr ++ [Event.request_firmware_nowait name]) = device_ops tr := by
  simp [device_ops, Event.is_write]

theorem bitstream_handler_gate (env : Env) (midi : Int) (fuel : Nat) (fw : Option firmware)
    (ctx : emi_context) (tr : Trace) (l : firmware) (hl : ctx.loader_fw = some l)
    (hops : device_ops (emi_bitstream_handler env midi fuel fw ctx tr).trace ≠ device_ops tr) :
    ∃ b f rest, fw = some b ∧ b.valid = true ∧ env.fw_delivered 2 = some f ∧ f.valid = true ∧
      env.kmalloc = true ∧
      (emi_bitstream_handler env midi fuel fw ctx tr).context =
        { ctx with bitstream_fw := some b, firmware_fw := some f } ∧
      device_ops (emi_bitstream_handler env midi fuel fw ctx tr).trace =
        device_ops tr ++ Event.emi_writememory CPUCS_REG [1] 0xA0 :: rest := by
  cases fw with
  | none =>
    exfalso; apply hops
    simp only [emi_bitstream_handler]
    exact device_ops_detach _ _
  | some b =>
    cases hv : b.valid with
    | false =>
      exfalso; apply hops
      simp only [emi_bitstream_handler, ihex_validate_fw, hv, Bool.false_eq_true, if_false, EINVAL]
      simp only [ne_eq, neg_eq_zero, OfNat.ofNat_ne_zero, not_false_eq_true, if_true]
      exact device_ops_detach _ _
    | true =>
      by_cases hr : env.request_firmware_nowait 2 ≠ 0
      · exfalso; apply hops
        simp only [emi_bitstream_handler, ihex_validate_fw, hv, hr, if_true, ne_eq,
          not_true_eq_false, if_false, not_false_eq_true]
        rw [device_ops_detach, device_ops_request]
      · simp only [emi_bitstream_handler, ihex_validate_fw, hv, hr, if_true, ne_eq,
          not_true_eq_false, if_false] at hops ⊢
        rw [← device_ops_request tr] at hops
        obtain ⟨f, rest, h1, h2, h3, h4, h5⟩ := firmware_handler_gate env fuel (env.fw_delivered 2)
          { ctx with bitstream_fw := some b } _ l b hl rfl hops
        rw [device_ops_request] at h5
        exact ⟨b, f, rest, rfl, hv, h1, h2, h3, h4, h5⟩

theorem loader_handler_gate (env : Env) (midi : Int) (fuel : Nat) (fw : Option firmware)
    (ctx : emi_context) (tr : Trace)
    (hops : device_ops (emi_loader_handler env midi fuel fw ctx tr).trace ≠ device_ops tr) :
    ∃ l b f rest, fw = some l ∧ l.valid = true ∧ env.fw_delivered 1 = some b ∧ b.valid = true ∧
      env.fw_delivered 2 = some f ∧ f.valid = true ∧ env.kmalloc = true ∧
      (emi_loader_handler env midi fuel fw ctx tr).context =
        { ctx with loader_fw := some l, bitstream_fw := some b, firmware_fw := some f } ∧
      device_ops (emi_loader_handler env midi fuel fw ctx tr).trace =
        device_ops tr ++ Event.emi_writememory CPUCS_REG [1] 0xA0 :: rest := by
  cases fw with
  | none =>
    exfalso; apply hops
    simp only [emi_loader_handler]
    exact device_ops_detach _ _
  | some l =>
    cases hv : l.valid with
    | false =>
      exfalso; apply hops
      simp only [emi_loader_handler, ihex_validate_fw, hv, Bool.false_eq_true, if_false, EINVAL]
      simp only [ne_eq, neg_eq_zero, OfNat.ofNat_ne_zero, not_false_eq_true, if_true]
      exact device_ops_detach _ _
    | true =>
      by_cases hr : env.request_firmware_nowait 1 ≠ 0
      · exfalso; apply hops
        simp only [emi_loader_handler, ihex_validate_fw, hv, hr, if_true, ne_eq,
          not_true_eq_false, if_false, not_false_eq_true]
        rw [device_ops_detach, device_ops_request]
      · simp only [emi_loader_handler, ihex_validate_fw, hv, hr, if_true, ne_eq,
          not_true_eq_false, if_false] at hops ⊢
        rw [← device_ops_request tr] at hops
        obtain ⟨b, f, rest, h1, h2, h3, h4, h5, h6, h7⟩ := bitstream_handler_gate env midi fuel
          (env.fw_delivered 1) { ctx with loader_fw := some l } _ l rfl hops
        rw [device_ops_request] at h7
        exact ⟨l, b, f, rest, rfl, hv, h1, h2, h3, h4, h5, h6, h7⟩

theorem probe_cases (env : Env) (product : Nat) :
    (¬ (product = EMI26_PRODUCT_ID ∨ product = EMI26B_PRODUCT_ID ∨ product = EMI62_PRODUCT_ID) ∧
      emi_probe env product = ⟨some (-EINVAL), [Event.usb_get_dev], none⟩) ∨
    ((product = EMI26_PRODUCT_ID ∨ product = EMI26B_PRODUCT_ID ∨ product = EMI62_PRODUCT_ID) ∧
      env.kzalloc = false ∧
      emi_probe env product = ⟨none, [Event.usb_get_dev, Event.kzalloc], none⟩) ∨
    ((product = EMI26_PRODUCT_ID ∨ product = EMI26B_PRODUCT_ID ∨ product = EMI62_PRODUCT_ID) ∧
      env.kzalloc = true ∧ env.request_firmware_nowait 0 ≠ 0 ∧
      emi_probe env product =
        ⟨some (env.request_firmware_nowait 0), probe_trace ++ [Event.kfree_context], none⟩) ∨
    ((product = EMI26_PRODUCT_ID ∨ product = EMI26B_PRODUCT_ID ∨ product = EMI62_PRODUCT_ID) ∧
      env.kzalloc = true ∧ env.request_firmware_nowait 0 = 0 ∧
      emi_probe env product = ⟨some 0, probe_trace, some (fresh_context product)⟩) := by
  by_cases hp : product = EMI26_PRODUCT_ID ∨ product = EMI26B_PRODUCT_ID ∨ product = EMI62_PRODUCT_ID
  · cases hk : env.kzalloc with
    | false =>
      right; left
      exact ⟨hp, rfl, by simp [emi_probe, hp, hk]⟩
    | true =>
      by_cases hr : env.request_firmware_nowait 0 = 0
      · right; right; right
        exact ⟨hp, rfl, hr, by simp [emi_probe, hp, hk, hr, probe_trace, fresh_context]⟩
      · right; right; left
        exact ⟨hp, rfl, hr, by simp [emi_probe, hp, hk, hr, probe_trace]⟩
  · left
    exact ⟨hp, by simp [emi_probe, hp]⟩

theorem session_gate (env : Env) (midi : Int) (fuel : Nat) (product : Nat)
    (hops : device_ops (session env midi fuel product).trace ≠ []) :
    ∃ l b f rest, blobs_ready env l b f ∧ env.kmalloc = true ∧
      (session env midi fuel product).context =
        some { fresh_context product with
          loader_fw := some l, bitstream_fw := some b, firmware_fw := some f } ∧
      device_ops (session env midi fuel product).trace =
        Event.emi_writememory CPUCS_REG [1] 0xA0 :: rest := by
  rcases probe_cases env product with ⟨_, h⟩ | ⟨_, _, h⟩ | ⟨_, _, _, h⟩ | ⟨_, _, _, h⟩
  · exfalso; apply hops; simp [session, h, device_ops, Event.is_write]
  · exfalso; apply hops; simp [session, h, device_ops, Event.is_write]
  · exfalso; apply hops; simp [session, h, device_ops, Event.is_write, probe_trace]
  · simp only [session, h] at hops ⊢
    have hp : device_ops probe_trace = [] := by decide
    rw [← hp] at hops
    obtain ⟨l, b, f, rest, h1, h2, h3, h4, h5, h6, h7, h8, h9⟩ :=
      loader_handler_gate env midi fuel (env.fw_delivered 0) _ _ hops
    rw [hp, List.nil_append] at h9
    refine ⟨l, b, f, rest, ⟨h1, (validate_eq_zero l).mpr h2, h3, (validate_eq_zero b).mpr h4,
      h5, (validate_eq_zero f).mpr h6⟩, h7, ?_, h9⟩
    rw [h8]

/-- C11: in every run of the probe/handler chain, a device operation is issued
only when the loader, the bitstream and the firmware blob have each been
delivered non-null and have each passed `ihex_validate_fw`, the transfer
buffer has been allocated, and `loader_fw`, `bitstream_fw` and `firmware_fw`
are all set in the context; the first device operation is then the write of
set_reset(1).  If a blob is missing or invalid, or the buffer cannot be
allocated, the session issues no device write or reset at all, however long
it runs. -/
theorem first_operation_gated (env : Env) (midi : Int) (fuel : Nat) (product : Nat) :
    (device_ops (session env midi fuel product).trace ≠ [] →
      ∃ l b f, blobs_ready env l b f ∧ env.kmalloc = true ∧
        (∃ c, (session env midi fuel product).context = some c ∧
          c.loader_fw = some l ∧ c.bitstream_fw = some b ∧ c.firmware_fw = some f) ∧
        (device_ops (session env midi fuel product).trace).head? =
          some (Event.emi_writememory CPUCS_REG [1] 0xA0)) ∧
    ((¬ ∃ l b f, blobs_ready env l b f ∧ env.kmalloc = true) →
      device_ops (session env midi fuel product).trace = []) := by
  constructor
  · intro hops
    obtain ⟨l, b, f, rest, h1, h2, h3, h4⟩ := session_gate env midi fuel product hops
    exact ⟨l, b, f, h1, h2, ⟨_, h3, rfl, rfl, rfl⟩, by rw [h4]; rfl⟩
  · intro hnot
    by_contra hops
    obtain ⟨l, b, f, rest, h1, h2, _, _⟩ := session_gate env midi fuel product hops
    exact hnot ⟨l, b, f, h1, h2⟩

theorem first_operation_gated_witness :
    ∃ l b f, blobs_ready env_ok l b f ∧ env_ok.kmalloc = true ∧
      (∃ c, (session env_ok 0 2 0x0100).context = some c ∧
        c.loader_fw = some l ∧ c.bitstream_fw = some b ∧ c.firmware_fw = some f) ∧
      (device_ops (session env_ok 0 2 0x0100).trace).head? =
        some (Event.emi_writememory CPUCS_REG [1] 0xA0) :=
  (first_operation_gated env_ok 0 2 0x0100).1 (by decide)

/-! ## Dispatch on the product id (C12) -/

theorem supported_to_short (product : Nat)
    (h : product = EMI26_PRODUCT_ID ∨ product = EMI26B_PRODUCT_ID ∨ product = EMI62_PRODUCT_ID) :
    to_short product = (product : Int) := by
  rcases h with rfl | rfl | rfl <;> decide

/-- C12: for every product id other than `0x0100`, `0x0102` and `0x0110`,
`emi_probe` returns `-EINVAL` at once: its only event is the `usb_get_dev` at
its start, no context is allocated and no blob is requested, and the session
ends there.  For each of the three supported ids (the context allocation
succeeding) it allocates a context, requests "emi/loader.fw", and the context
it hands to an accepted request holds that product id and no image. -/
theorem probe_by_product (env : Env) (midi : Int) (fuel : Nat) (product : Nat) :
    (¬ (product = EMI26_PRODUCT_ID ∨ product = EMI26B_PRODUCT_ID ∨ product = EMI62_PRODUCT_ID) →
      emi_probe env product = ⟨some (-EINVAL), [Event.usb_get_dev], none⟩ ∧
      session env midi fuel product =
        ⟨some (-EINVAL), [Event.usb_get_dev], none, Status.returned⟩) ∧
    ((product = EMI26_PRODUCT_ID ∨ product = EMI26B_PRODUCT_ID ∨ product = EMI62_PRODUCT_ID) →
      env.kzalloc = true →
      (∃ rest, (emi_probe env product).trace =
        [Event.usb_get_dev, Event.kzalloc, Event.request_firmware_nowait "emi/loader.fw"]
          ++ rest) ∧
      (emi_probe env product).ret = some (env.request_firmware_nowait 0) ∧
      (env.request_firmware_nowait 0 = 0 →
        (emi_probe env product).context =
          some { product_id := (product : Int), loader_fw := none, bitstream_fw := none,
                 firmware_fw := none })) := by
  constructor
  · intro hns
    rcases probe_cases env product with ⟨_, h⟩ | ⟨hs, _⟩ | ⟨hs, _⟩ | ⟨hs, _⟩
    · exact ⟨h, by simp only [session, h]⟩
    · exact absurd hs hns
    · exact absurd hs hns
    · exact absurd hs hns
  · intro hs hk
    rcases probe_cases env product with ⟨hns, _⟩ | ⟨_, hk2, _⟩ | ⟨_, _, hr, h⟩ | ⟨_, _, hr, h⟩
    · exact absurd hs hns
    · rw [hk] at hk2; cases hk2
    · rw [h]
      exact ⟨⟨[Event.kfree_context], rfl⟩, rfl, fun h0 => absurd h0 hr⟩
    · rw [h, hr]
      refine ⟨⟨[], rfl⟩, rfl, fun _ => ?_⟩
      simp only [fresh_context, supported_to_short product hs]

theorem probe_by_product_witness :
    emi_probe env_ok 0x0200 = ⟨some (-EINVAL), [Event.usb_get_dev], none⟩ ∧
    (emi_probe env_ok 0x0110).context =
      some { product_id := 0x0110, loader_fw := none, bitstream_fw := none, firmware_fw := none } :=
  ⟨((probe_by_product env_ok 0 2 0x0200).1 (by decide)).1,
   ((probe_by_product env_ok 0 2 0x0110).2 (by decide) rfl).2.2 rfl⟩

/-! ## Where chunks begin (C13) -/

theorem bitstream_script_greedy (fuel : Nat) (buf : List Nat) (r : ihex_binrec)
    (rest : List ihex_binrec) (hbuf : buf.length = FW_LOAD_SIZE)
    (hsz : ∀ x ∈ r :: rest, x.len < FW_LOAD_SIZE) (hfuel : (r :: rest).length ≤ fuel) :
    ∃ groups : List (List ihex_binrec),
      groups.flatten = r :: rest ∧ (∀ g ∈ groups, g ≠ []) ∧
      writes_with ANCHOR_LOAD_FPGA (bitstream_script fuel buf r rest).1 =
        groups.map chunk_write ∧
      (∀ g ∈ groups, (payloads g).length < FW_LOAD_SIZE) ∧
      List.Chain' forced_boundary groups := by
  induction fuel generalizing buf r rest with
  | zero => simp at hfuel
  | succ fuel ih =>
    obtain ⟨g, hg1, hg2, hg3, hg4, hg5, hg6⟩ :=
      fill_spec (r :: rest) 0 buf hbuf (by simp [FW_LOAD_SIZE])
    have hne : g ≠ [] := hg5 r rest rfl (by simpa using hsz r (List.mem_cons_self _ _))
    have hi : (bitstream_fill 0 buf (r :: rest)).i = (payloads g).length := by
      have := congrArg List.length hg4
      simp only [List.length_take, List.take_zero, List.nil_append] at this
      omega
    have hnw : writes_with ANCHOR_LOAD_FPGA (bitstream_fill 0 buf (r :: rest)).events = [] := by
      simp only [writes_with, List.filter_eq_nil_iff]
      intro e he
      obtain ⟨off, n, rfl, _⟩ := fill_events_bound _ _ _ e he
      simp
    obtain ⟨r0, g0, rfl⟩ : ∃ r0 g0, g = r0 :: g0 := by
      cases g with
      | nil => exact absurd rfl hne
      | cons r0 g0 => exact ⟨r0, g0, rfl⟩
    have hr0 : r0 = r := by
      simp only [List.cons_append, List.cons.injEq] at hg1
      exact hg1.1.symm
    subst hr0
    have hw : Event.emi_writememory r0.addr
        (List.take (bitstream_fill 0 buf (r0 :: rest)).i (bitstream_fill 0 buf (r0 :: rest)).buf)
        ANCHOR_LOAD_FPGA = chunk_write (r0 :: g0) := by
      rw [hg4]; rfl
    have hlt : (payloads (r0 :: g0)).length < FW_LOAD_SIZE := by rw [← hi]; exact hg3
    simp only [bitstream_script]
    cases hrec : (bitstream_fill 0 buf (r0 :: rest)).rec_ with
    | nil =>
      refine ⟨[r0 :: g0], ?_, ?_, ?_, ?_, ?_⟩
      · rw [hrec] at hg1
        simp [hg1]
      · simp
      · simp only [writes_with_append, hnw, List.nil_append, hw]
        simp [writes_with, chunk_write]
      · intro x hx
        simp only [List.mem_singleton] at hx
        rw [hx]; exact hlt
      · exact List.chain'_singleton _
    | cons r2 rest2 =>
      have h6 := hg6 r2 rest2 hrec
      rw [hrec] at hg1
      obtain ⟨gs, hgs1, hgs2, hgs3, hgs4, hgs5⟩ :=
        ih (bitstream_fill 0 buf (r0 :: rest)).buf r2 rest2 hg2
        (by
          intro x hx
          apply hsz
          rw [hg1]
          exact List.mem_append_right _ hx)
        (by
          have hl := congrArg List.length hg1
          simp only [List.length_append, List.length_cons] at hl hfuel ⊢
          omega)
      refine ⟨(r0 :: g0) :: gs, ?_, ?_, ?_, ?_, ?_⟩
      · simp only [List.flatten_cons, hgs1]
        exact hg1.symm
      · intro x hx
        simp only [List.mem_cons] at hx
        rcases hx with rfl | hx
        · simp
        · exact hgs2 x hx
      · have hsplit : ∀ (a : List Event) (w : Event) (c : List Event),
            a ++ w :: c = a ++ ([w] ++ c) := by intros; simp
        simp only
        rw [hsplit, writes_with_append, writes_with_append, hnw, hgs3, hw]
        simp [writes_with, chunk_write]
      · intro x hx
        simp only [List.mem_cons] at hx
        rcases hx with rfl | hx
        · exact hlt
        · exact hgs4 x hx
      · cases gs with
        | nil => exact List.chain'_singleton _
        | cons g2 gs2 =>
          rw [List.chain'_cons]
          refine ⟨?_, hgs5⟩
          intro x hx
          have hg2ne : g2 ≠ [] := hgs2 g2 (List.mem_cons_self _ _)
          cases g2 with
          | nil => exact absurd rfl hg2ne
          | cons y ys =>
            simp only [List.head?_cons, Option.mem_def, Option.some.injEq] at hx
            simp only [List.flatten_cons, List.cons_append, List.cons.injEq] at hgs1
            rw [← hx, hgs1.1, ← hi]
            exact h6

/-- C13, as amended: only the bitstream is chunked, and the size test is
strict.  On a run on which every device operation succeeds, with every
bitstream record shorter than `FW_LOAD_SIZE`: the loader and the firmware go
out one record per device write; the bitstream goes out in chunks, each chunk
carries fewer than `FW_LOAD_SIZE` bytes, and a new chunk starts between two
consecutive records only when appending the second record's payload would
bring the chunk to `FW_LOAD_SIZE` bytes or more (so records whose payloads
total fewer than `FW_LOAD_SIZE` bytes share one write). -/
theorem chunk_boundaries (env : Env) (fuel : Nat) (fw loader b : firmware) (ctx : emi_context)
    (hv : fw.valid = true) (hk : env.kmalloc = true) (hok : ∀ n, 0 ≤ env.result n)
    (hl : ctx.loader_fw = some loader) (hb : ctx.bitstream_fw = some b)
    (hsz : ∀ r ∈ b.data, r.len < FW_LOAD_SIZE) (hfuel : b.data.length ≤ fuel) :
    ∃ groups : List (List ihex_binrec),
      groups.flatten = b.data ∧ (∀ g ∈ groups, g ≠ []) ∧
      (∀ g ∈ groups, (payloads g).length < FW_LOAD_SIZE) ∧
      List.Chain' forced_boundary groups ∧
      device_ops (emi_firmware_handler env fuel (some fw) ctx []).trace =
        [Event.emi_writememory CPUCS_REG [1] 0xA0]
          ++ loader.data.map (fun r => Event.emi_writememory r.addr r.data ANCHOR_LOAD_INTERNAL)
          ++ [Event.emi_writememory CPUCS_REG [0] 0xA0]
          ++ groups.map chunk_write
          ++ [Event.emi_writememory CPUCS_REG [1] 0xA0]
          ++ loader.data.map (fun r => Event.emi_writememory r.addr r.data ANCHOR_LOAD_INTERNAL)
          ++ [Event.emi_writememory CPUCS_REG [0] 0xA0]
          ++ (fw.data.filter fun r => !INTERNAL_RAM r.addr).map
              (fun r => Event.emi_writememory r.addr r.data ANCHOR_LOAD_EXTERNAL)
          ++ [Event.emi_writememory CPUCS_REG [1] 0xA0]
          ++ (fw.data.filter fun r => INTERNAL_RAM r.addr).map
              (fun r => Event.emi_writememory r.addr r.data ANCHOR_LOAD_INTERNAL)
          ++ [Event.emi_writememory CPUCS_REG [0] 0xA0] := by
  obtain ⟨groups, h1, h2, h3, h4, h5⟩ :=
    bitstream_script_greedy fuel (List.replicate FW_LOAD_SIZE 0) b.first b.rest (by simp)
      hsz hfuel
  refine ⟨groups, h1, h2, h4, h5, ?_⟩
  rw [handler_success env fuel fw loader b ctx [] hv hk hl hb hok hsz hfuel]
  dsimp only
  simp only [device_ops_detach, device_ops_append, script_before, script_after,
    device_ops_reset_script, device_ops_records_script, device_ops_msleep, set_reset,
    device_ops_bitstream_script fuel _ _ _ (List.length_replicate _ _), h3]
  simp [device_ops, Event.is_write]
  rfl

theorem chunk_boundaries_witness :
    ∃ groups : List (List ihex_binrec),
      groups.flatten = sample_bitstream.data ∧ (∀ g ∈ groups, g ≠ []) ∧
      (∀ g ∈ groups, (payloads g).length < FW_LOAD_SIZE) ∧
      List.Chain' forced_boundary groups ∧
      device_ops (emi_firmware_handler env_ok 2 (some sample_firmware) sample_context []).trace =
        [Event.emi_writememory CPUCS_REG [1] 0xA0]
          ++ sample_loader.data.map
              (fun r => Event.emi_writememory r.addr r.data ANCHOR_LOAD_INTERNAL)
          ++ [Event.emi_writememory CPUCS_REG [0] 0xA0]
          ++ groups.map chunk_write
          ++ [Event.emi_writememory CPUCS_REG [1] 0xA0]
          ++ sample_loader.data.map
              (fun r => Event.emi_writememory r.addr r.data ANCHOR_LOAD_INTERNAL)
          ++ [Event.emi_writememory CPUCS_REG [0] 0xA0]
          ++ (sample_firmware.data.filter fun r => !INTERNAL_RAM r.addr).map
              (fun r => Event.emi_writememory r.addr r.data ANCHOR_LOAD_EXTERNAL)
          ++ [Event.emi_writememory CPUCS_REG [1] 0xA0]
          ++ (sample_firmware.data.filter fun r => INTERNAL_RAM r.addr).map
              (fun r => Event.emi_writememory r.addr r.data ANCHOR_LOAD_INTERNAL)
          ++ [Event.emi_writememory CPUCS_REG [0] 0xA0] :=
  chunk_boundaries env_ok 2 sample_firmware sample_loader sample_bitstream sample_context
    rfl rfl env_ok_result rfl rfl (by decide) (by decide)

set_option maxRecDepth 100000 in
/-- C13, as stated, fails twice.  The loader records
`[(0x0000,"AA"),(0x0002,"BB")]`, contiguous and four bytes together, go out in
two device writes, not one; and two contiguous bitstream records of 1000 and
23 bytes, exactly `FW_LOAD_SIZE` together, go out in two writes. -/
theorem contiguous_records_not_merged :
    device_ops (emi_firmware_handler env_ok 2 (some sample_firmware) aabb_context []).trace =
      [Event.emi_writememory CPUCS_REG [1] 0xA0,
       Event.emi_writememory 0x0000 [0x41, 0x41] 0xA0,
       Event.emi_writememory 0x0002 [0x42, 0x42] 0xA0,
       Event.emi_writememory CPUCS_REG [0] 0xA0,
       Event.emi_writememory 0x0000 [1, 2, 3] 0xA5,
       Event.emi_writememory CPUCS_REG [1] 0xA0,
       Event.emi_writememory 0x0000 [0x41, 0x41] 0xA0,
       Event.emi_writememory 0x0002 [0x42, 0x42] 0xA0,
       Event.emi_writememory CPUCS_REG [0] 0xA0,
       Event.emi_writememory 0x2000 [8, 9] 0xA3,
       Event.emi_writememory CPUCS_REG [1] 0xA0,
       Event.emi_writememory 0x0100 [7] 0xA0,
       Event.emi_writememory CPUCS_REG [0] 0xA0] ∧
    (payloads exact_bitstream.data).length = FW_LOAD_SIZE ∧
    writes_with ANCHOR_LOAD_FPGA
        (emi_firmware_handler env_ok 2 (some sample_firmware) exact_context []).trace =
      [Event.emi_writememory 0 (List.replicate 1000 0) ANCHOR_LOAD_FPGA,
       Event.emi_writememory 1000 (List.replicate 23 0) ANCHOR_LOAD_FPGA] := by
  refine ⟨by decide, by decide, ?_⟩
  rw [handler_fpga_writes env_ok 2 sample_firmware sample_loader exact_bitstream exact_context
    rfl rfl rfl rfl env_ok_result]
  decide

/-! ## Blobs that fail validation (C14) -/

theorem invalid_blob_only_detach (env : Env) (midi : Int) (fuel : Nat) (f : firmware)
    (ctx : emi_context) (tr : Trace) (hv : f.valid = false) :
    emi_loader_handler env midi fuel (some f) ctx tr =
      ⟨emi_detach (some ctx) tr, ctx, Status.returned⟩ ∧
    emi_bitstream_handler env midi fuel (some f) ctx tr =
      ⟨emi_detach (some ctx) tr, ctx, Status.returned⟩ ∧
    emi_firmware_handler env fuel (some f) ctx tr =
      ⟨emi_detach (some ctx) tr, ctx, Status.returned⟩ := by
  refine ⟨?_, ?_, ?_⟩
  · simp only [emi_loader_handler, ihex_validate_fw, hv, Bool.false_eq_true, if_false, EINVAL]
    simp only [ne_eq, neg_eq_zero, OfNat.ofNat_ne_zero, not_false_eq_true, if_true]
  · simp only [emi_bitstream_handler, ihex_validate_fw, hv, Bool.false_eq_true, if_false, EINVAL]
    simp only [ne_eq, neg_eq_zero, OfNat.ofNat_ne_zero, not_false_eq_true, if_true]
  · simp only [emi_firmware_handler, ihex_validate_fw, hv, Bool.false_eq_true, if_false, EINVAL]
    simp only [ne_eq, neg_eq_zero, OfNat.ofNat_ne_zero, not_false_eq_true, if_true]

/-- C14 fails on the code: a blob that is delivered non-null but fails
`ihex_validate_fw` is never released.  Whichever of the three handlers
receives it, the session returns after one `emi_detach`, and the images
released are only those stored before: none for the loader handler, the
loader for the bitstream handler, the loader and the bitstream for the
firmware handler. -/
theorem invalid_blob_never_released :
    ((env_invalid 0).fw_delivered 0 = some invalid_blob ∧
      (session (env_invalid 0) 0 2 0x0100).status = Status.returned ∧
      detach_calls (session (env_invalid 0) 0 2 0x0100).trace = 1 ∧
      releases (session (env_invalid 0) 0 2 0x0100).trace = []) ∧
    ((env_invalid 1).fw_delivered 1 = some invalid_blob ∧
      (session (env_invalid 1) 0 2 0x0100).status = Status.returned ∧
      detach_calls (session (env_invalid 1) 0 2 0x0100).trace = 1 ∧
      releases (session (env_invalid 1) 0 2 0x0100).trace = [sample_loader]) ∧
    ((env_invalid 2).fw_delivered 2 = some invalid_blob ∧
      (session (env_invalid 2) 0 2 0x0100).status = Status.returned ∧
      detach_calls (session (env_invalid 2) 0 2 0x0100).trace = 1 ∧
      releases (session (env_invalid 2) 0 2 0x0100).trace = [sample_loader, sample_bitstream]) := by
  decide

/-! ## Termination of the bitstream loop (C15) -/

theorem bitstream_loop_stall (env : Env) (fuel : Nat) (buf : List Nat) (r : ihex_binrec)
    (rest : List ihex_binrec) (tr : Trace) (hok : ∀ n, 0 ≤ env.result n)
    (hwide : FW_LOAD_SIZE ≤ r.len) :
    bitstream_loop env fuel buf r rest tr =
      Flow.spin (tr ++ List.replicate fuel (Event.emi_writememory r.addr [] ANCHOR_LOAD_FPGA)) := by
  rw [bitstream_loop_eq, bitstream_script_stall fuel buf r rest hwide,
    bitstream_script_stall_events fuel buf r rest hwide, exec_ok env _ _ (fun j _ => hok _)]
  rfl

theorem length_le_flatten (gs : List (List ihex_binrec)) (h : ∀ g ∈ gs, g ≠ []) :
    gs.length ≤ gs.flatten.length := by
  induction gs with
  | nil => simp
  | cons g gs ih =>
    have hg : 0 < g.length := List.length_pos.mpr (h g (List.mem_cons_self _ _))
    have := ih (fun x hx => h x (List.mem_cons_of_mem _ hx))
    simp only [List.length_cons, List.flatten_cons, List.length_append]
    omega

/-- When every record of the bitstream is shorter than `FW_LOAD_SIZE` and the
device operations succeed, the do/while loop ends after at most as many
writes as there are records. -/
theorem bitstream_loop_terminates (env : Env) (fuel : Nat) (buf : List Nat) (r : ihex_binrec)
    (rest : List ihex_binrec) (tr : Trace) (hbuf : buf.length = FW_LOAD_SIZE)
    (hok : ∀ n, 0 ≤ env.result n)
    (hsz : ∀ x ∈ r :: rest, x.len < FW_LOAD_SIZE) (hfuel : (r :: rest).length ≤ fuel) :
    ∃ s, bitstream_loop env fuel buf r rest tr = Flow.next (tr ++ s) ∧
      (device_ops s).length ≤ (r :: rest).length := by
  refine ⟨(bitstream_script fuel buf r rest).1, ?_, ?_⟩
  · rw [bitstream_loop_eq, bitstream_script_complete fuel buf r rest hbuf hsz hfuel,
      exec_ok env _ _ (fun j _ => hok _)]
    rfl
  · obtain ⟨gs, h1, h2, h3⟩ := bitstream_script_groups fuel buf r rest hbuf hsz hfuel
    rw [device_ops_bitstream_script fuel buf r rest hbuf, h3, List.length_map, ← h1]
    exact length_le_flatten gs h2

/-- C15 fails on the code: for a bitstream whose single record carries
`FW_LOAD_SIZE` (1023) bytes, on a device whose operations succeed, the
do/while loop never ends: after any number `fuel` of iterations it has
consumed no record, has issued `fuel` empty writes with request `0xA5`, and is
still looping. -/
theorem wide_record_loop_spins :
    ∀ fuel : Nat,
      bitstream_loop env_ok fuel (List.replicate FW_LOAD_SIZE 0)
          wide_bitstream.first wide_bitstream.rest [] =
        Flow.spin (List.replicate fuel (Event.emi_writememory 0x0000 [] ANCHOR_LOAD_FPGA)) := by
  intro fuel
  have hw : FW_LOAD_SIZE ≤ wide_bitstream.first.len := by
    show FW_LOAD_SIZE ≤ (List.replicate 1023 0).length
    rw [List.length_replicate]
    exact Nat.le_refl 1023
  rw [bitstream_loop_stall env_ok fuel _ _ _ [] env_ok_result hw]
  rfl

/-! ## Settle delays (C16) -/

theorem timeline_append (a b : Trace) : timeline (a ++ b) = timeline a ++ timeline b := by
  simp [timeline]

theorem timeline_release (fw : Option firmware) : timeline (release fw []) = [] := by
  cases fw <;> simp [release, timeline, Event.is_write, Event.is_msleep]

theorem timeline_detach (c : Option emi_context) (t : Trace) :
    timeline (emi_detach c t) = timeline t := by
  rw [emi_detach_eq_append, timeline_append]
  cases c with
  | none => simp [emi_detach, timeline, Event.is_write, Event.is_msleep]
  | some c =>
    simp only [emi_detach, List.nil_append]
    rw [release_eq_append c.firmware_fw, release_eq_append c.bitstream_fw,
      release_eq_append c.loader_fw]
    simp only [timeline_append, timeline_release]
    simp [timeline, Event.is_write, Event.is_msleep]

theorem timeline_reset_script (b : Nat) :
    timeline (reset_script b) = [Event.emi_writememory CPUCS_REG [b] 0xA0] := by
  simp [timeline, reset_script, Event.is_write, Event.is_msleep]

theorem timeline_records_script (cond : ihex_binrec → Bool) (rq : Nat) (recs : List ihex_binrec) :
    timeline (records_script cond rq recs) = (recs.filter cond).map (write_of rq) := by
  simp only [timeline, records_script]
  apply List.filter_eq_self.mpr
  intro e he
  simp only [List.mem_map] at he
  obtain ⟨r, _, rfl⟩ := he
  rfl

theorem timeline_bitstream_script (fuel : Nat) (buf : List Nat) (r : ihex_binrec)
    (rest : List ihex_binrec) (hbuf : buf.length = FW_LOAD_SIZE) :
    timeline (bitstream_script fuel buf r rest).1 =
      device_ops (bitstream_script fuel buf r rest).1 := by
  simp only [timeline, device_ops]
  apply List.filter_congr
  intro e he
  rcases bitstream_script_events fuel buf r rest hbuf e he with ⟨_, _, rfl, _⟩ | ⟨_, _, rfl, _⟩
  · rfl
  · rfl

theorem settle_delays_timeline (tr : Trace) :
    settle_delays tr = (timeline tr).filter Event.is_msleep := by
  simp only [settle_delays, timeline, List.filter_filter]
  apply List.filter_congr
  intro e _
  cases e <;> rfl

theorem no_msleep_in_writes (ws : List Event) (h : ∀ w ∈ ws, w.is_write = true) :
    ws.filter Event.is_msleep = [] := by
  rw [List.filter_eq_nil_iff]
  intro e he
  have := h e he
  cases e <;> simp [Event.is_write, Event.is_msleep] at this ⊢

/-- C16, as amended: on the all-success path of `emi_firmware_handler` the
settle delays are exactly four waits of 250 ms.  Three come immediately after
a release of reset (set_reset(0)) and before the next device operation; the
fourth comes after the second upload of the loader, immediately before the
second release of reset, that is while the CPU is held in reset.  No other
delay occurs between the device operations. -/
theorem settle_delays_placement (env : Env) (fuel : Nat) (loader bitstream fw : firmware)
    (ctx : emi_context) (hl : ctx.loader_fw = some loader)
    (hb : ctx.bitstream_fw = some bitstream) (hv : fw.valid = true)
    (hk : env.kmalloc = true) (hok : ∀ n, 0 ≤ env.result n)
    (hsz : ∀ r ∈ bitstream.data, r.len < FW_LOAD_SIZE)
    (hfuel : bitstream.data.length ≤ fuel) :
    settle_delays (emi_firmware_handler env fuel (some fw) ctx []).trace =
      [Event.msleep 250, Event.msleep 250, Event.msleep 250, Event.msleep 250] ∧
    ∃ bws : List Event,
      (∀ w ∈ bws, ∃ a d, w = Event.emi_writememory a d ANCHOR_LOAD_FPGA) ∧
      timeline (emi_firmware_handler env fuel (some fw) ctx []).trace =
        [Event.emi_writememory CPUCS_REG [1] 0xA0]
          ++ loader.data.map (write_of ANCHOR_LOAD_INTERNAL)
          ++ [Event.emi_writememory CPUCS_REG [0] 0xA0, Event.msleep 250]
          ++ bws
          ++ [Event.emi_writememory CPUCS_REG [1] 0xA0]
          ++ loader.data.map (write_of ANCHOR_LOAD_INTERNAL)
          ++ [Event.msleep 250, Event.emi_writememory CPUCS_REG [0] 0xA0, Event.msleep 250]
          ++ (fw.data.filter fun r => !INTERNAL_RAM r.addr).map (write_of ANCHOR_LOAD_EXTERNAL)
          ++ [Event.emi_writememory CPUCS_REG [1] 0xA0]
          ++ (fw.data.filter fun r => INTERNAL_RAM r.addr).map (write_of ANCHOR_LOAD_INTERNAL)
          ++ [Event.emi_writememory CPUCS_REG [0] 0xA0, Event.msleep 250] := by
  have hbw : ∀ w ∈ device_ops
      (bitstream_script fuel (List.replicate FW_LOAD_SIZE 0) bitstream.first bitstream.rest).1,
      ∃ a d, w = Event.emi_writememory a d ANCHOR_LOAD_FPGA := by
    intro w hw
    simp only [device_ops, List.mem_filter] at hw
    rcases bitstream_script_events fuel _ _ _ (by simp) w hw.1 with ⟨off, n, rfl, _⟩ | ⟨a, d, rfl, _⟩
    · simp [Event.is_write] at hw
    · exact ⟨a, d, rfl⟩
  have ht : timeline (emi_firmware_handler env fuel (some fw) ctx []).trace =
        [Event.emi_writememory CPUCS_REG [1] 0xA0]
          ++ loader.data.map (write_of ANCHOR_LOAD_INTERNAL)
          ++ [Event.emi_writememory CPUCS_REG [0] 0xA0, Event.msleep 250]
          ++ device_ops (bitstream_script fuel (List.replicate FW_LOAD_SIZE 0)
              bitstream.first bitstream.rest).1
          ++ [Event.emi_writememory CPUCS_REG [1] 0xA0]
          ++ loader.data.map (write_of ANCHOR_LOAD_INTERNAL)
          ++ [Event.msleep 250, Event.emi_writememory CPUCS_REG [0] 0xA0, Event.msleep 250]
          ++ (fw.data.filter fun r => !INTERNAL_RAM r.addr).map (write_of ANCHOR_LOAD_EXTERNAL)
          ++ [Event.emi_writememory CPUCS_REG [1] 0xA0]
          ++ (fw.data.filter fun r => INTERNAL_RAM r.addr).map (write_of ANCHOR_LOAD_INTERNAL)
          ++ [Event.emi_writememory CPUCS_REG [0] 0xA0, Event.msleep 250] := by
    rw [handler_success env fuel fw loader bitstream ctx [] hv hk hl hb hok hsz hfuel]
    dsimp only
    simp only [timeline_detach, timeline_append, script_before, script_after,
      timeline_reset_script, timeline_records_script,
      timeline_bitstream_script fuel _ _ _ (List.length_replicate _ _)]
    simp [timeline, Event.is_write, Event.is_msleep]
  refine ⟨?_, _, hbw, ht⟩
  rw [settle_delays_timeline, ht]
  have hL : ∀ (rq : Nat) (l : List ihex_binrec),
      (l.map (write_of rq)).filter Event.is_msleep = [] := by
    intro rq l
    apply no_msleep_in_writes
    intro w hw
    simp only [List.mem_map] at hw
    obtain ⟨r, _, rfl⟩ := hw
    rfl
  have hB : (device_ops (bitstream_script fuel (List.replicate FW_LOAD_SIZE 0)
      bitstream.first bitstream.rest).1).filter Event.is_msleep = [] := by
    apply no_msleep_in_writes
    intro w hw
    obtain ⟨a, d, rfl⟩ := hbw w hw
    rfl
  simp only [List.filter_append, hL, hB]
  simp [Event.is_msleep]

theorem settle_delays_placement_witness :
    settle_delays (emi_firmware_handler env_ok 2 (some sample_firmware) sample_context []).trace =
      [Event.msleep 250, Event.msleep 250, Event.msleep 250, Event.msleep 250] :=
  (settle_delays_placement env_ok 2 sample_loader sample_bitstream sample_firmware sample_context
    rfl rfl rfl rfl env_ok_result (by decide) (by decide)).1

/-- C16, as stated, fails: on an all-success run the handler waits four times,
not three, and the third wait of the run comes between the last write of the
second loader upload and the set_reset(0) that follows it, while the CPU is
held in reset. -/
theorem fourth_delay_while_in_reset :
    timeline (emi_firmware_handler env_ok 2 (some sample_firmware) sample_context []).trace =
      [Event.emi_writememory CPUCS_REG [1] 0xA0,
       Event.emi_writememory 0x0000 [0xAA] 0xA0,
       Event.emi_writememory 0x0002 [0xBB] 0xA0,
       Event.emi_writememory CPUCS_REG [0] 0xA0,
       Event.msleep 250,
       Event.emi_writememory 0x0000 [1, 2, 3] 0xA5,
       Event.emi_writememory CPUCS_REG [1] 0xA0,
       Event.emi_writememory 0x0000 [0xAA] 0xA0,
       Event.emi_writememory 0x0002 [0xBB] 0xA0,
       Event.msleep 250,
       Event.emi_writememory CPUCS_REG [0] 0xA0,
       Event.msleep 250,
       Event.emi_writememory 0x2000 [8, 9] 0xA3,
       Event.emi_writememory CPUCS_REG [1] 0xA0,
       Event.emi_writememory 0x0100 [7] 0xA0,
       Event.emi_writememory CPUCS_REG [0] 0xA0,
       Event.msleep 250] ∧
    (settle_delays
      (emi_firmware_handler env_ok 2 (some sample_firmware) sample_context []).trace).length = 4 := by
  decide

/-! ## The device reference (C17) -/

theorem upload_is_inner (e : Event) (h : e.is_upload = true) : e.is_inner = true := by
  cases e <;> simp [Event.is_upload] at h <;> rfl

theorem shape_shift (t tr D : Trace) (e : Event)
    (h : ∃ mid, t = tr ++ [e] ++ mid ++ D ∧ ∀ x ∈ mid, x.is_inner = true)
    (he : e.is_inner = true) :
    ∃ mid, t = tr ++ mid ++ D ∧ ∀ x ∈ mid, x.is_inner = true := by
  obtain ⟨mid, h1, h2⟩ := h
  refine ⟨e :: mid, ?_, ?_⟩
  · rw [h1]
    simp
  · intro x hx
    simp only [List.mem_cons] at hx
    rcases hx with rfl | hx
    · exact he
    · exact h2 x hx

theorem shape_detach_snoc (c : emi_context) (tr : Trace) (e : Event) (he : e.is_inner = true) :
    ∃ mid, emi_detach (some c) (tr ++ [e]) = tr ++ mid ++ emi_detach (some c) [] ∧
      ∀ x ∈ mid, x.is_inner = true := by
  refine ⟨[e], emi_detach_eq_append _ _, ?_⟩
  intro x hx
  simp only [List.mem_singleton] at hx
  rw [hx]; exact he

theorem firmware_handler_shape (env : Env) (fuel : Nat) (fw : Option firmware)
    (ctx : emi_context) (tr : Trace) (l b : firmware)
    (hl : ctx.loader_fw = some l) (hb : ctx.bitstream_fw = some b)
    (hret : (emi_firmware_handler env fuel fw ctx tr).status = Status.returned) :
    ∃ mid, (emi_firmware_handler env fuel fw ctx tr).trace =
        tr ++ mid ++ emi_detach (some (emi_firmware_handler env fuel fw ctx tr).context) [] ∧
      ∀ e ∈ mid, e.is_inner = true := by
  cases fw with
  | none =>
    refine ⟨[], ?_, by simp⟩
    simp only [emi_firmware_handler, List.append_nil]
    exact emi_detach_eq_append _ _
  | some f =>
    cases hv : f.valid with
    | false =>
      refine ⟨[], ?_, by simp⟩
      rw [(invalid_blob_only_detach env 0 fuel f ctx tr hv).2.2]
      simp only [List.append_nil]
      exact emi_detach_eq_append _ _
    | true =>
      cases hk : env.kmalloc with
      | false =>
        refine ⟨[Event.kmalloc FW_LOAD_SIZE], ?_, by simp [Event.is_inner]⟩
        simp only [emi_firmware_handler, ihex_validate_fw, hv, hk, if_true, ne_eq,
          not_true_eq_false, if_false, Bool.false_eq_true]
        exact emi_detach_eq_append _ _
      | true =>
        obtain ⟨ups, hups, h | h⟩ := handler_cases env fuel f l b ctx tr hv hk hl hb
        · refine ⟨[Event.kmalloc FW_LOAD_SIZE] ++ ups ++ [Event.kfree_buf], ?_, ?_⟩
          · rw [h]
            dsimp only
            rw [emi_detach_eq_append]
            simp only [List.append_assoc]
          · intro e he
            simp only [List.mem_append, List.mem_singleton] at he
            rcases he with (rfl | he) | rfl
            · rfl
            · exact upload_is_inner e (hups e he)
            · rfl
        · rw [h] at hret
          cases hret

theorem bitstream_handler_shape (env : Env) (midi : Int) (fuel : Nat) (fw : Option firmware)
    (ctx : emi_context) (tr : Trace) (l : firmware) (hl : ctx.loader_fw = some l)
    (hret : (emi_bitstream_handler env midi fuel fw ctx tr).status = Status.returned) :
    ∃ mid, (emi_bitstream_handler env midi fuel fw ctx tr).trace =
        tr ++ mid ++ emi_detach (some (emi_bitstream_handler env midi fuel fw ctx tr).context) [] ∧
      ∀ e ∈ mid, e.is_inner = true := by
  cases fw with
  | none =>
    refine ⟨[], ?_, by simp⟩
    simp only [emi_bitstream_handler, List.append_nil]
    exact emi_detach_eq_append _ _
  | some f =>
    cases hv : f.valid with
    | false =>
      refine ⟨[], ?_, by simp⟩
      rw [(invalid_blob_only_detach env midi fuel f ctx tr hv).2.1]
      simp only [List.append_nil]
      exact emi_detach_eq_append _ _
    | true =>
      by_cases hr : env.request_firmware_nowait 2 ≠ 0
      · simp only [emi_bitstream_handler, ihex_validate_fw, hv, hr, if_true, ne_eq,
          not_true_eq_false, if_false, not_false_eq_true]
        exact shape_detach_snoc _ _ _ rfl
      · simp only [emi_bitstream_handler, ihex_validate_fw, hv, hr, if_true, ne_eq,
          not_true_eq_false, if_false] at hret ⊢
        exact shape_shift _ _ _ _ (firmware_handler_shape env fuel (env.fw_delivered 2)
          { ctx with bitstream_fw := some f } _ l f hl rfl hret) rfl

theorem loader_handler_shape (env : Env) (midi : Int) (fuel : Nat) (fw : Option firmware)
    (ctx : emi_context) (tr : Trace)
    (hret : (emi_loader_handler env midi fuel fw ctx tr).status = Status.returned) :
    ∃ mid, (emi_loader_handler env midi fuel fw ctx tr).trace =
        tr ++ mid ++ emi_detach (some (emi_loader_handler env midi fuel fw ctx tr).context) [] ∧
      ∀ e ∈ mid, e.is_inner = true := by
  cases fw with
  | none =>
    refine ⟨[], ?_, by simp⟩
    simp only [emi_loader_handler, List.append_nil]
    exact emi_detach_eq_append _ _
  | some f =>
    cases hv : f.valid with
    | false =>
      refine ⟨[], ?_, by simp⟩
      rw [(invalid_blob_only_detach env midi fuel f ctx tr hv).1]
      simp only [List.append_nil]
      exact emi_detach_eq_append _ _
    | true =>
      by_cases hr : env.request_firmware_nowait 1 ≠ 0
      · simp only [emi_loader_handler, ihex_validate_fw, hv, hr, if_true, ne_eq,
          not_true_eq_false, if_false, not_false_eq_true]
        exact shape_detach_snoc _ _ _ rfl
      · simp only [emi_loader_handler, ihex_validate_fw, hv, hr, if_true, ne_eq,
          not_true_eq_false, if_false] at hret ⊢
        exact shape_shift _ _ _ _ (bitstream_handler_shape env midi fuel (env.fw_delivered 1)
          { ctx with loader_fw := some f } _ f rfl hret) rfl

theorem inner_events_keep_reference (mid : List Event) (h : ∀ e ∈ mid, e.is_inner = true) :
    get_calls mid = 0 ∧ put_calls mid = 0 := by
  simp only [get_calls, put_calls, List.count_eq_zero]
  constructor
  · intro hm; exact absurd (h _ hm) (by decide)
  · intro hm; exact absurd (h _ hm) (by decide)

theorem detach_drops_reference (c : emi_context) :
    get_calls (emi_detach (some c) []) = 0 ∧ put_calls (emi_detach (some c) []) = 1 := by
  obtain ⟨p, l, b, f⟩ := c
  cases l <;> cases b <;> cases f <;> simp [emi_detach, release, get_calls, put_calls]

/-- On every terminal path of the three handlers (a session whose probe
succeeded and that has returned) the device reference is taken once and
dropped once, by the one `emi_detach` that ends the trace. -/
theorem handlers_drop_reference_once (env : Env) (midi : Int) (fuel : Nat) (product : Nat)
    (hprobe : (session env midi fuel product).ret = some 0)
    (hterminal : (session env midi fuel product).status = Status.returned) :
    get_calls (session env midi fuel product).trace = 1 ∧
    put_calls (session env midi fuel product).trace = 1 := by
  obtain ⟨hs, _⟩ := session_accepted env midi fuel product hprobe
  rw [hs] at hterminal ⊢
  obtain ⟨mid, h1, h2⟩ := loader_handler_shape env midi fuel (env.fw_delivered 0)
    (fresh_context product) probe_trace hterminal
  dsimp only
  rw [h1]
  have hm := inner_events_keep_reference mid h2
  have hd := detach_drops_reference
    (emi_loader_handler env midi fuel (env.fw_delivered 0) (fresh_context product)
      probe_trace).context
  simp only [get_calls, put_calls, List.count_append] at hm hd ⊢
  rw [hm.1, hm.2, hd.1, hd.2]
  exact ⟨by decide, by decide⟩

/-- C17 fails on the code: `usb_put_dev` is called only from `emi_detach`,
which `emi_probe` never calls.  When `emi_probe` rejects an unknown product
(`0x0200`), when it cannot allocate the context, and when its request for the
loader blob is refused, the reference taken by `usb_get_dev` is never
dropped. -/
theorem probe_failure_keeps_reference :
    ((session env_ok 0 2 0x0200).ret = some (-22) ∧
      (session env_ok 0 2 0x0200).trace = [Event.usb_get_dev] ∧
      get_calls (session env_ok 0 2 0x0200).trace = 1 ∧
      put_calls (session env_ok 0 2 0x0200).trace = 0) ∧
    ((session env_no_context 0 2 0x0100).trace = [Event.usb_get_dev, Event.kzalloc] ∧
      get_calls (session env_no_context 0 2 0x0100).trace = 1 ∧
      put_calls (session env_no_context 0 2 0x0100).trace = 0) ∧
    ((session env_refuse_loader 0 2 0x0100).ret = some (-2) ∧
      (session env_refuse_loader 0 2 0x0100).trace =
        [Event.usb_get_dev, Event.kzalloc, Event.request_firmware_nowait "emi/loader.fw",
         Event.kfree_context] ∧
      get_calls (session env_refuse_loader 0 2 0x0100).trace = 1 ∧
      put_calls (session env_refuse_loader 0 2 0x0100).trace = 0) := by
  decide

end Emi
